import Mathlib

/-!
Scheme selection, edge-normal gradients and equation assembly.

A shallow embedding of

* `src/finiteArea/finiteArea/lnGradSchemes/lnGradScheme/lnGradScheme.C`
  (the run-time selector `lnGradScheme<Type>::New` and the three `lnGrad`
  member functions),
* `src/finiteArea/finiteArea/lnGradSchemes/fourthLnGrad/fourthLnGrad.H`,
* the inter-phase exchange terms of
  `applications/solvers/multiphase/twoPhaseEulerFoam/EEqns.H`,

together with the equation-matrix operations (`fvm::laplacian`,
`fvMatrix::relax`) that `EEqns.H` calls.

Scalars are exact rationals; labels are natural numbers; a `List` stands for
an OpenFOAM `UList`/`Field`.
-/

namespace Foam

/-! ## Words, token streams, run-time selection tables -/

/-- An OpenFOAM `word`. -/
abbrev word := String

/-- Lexicographic comparison of two character sequences by character code,
the order of `std::string::operator<`. -/
def word.lessChars : List Char → List Char → Bool
  | _, [] => false
  | [], _ :: _ => true
  | a :: as, b :: bs =>
    if a.toNat < b.toNat then true
    else if b.toNat < a.toNat then false
    else word.lessChars as bs

/-- The comparison `a < b` of two words. -/
def word.less (a b : word) : Bool := word.lessChars a.data b.data

/-- The relation `a <= b` of two words, that is `!(b < a)`. -/
def word.le (a b : word) : Prop := word.less b a = false

instance word.decLe : DecidableRel word.le := fun a b =>
  inferInstanceAs (Decidable (word.less b a = false))

/-- Modelled from the spec: the `Istream` handed to a scheme selector (its
declaration is outside the embedded files).  It carries "a configuration
token (a word, optionally followed by scheme-specific parameters read from
the same configuration stream)"; the model keeps the tokens that are still
unread. -/
structure Istream where
  tokens : List word
deriving DecidableEq, Repr

namespace Istream

/-- The test `schemeData.eof()`: nothing is left to read. -/
def eof (is : Istream) : Bool := is.tokens.isEmpty

/-- The read `const word schemeName(schemeData)`: the next word together with
the stream positioned just after it. -/
def readWord (is : Istream) : Option (word × Istream) :=
  match is.tokens with
  | [] => none
  | w :: rest => some (w, ⟨rest⟩)

end Istream

/-- A run-time selection table: the entries of the `HashTable` from scheme
name to constructor pointer, in registration order. -/
abbrev HashTable (C : Type) := List (word × C)

namespace HashTable

/-- The lookup `MeshConstructorTable(schemeName)`: the constructor registered
under `k`, or `none` for the null pointer. -/
def lookup {C : Type} (t : HashTable C) (k : word) : Option C :=
  match t with
  | [] => none
  | (k', c) :: rest => if k' = k then some c else lookup rest k

/-- The table of contents `toc()`: the registered names. -/
def toc {C : Type} (t : HashTable C) : List word := t.map Prod.fst

/-- The sorted table of contents `sortedToc()`: the registered names in
ascending order. -/
def sortedToc {C : Type} (t : HashTable C) : List word :=
  (toc t).insertionSort word.le

end HashTable

/-- The fatal errors that `lnGradScheme<Type>::New` can exit with. -/
inductive IOerror where
  /-- `"Grad scheme not specified"` followed by `"Valid schemes are :"` and
  the sorted names. -/
  | notSpecified (validSchemes : List word)
  /-- Modelled from the spec: the macro `FatalIOErrorInLookup(ios, lookupTag,
  lookupName, lookupTable)` is defined outside the embedded files; the error is a
  "ConfigurationError naming the unknown scheme type and listing all
  registered valid names (sorted, for determinism)". -/
  | unknownType (lookupTag : String) (lookupName : word) (validTypes : List word)
deriving DecidableEq, Repr

/-- Modelled from the spec: the macro `FatalIOErrorInLookup` (defined outside
the embedded files) applied to a tag, the requested name and the lookup table. -/
def FatalIOErrorInLookup {C : Type} (lookupTag : String) (lookupName : word)
    (lookupTable : HashTable C) : IOerror :=
  IOerror.unknownType lookupTag lookupName (HashTable.sortedToc lookupTable)

namespace fa

/-- The selector `lnGradScheme<Type>::New(mesh, schemeData)`.  `M` is the mesh
type, `S` whatever the registered constructors return, and `table` is
`*MeshConstructorTablePtr_`. -/
def lnGradScheme.New {M S : Type} (table : HashTable (M → Istream → S))
    (mesh : M) (schemeData : Istream) : Except IOerror S :=
  if schemeData.eof then
    Except.error (IOerror.notSpecified (HashTable.sortedToc table))
  else
    match schemeData.readWord with
    -- not reached: a stream that is not at end-of-input holds a word
    | none => Except.error (IOerror.notSpecified (HashTable.sortedToc table))
    | some (schemeName, rest) =>
      match HashTable.lookup table schemeName with
      | none => Except.error (FatalIOErrorInLookup "grad" schemeName table)
      | some ctorPtr => Except.ok (ctorPtr mesh rest)

end fa

/-! ## Fields on a finite-area mesh -/

/-- Modelled from the spec: the "physical dimension tag" of a field (the class
`dimensionSet` is declared outside the embedded files), as the list of its
exponents. -/
abbrev dimensionSet := List Int

/-- Modelled from the spec: the product of two dimension tags (declared
outside the embedded files) adds the exponents. -/
def dimensionSet.mul (a b : dimensionSet) : dimensionSet := List.zipWith (fun x y => x + y) a b

/-- Modelled from the spec: the element access `l[i]` of a `UList` (declared
outside the embedded files).  A label outside the list is a TopologyMismatch,
"fatal ... must never be silently truncated/padded", hence no value. -/
def UList.elem {α : Type} (l : List α) (i : Nat) : Option α := l[i]?

/-- All results of a list of fallible computations, or failure if one of them
fails. -/
def UList.allSome {α : Type} : List (Option α) → Option (List α)
  | [] => some []
  | none :: _ => none
  | some a :: rest =>
    match UList.allSome rest with
    | none => none
    | some as => some (a :: as)

/-- A `GeometricField<scalar, faePatchField, edgeMesh>`: one value per internal
edge and, per boundary patch, one value per boundary edge. -/
structure edgeField where
  name : word
  dimensions : dimensionSet
  internalField : List ℚ
  boundaryField : List (List ℚ)
deriving DecidableEq, Repr

/-- The part of `faMesh` that `lnGrad` reads: owner and neighbour addressing
of the internal edges and the mesh difference coefficients. -/
structure faMesh where
  owner : List Nat
  neighbour : List Nat
  deltaCoeffs : edgeField
deriving DecidableEq, Repr

/-- A boundary patch field of an area field.  `snGrad` is the value of the
patch field's own virtual `snGrad()`. -/
structure faPatchField where
  value : List ℚ
  snGrad : List ℚ
deriving DecidableEq, Repr

/-- A `GeometricField<scalar, faPatchField, areaMesh>`. -/
structure areaField where
  name : word
  dimensions : dimensionSet
  mesh : faMesh
  internalField : List ℚ
  boundaryField : List faPatchField
deriving DecidableEq, Repr

/-- Modelled from the spec: the computed assignment `a += b` of two edge
fields (the operator is declared outside the embedded files).  Internal and
boundary values are added entry by entry; operands whose dimension tags or
sizes disagree are an error. -/
def edgeField.addAssign (a b : edgeField) : Option edgeField :=
  if a.dimensions = b.dimensions
      ∧ a.internalField.length = b.internalField.length
      ∧ a.boundaryField.map List.length = b.boundaryField.map List.length then
    some
      { name := a.name
        dimensions := a.dimensions
        internalField := List.zipWith (fun x y => x + y) a.internalField b.internalField
        boundaryField :=
          List.zipWith (fun p q => List.zipWith (fun x y => x + y) p q)
            a.boundaryField b.boundaryField }
  else none

namespace fa

/-- The abstract class `lnGradScheme<Type>`: the mesh it is bound to and its
three virtual member functions. -/
structure lnGradScheme where
  mesh : faMesh
  deltaCoeffs : areaField → edgeField
  corrected : Bool
  correction : areaField → edgeField

/-- The value of one internal edge in the loop of `lnGrad`:
`deltaCoeffs[faceI]*(vf[neighbour[faceI]] - vf[owner[faceI]])`. -/
def lnGradScheme.lnGradEdge (deltaCoeffs : List ℚ) (owner neighbour : List Nat)
    (vf : List ℚ) (faceI : Nat) : Option ℚ :=
  match UList.elem deltaCoeffs faceI, UList.elem neighbour faceI, UList.elem owner faceI with
  | some d, some n, some o =>
    match UList.elem vf n, UList.elem vf o with
    | some vn, some vo => some (d * (vn - vo))
    | _, _ => none
  | _, _, _ => none

/-- The default value `"lnGrad"` of the name argument of the static
`lnGrad`. -/
def lnGradScheme.defaultName : word := "lnGrad"

/-- The static member `lnGradScheme<Type>::lnGrad(vf, tdeltaCoeffs,
lnGradName)`: the uncorrected edge-normal gradient. -/
def lnGradScheme.lnGrad (vf : areaField) (tdeltaCoeffs : edgeField)
    (lnGradName : word) : Option edgeField :=
  let mesh := vf.mesh
  let deltaCoeffs := tdeltaCoeffs.internalField
  let owner := mesh.owner
  let neighbour := mesh.neighbour
  match UList.allSome ((List.range owner.length).map
      (lnGradScheme.lnGradEdge deltaCoeffs owner neighbour vf.internalField)) with
  | none => none
  | some ssf =>
    some
      { name := lnGradName ++ "(" ++ vf.name ++ ")"
        dimensions := dimensionSet.mul vf.dimensions tdeltaCoeffs.dimensions
        internalField := ssf
        boundaryField := vf.boundaryField.map faPatchField.snGrad }

/-- The member `lnGradScheme<Type>::lnGrad(vf) const`: the uncorrected
gradient with the scheme's difference coefficients, plus the explicit
correction when the scheme is corrected. -/
def lnGradScheme.lnGradOf (s : lnGradScheme) (vf : areaField) : Option edgeField :=
  match lnGradScheme.lnGrad vf (s.deltaCoeffs vf) lnGradScheme.defaultName with
  | none => none
  | some tsf =>
    if s.corrected then
      edgeField.addAssign tsf (s.correction vf)
    else
      some tsf

/-- The run-time type name `TypeName("fourth")` of `fourthLnGrad`. -/
def fourthLnGrad.typeName : word := "fourth"

/-- The class `fourthLnGrad<Type>` constructed from a mesh and a data stream.
Its `correction` is defined in `fourthLnGrad.C`, outside the embedded files,
and is a parameter here. -/
def fourthLnGrad (correction : faMesh → areaField → edgeField)
    (mesh : faMesh) (_ : Istream) : lnGradScheme :=
  { mesh := mesh
    deltaCoeffs := fun _ => mesh.deltaCoeffs
    corrected := true
    correction := correction mesh }

end fa

/-! ## The inter-phase exchange terms of the phase-energy equations -/

/-- A `volScalarField`, by its cell values. -/
abbrev volScalarField := List ℚ

/-- The product `a*b` of two fields, cell by cell. -/
def volScalarField.mul (a b : volScalarField) : volScalarField :=
  List.zipWith (fun x y => x * y) a b

/-- The sum `a + b` of two fields, cell by cell. -/
def volScalarField.add (a b : volScalarField) : volScalarField :=
  List.zipWith (fun x y => x + y) a b

/-- The difference `a - b` of two fields, cell by cell. -/
def volScalarField.sub (a b : volScalarField) : volScalarField :=
  List.zipWith (fun x y => x - y) a b

/-- The exchange term `Kh*(thermo2.T() - thermo1.T())` subtracted from
`E1Eqn`. -/
def E1Eqn.exchange (Kh T1 T2 : volScalarField) : volScalarField :=
  volScalarField.mul Kh (volScalarField.sub T2 T1)

/-- The exchange term `Kh*(thermo1.T() - thermo2.T())` subtracted from
`E2Eqn`. -/
def E2Eqn.exchange (Kh T1 T2 : volScalarField) : volScalarField :=
  volScalarField.mul Kh (volScalarField.sub T1 T2)

/-! ## Equation matrices -/

/-- Modelled from the spec: the "Mesh Topology" collaborator (the finite-volume
mesh classes are outside the embedded files): "owner/neighbour cell
adjacency for each face, cell volumes, face areas, and boundary patch
groupings".  `delta` is the distance that divides the face area in the
diffusion coefficient; `faceCells` and `boundaryMagSf` give the adjacent cell
and the area of every boundary face. -/
structure MeshTopology where
  nCells : Nat
  owner : List Nat
  neighbour : List Nat
  magSf : List ℚ
  delta : List ℚ
  faceCells : List Nat
  boundaryMagSf : List ℚ
deriving DecidableEq, Repr

/-- Modelled from the spec: the "EquationMatrix" (`fvMatrix` is outside the
embedded files): "diagonal coefficient per cell, one off-diagonal
coefficient per internal face (shared direction convention:
owner→neighbour), a source value per cell, and per-boundary-face ...
coefficient pairs".  A boundary pair holds what its face adds to the diagonal
and to the source of the adjacent cell. -/
structure EquationMatrix where
  diagonal : List ℚ
  offDiagonal : List ℚ
  source : List ℚ
  boundaryCoeffs : List (ℚ × ℚ)
deriving DecidableEq, Repr

namespace EquationMatrix

/-- Modelled from the spec: the sum of the off-diagonal entries of row `c` of
an "EquationMatrix", the coefficients of the internal faces that have `c` as
owner or as neighbour. -/
def rowOffDiagonal (c : Nat) : List Nat → List Nat → List ℚ → ℚ
  | o :: os, n :: ns, a :: as =>
    (if o = c then a else 0) + (if n = c then a else 0) + rowOffDiagonal c os ns as
  | _, _, _ => 0

/-- Modelled from the spec: the off-diagonal part `Σ offDiagonal·x_N` of row
`c` applied to the field `x`; every internal face of cell `c` contributes its
coefficient times the value in the cell on its other side. -/
def offDiagonalSum (c : Nat) (x : List ℚ) : List Nat → List Nat → List ℚ → ℚ
  | o :: os, n :: ns, a :: as =>
    (if o = c then a * x.getD n 0 else 0) + (if n = c then a * x.getD o 0 else 0)
      + offDiagonalSum c x os ns as
  | _, _, _ => 0

/-- Modelled from the spec: what the boundary pairs of the faces of cell `c`
add to its diagonal. -/
def boundaryDiagonal (c : Nat) : List Nat → List (ℚ × ℚ) → ℚ
  | p :: ps, b :: bs => (if p = c then b.1 else 0) + boundaryDiagonal c ps bs
  | _, _ => 0

/-- Modelled from the spec: what the boundary pairs of the faces of cell `c`
add to its source. -/
def boundarySource (c : Nat) : List Nat → List (ℚ × ℚ) → ℚ
  | p :: ps, b :: bs => (if p = c then b.2 else 0) + boundarySource c ps bs
  | _, _ => 0

/-- Modelled from the spec: the left-hand side `diagonal·x_P + Σ
offDiagonal·x_N` of row `c` of "the linear system `diagonal·x_P + Σ
offDiagonal·x_N = source`". -/
def lhs (A : EquationMatrix) (mesh : MeshTopology) (x : List ℚ) (c : Nat) : ℚ :=
  (A.diagonal.getD c 0 + boundaryDiagonal c mesh.faceCells A.boundaryCoeffs) * x.getD c 0
    + offDiagonalSum c x mesh.owner mesh.neighbour A.offDiagonal

/-- Modelled from the spec: the right-hand side `source` of row `c` of the
linear system. -/
def rhs (A : EquationMatrix) (mesh : MeshTopology) (c : Nat) : ℚ :=
  A.source.getD c 0 + boundarySource c mesh.faceCells A.boundaryCoeffs

/-- Modelled from the spec: the matrix is bound to the mesh, that is its
arrays have the sizes of the mesh and every face label is a cell of the mesh
(no "TopologyMismatch"). -/
def wellFormed (A : EquationMatrix) (mesh : MeshTopology) : Prop :=
  A.diagonal.length = mesh.nCells
    ∧ A.source.length = mesh.nCells
    ∧ A.offDiagonal.length = mesh.owner.length
    ∧ mesh.neighbour.length = mesh.owner.length
    ∧ A.boundaryCoeffs.length = mesh.faceCells.length
    ∧ (∀ o ∈ mesh.owner, o < mesh.nCells)
    ∧ (∀ n ∈ mesh.neighbour, n < mesh.nCells)
    ∧ (∀ p ∈ mesh.faceCells, p < mesh.nCells)

instance (A : EquationMatrix) (mesh : MeshTopology) : Decidable (wellFormed A mesh) := by
  unfold wellFormed; infer_instance

/-- Modelled from the spec: the field `x` is a solution of the linear system,
that is it has one value per cell and satisfies `diagonal·x_P + Σ
offDiagonal·x_N = source` in every cell. -/
def isSolution (A : EquationMatrix) (mesh : MeshTopology) (x : List ℚ) : Prop :=
  x.length = mesh.nCells ∧ ∀ c, c < mesh.nCells → lhs A mesh x c = rhs A mesh c

instance (A : EquationMatrix) (mesh : MeshTopology) (x : List ℚ) :
    Decidable (isSolution A mesh x) := by
  unfold isSolution; infer_instance

/-- Modelled from the spec: `relax(factor)` (`fvMatrix::relax` is outside the
embedded files; `EEqns.H` only calls it).  It "blends diagonal and source
toward the previous field value so that `factor=1` leaves the system
unchanged and `factor=0` makes the system degenerate to keep previous
value": the relaxed system is `factor` times the assembled system plus
`1 - factor` times the system `x = psiPrev`. -/
def relax (A : EquationMatrix) (factor : ℚ) (psiPrev : List ℚ) : EquationMatrix :=
  { diagonal := A.diagonal.map (fun d => factor * d + (1 - factor))
    offDiagonal := A.offDiagonal.map (fun a => factor * a)
    source := List.zipWith (fun s p => factor * s + (1 - factor) * p) A.source psiPrev
    boundaryCoeffs := A.boundaryCoeffs.map (fun b => (factor * b.1, factor * b.2)) }

end EquationMatrix

namespace fvm

/-- Modelled from the spec: accumulation into a coefficient array, the list
`l` with `v` added to its entry `i`. -/
def addAt : List ℚ → Nat → ℚ → List ℚ
  | [], _, _ => []
  | a :: as, 0, v => (a + v) :: as
  | a :: as, i + 1, v => a :: addAt as i v

/-- Modelled from the spec: the assembly loop of the diagonal of the diffusion
operator; every internal face subtracts its coefficient from the diagonal of
its owner and of its neighbour. -/
def negSumDiag (diag : List ℚ) : List Nat → List Nat → List ℚ → List ℚ
  | o :: os, n :: ns, a :: as => negSumDiag (addAt (addAt diag o (-a)) n (-a)) os ns as
  | _, _, _ => diag

/-- Modelled from the spec: the coefficient of every face, "face-interface
diffusivity × face area / face-to-cell-center distance". -/
def faceCoeffs : List ℚ → List ℚ → List ℚ → List ℚ
  | g :: gs, a :: as, d :: ds => g * a / d :: faceCoeffs gs as ds
  | _, _, _ => []

/-- Modelled from the spec: the boundary term of the diffusion operator.  A
boundary condition supplies per boundary face the pair `(value coefficient, gradient
coefficient)`; the face-normal gradient at the face is the gradient
coefficient times the difference between the value coefficient and the cell
value, so the face adds `-γ·A·gc` to the diagonal and `-γ·A·gc·vc` to the
source. -/
def boundaryTerm : List ℚ → List ℚ → List (ℚ × ℚ) → List (ℚ × ℚ)
  | g :: gs, a :: as, b :: bs =>
    (-(g * a * b.2), -(g * a * b.2 * b.1)) :: boundaryTerm gs as bs
  | _, _, _ => []

/-- Modelled from the spec: the diffusion operator builder `fvm::laplacian`
(outside the embedded files; `EEqns.H` only calls it): "diagonal/
off-diagonal from face-interface diffusivity × face area / face-to-cell-center
distance (orthogonal part)".  `gamma` and `boundaryGamma` are the diffusivity
on the internal and on the boundary faces, `bcs` the pairs supplied by the
boundary conditions. -/
def laplacian (mesh : MeshTopology) (gamma boundaryGamma : List ℚ)
    (bcs : List (ℚ × ℚ)) : EquationMatrix :=
  let coeffs := faceCoeffs gamma mesh.magSf mesh.delta
  { diagonal := negSumDiag (List.replicate mesh.nCells 0) mesh.owner mesh.neighbour coeffs
    offDiagonal := coeffs
    source := List.replicate mesh.nCells 0
    boundaryCoeffs := boundaryTerm boundaryGamma mesh.boundaryMagSf bcs }

/-- Modelled from the spec: the coefficient pair of a Dirichlet (fixed value)
boundary condition on a face at distance `dist` from the cell centre: the
value coefficient is the boundary value, the gradient coefficient is
`1/dist`. -/
def Dirichlet (value dist : ℚ) : ℚ × ℚ := (value, 1 / dist)

/-- Modelled from the spec: the 1-D mesh of the concrete scenario, 5 equal
cells of length 1 in a row with unit face areas; cell centres are at
distance 1 from each other. -/
def mesh1D : MeshTopology :=
  { nCells := 5
    owner := [0, 1, 2, 3]
    neighbour := [1, 2, 3, 4]
    magSf := [1, 1, 1, 1]
    delta := [1, 1, 1, 1]
    faceCells := [0, 4]
    boundaryMagSf := [1, 1] }

/-- Modelled from the spec: the pure diffusion equation of the concrete
scenario, with diffusivity 1, zero source and Dirichlet values 0 (left) and
100 (right) on the two end faces, which are at distance 1/2 from their cell
centres. -/
def diffusion1D : EquationMatrix :=
  laplacian mesh1D [1, 1, 1, 1] [1, 1] [Dirichlet 0 (1 / 2), Dirichlet 100 (1 / 2)]

end fvm

/-! ## The explicit divergence -/

namespace fvc

/-- Modelled from the spec: the face loop of the explicit divergence (the
"Explicit Evaluator"; `fvc::div` and `fvc::surfaceIntegrate` are outside the
embedded files, `EEqns.H` only calls `fvc::div`).  Every internal face's flux
is added to its owner cell and subtracted from its neighbour cell. -/
def surfaceSum (acc : List ℚ) : List Nat → List Nat → List ℚ → List ℚ
  | o :: os, n :: ns, phi :: phis =>
    surfaceSum (fvm.addAt (fvm.addAt acc o phi) n (-phi)) os ns phis
  | _, _, _ => acc

/-- Modelled from the spec: the boundary part of the explicit divergence;
the flux of every boundary face is added to the adjacent cell. -/
def boundarySum (acc : List ℚ) : List Nat → List ℚ → List ℚ
  | p :: ps, phi :: phis => boundarySum (fvm.addAt acc p phi) ps phis
  | _, _ => acc

/-- Modelled from the spec: the explicit divergence of a face flux field, per
cell the sum of the fluxes of its faces divided by the cell volume.  `V` holds
the cell volumes of the mesh topology, `ssf` the flux on the internal faces
and `bssf` the flux on the boundary faces. -/
def surfaceIntegrate (mesh : MeshTopology) (V ssf bssf : List ℚ) : List ℚ :=
  List.zipWith (fun s v => s / v)
    (boundarySum
      (surfaceSum (List.replicate mesh.nCells 0) mesh.owner mesh.neighbour ssf)
      mesh.faceCells bssf)
    V

/-- Modelled from the spec: the explicit convection term `fvc::div(flux, vf)`
of `EEqns.H`, the divergence of the face flux times the field interpolated to
the faces.  The face values `vff`, `bvff` are what the selected interpolation
scheme produces. -/
def div (mesh : MeshTopology) (V flux vff bflux bvff : List ℚ) : List ℚ :=
  surfaceIntegrate mesh V (List.zipWith (fun f x => f * x) flux vff)
    (List.zipWith (fun f x => f * x) bflux bvff)

/-- Modelled from the spec: the volume integral of a cell field, the sum over
all cells of cell volume times cell value. -/
def volumeIntegral (V vf : List ℚ) : ℚ :=
  (List.zipWith (fun v x => v * x) V vf).sum

end fvc

/-! ## The solve/correct loop -/

/-- Modelled from the spec: what the linear solver, "a black box returning a
solved field and residual", reports (the class `SolverPerformance` is outside
the embedded files). -/
structure SolverPerformance where
  initialResidual : ℚ
  finalResidual : ℚ
  converged : Bool
deriving DecidableEq, Repr

namespace solveCorrect

/-- Modelled from the spec: the solver controls, "per-equation tolerance ...
and maximum outer-iteration-count values", and the "hard failure threshold".
`nCorr` has the type of `energyTransport::nCorr_`, `tolerance` that of
`energyTransport::tol_`. -/
structure Controls where
  tolerance : ℚ
  nCorr : Int
  failureThreshold : ℚ
deriving DecidableEq, Repr

/-- The defaults of the usage table of `energyTransport.H`: `tolerance`
defaults to 1 and `nCorr` to 0 when the entry is absent. -/
def readControls (tolerance : Option ℚ) (nCorr : Option Int) (failureThreshold : ℚ) :
    Controls :=
  { tolerance := tolerance.getD 1
    nCorr := nCorr.getD 0
    failureThreshold := failureThreshold }

/-- Modelled from the spec: the states "{Assemble, Constrain, Solve,
BoundaryUpdate, Converged, Diverged}" of the solve/correct loop (the loop of
`energyTransport::execute` is outside the embedded files).  A state carries
what the next step consumes: the assembled equation, or the report of the
linear solver. -/
inductive LoopState (E : Type) where
  | Assemble
  | Constrain (eqn : E)
  | Solve (eqn : E)
  | BoundaryUpdate (report : SolverPerformance)
  | Converged
  | Diverged (report : SolverPerformance)

/-- Modelled from the spec: the collaborators of the loop, that is equation
assembly, the constraints of the options collaborator, the external linear
solver and the boundary update. -/
structure Collaborators (F E : Type) where
  assemble : F → E
  constrain : E → E
  linearSolver : E → F → SolverPerformance × F
  boundaryUpdate : F → F

/-- Modelled from the spec: the loop with its field, the number of outer
correctors used so far, the number of assemble-solve passes performed and the
residuals reported so far ("always reported even on success"). -/
structure Machine (F E : Type) where
  state : LoopState E
  field : F
  outerIter : Nat
  passes : Nat
  reports : List SolverPerformance

/-- Modelled from the spec: "Initial: Assemble". -/
def init {F E : Type} (field : F) : Machine F E :=
  { state := LoopState.Assemble, field := field, outerIter := 0, passes := 0, reports := [] }

/-- Modelled from the spec: "the linear solver reports non-convergence beyond
a hard failure threshold". -/
def hardFailure (ctl : Controls) (r : SolverPerformance) : Bool :=
  !r.converged && decide (ctl.failureThreshold < r.finalResidual)

/-- Modelled from the spec: "outer-loop tolerance met or outer-iteration count
exhausted". -/
def finished (ctl : Controls) (outerIter : Nat) (r : SolverPerformance) : Bool :=
  decide (r.initialResidual < ctl.tolerance) || decide (ctl.nCorr ≤ (outerIter : Int))

/-- Modelled from the spec: one transition of the loop.  "Assemble→Constrain
(always) →Solve (always) →BoundaryUpdate (always).  After BoundaryUpdate, if
outer-loop tolerance met or outer-iteration count exhausted → Converged
(terminal); else → Assemble ... Solve→Diverged (terminal) if the linear
solver reports non-convergence beyond a hard failure threshold ...; the field
retains its last valid value." -/
def step {F E : Type} (c : Collaborators F E) (ctl : Controls) (m : Machine F E) :
    Machine F E :=
  match m.state with
  | LoopState.Assemble => { m with state := LoopState.Constrain (c.assemble m.field) }
  | LoopState.Constrain eqn => { m with state := LoopState.Solve (c.constrain eqn) }
  | LoopState.Solve eqn =>
    let r := c.linearSolver eqn m.field
    if hardFailure ctl r.1 then
      { m with state := LoopState.Diverged r.1
               passes := m.passes + 1
               reports := m.reports ++ [r.1] }
    else
      { m with state := LoopState.BoundaryUpdate r.1
               field := r.2
               passes := m.passes + 1
               reports := m.reports ++ [r.1] }
  | LoopState.BoundaryUpdate report =>
    if finished ctl m.outerIter report then
      { m with state := LoopState.Converged, field := c.boundaryUpdate m.field }
    else
      { m with state := LoopState.Assemble
               field := c.boundaryUpdate m.field
               outerIter := m.outerIter + 1 }
  | LoopState.Converged => m
  | LoopState.Diverged _ => m

/-- Modelled from the spec: `fuel` transitions of the loop. -/
def run {F E : Type} (c : Collaborators F E) (ctl : Controls) : Nat → Machine F E → Machine F E
  | 0, m => m
  | fuel + 1, m => run c ctl fuel (step c ctl m)

/-- Modelled from the spec: the terminal states, Converged and Diverged. -/
def isTerminal {F E : Type} (m : Machine F E) : Bool :=
  match m.state with
  | LoopState.Converged => true
  | LoopState.Diverged _ => true
  | _ => false

end solveCorrect

/-! ## The statement sequence of `EEqns.H` -/

namespace EEqns

/-- The two phases whose energy equations `EEqns.H` assembles and solves. -/
inductive Phase where
  | one
  | two
deriving DecidableEq, Repr

/-- The statements of `EEqns.H`, by what they do: the declarations of `Cpv1`,
`Cpv2` and `Kh`, the construction `fvScalarMatrix E1Eqn(...)`, `E1Eqn.relax()`,
`E1Eqn -= (...)`, `fvOptions.constrain(E1Eqn)`, `E1Eqn.solve()`,
`fvOptions.correct(he1)` and `thermo1.correct()`, and the same for phase 2. -/
inductive Statement where
  | declareCpv (p : Phase)
  | declareKh
  | assemble (p : Phase)
  | relax (p : Phase)
  | subtract (p : Phase)
  | constrain (p : Phase)
  | solve (p : Phase)
  | correct (p : Phase)
  | thermoCorrect (p : Phase)
deriving DecidableEq, Repr

/-- The variables that `EEqns.H` reads and writes: the energies `he1`, `he2`
and temperatures of the two thermos, the local fields `Cpv1`, `Cpv2`, `Kh`, the
two equations once they are constructed, and the statements executed so
far.  `M` is the type of an `fvScalarMatrix`. -/
structure State (M : Type) where
  he1 : volScalarField
  he2 : volScalarField
  T1 : volScalarField
  T2 : volScalarField
  Cpv1 : volScalarField
  Cpv2 : volScalarField
  Kh : volScalarField
  E1Eqn : Option M
  E2Eqn : Option M
  log : List Statement

/-- The operations that `EEqns.H` calls and that are defined outside the
embedded files, as parameters: the thermo and fluid properties, the operator
sum that constructs an equation, `fvMatrix::relax`, the subtraction of the
bracketed source terms (which receives the exchange term
`Kh*(T_partner - T_self)`, `Kh`, `Cpv` and `he` of its phase),
`fvOptions.constrain`, `fvMatrix::solve` (which returns what the linear solver
reports and leaves the solved field), `fvOptions.correct` and
`thermo.correct`.  The fields that `EEqns.H` only reads (phase fractions,
densities, velocities, pressure, fluxes) are part of these functions. -/
structure Collaborators (M : Type) where
  Cpv : Phase → volScalarField → volScalarField → volScalarField
  Kh : volScalarField → volScalarField → volScalarField → volScalarField → volScalarField
  assemble : Phase → volScalarField → volScalarField → volScalarField → volScalarField → M
  relax : M → M
  subtract : Phase → M → volScalarField → volScalarField → volScalarField → volScalarField → M
  constrain : M → M
  solve : M → volScalarField → SolverPerformance × volScalarField
  correct : volScalarField → volScalarField
  thermoCorrect : Phase → volScalarField → volScalarField → volScalarField

/-- The statements of `EEqns.H` in the order of the file.  The reference
declarations of `he1`, `he2` and the two `Info` output statements change none
of the variables and are left out. -/
def statements : List Statement :=
  [ Statement.declareCpv Phase.one, Statement.declareCpv Phase.two, Statement.declareKh,
    Statement.assemble Phase.one, Statement.relax Phase.one, Statement.subtract Phase.one,
    Statement.assemble Phase.two, Statement.relax Phase.two, Statement.subtract Phase.two,
    Statement.constrain Phase.one, Statement.solve Phase.one, Statement.correct Phase.one,
    Statement.constrain Phase.two, Statement.solve Phase.two, Statement.correct Phase.two,
    Statement.thermoCorrect Phase.one, Statement.thermoCorrect Phase.two ]

/-- The effect of one statement of `EEqns.H` on the variables.  The value that
`E1Eqn.solve()` returns is discarded, as in the file. -/
def effect {M : Type} (c : Collaborators M) (s : State M) : Statement → State M
  | Statement.declareCpv Phase.one => { s with Cpv1 := c.Cpv Phase.one s.he1 s.T1 }
  | Statement.declareCpv Phase.two => { s with Cpv2 := c.Cpv Phase.two s.he2 s.T2 }
  | Statement.declareKh => { s with Kh := c.Kh s.he1 s.he2 s.T1 s.T2 }
  | Statement.assemble Phase.one =>
    { s with E1Eqn := some (c.assemble Phase.one s.he1 s.he2 s.T1 s.T2) }
  | Statement.assemble Phase.two =>
    { s with E2Eqn := some (c.assemble Phase.two s.he1 s.he2 s.T1 s.T2) }
  | Statement.relax Phase.one => { s with E1Eqn := s.E1Eqn.map c.relax }
  | Statement.relax Phase.two => { s with E2Eqn := s.E2Eqn.map c.relax }
  | Statement.subtract Phase.one =>
    { s with E1Eqn := s.E1Eqn.map (fun eqn =>
        c.subtract Phase.one eqn (E1Eqn.exchange s.Kh s.T1 s.T2) s.Kh s.Cpv1 s.he1) }
  | Statement.subtract Phase.two =>
    { s with E2Eqn := s.E2Eqn.map (fun eqn =>
        c.subtract Phase.two eqn (E2Eqn.exchange s.Kh s.T1 s.T2) s.Kh s.Cpv2 s.he2) }
  | Statement.constrain Phase.one => { s with E1Eqn := s.E1Eqn.map c.constrain }
  | Statement.constrain Phase.two => { s with E2Eqn := s.E2Eqn.map c.constrain }
  | Statement.solve Phase.one =>
    match s.E1Eqn with
    | some eqn => { s with he1 := (c.solve eqn s.he1).2 }
    | none => s
  | Statement.solve Phase.two =>
    match s.E2Eqn with
    | some eqn => { s with he2 := (c.solve eqn s.he2).2 }
    | none => s
  | Statement.correct Phase.one => { s with he1 := c.correct s.he1 }
  | Statement.correct Phase.two => { s with he2 := c.correct s.he2 }
  | Statement.thermoCorrect Phase.one => { s with T1 := c.thermoCorrect Phase.one s.he1 s.T1 }
  | Statement.thermoCorrect Phase.two => { s with T2 := c.thermoCorrect Phase.two s.he2 s.T2 }

/-- The execution of one statement: its effect, recorded in the log. -/
def exec {M : Type} (c : Collaborators M) (s : State M) (st : Statement) : State M :=
  { effect c s st with log := s.log ++ [st] }

/-- The execution of `EEqns.H`: its statements, one after the other. -/
def run {M : Type} (c : Collaborators M) (s : State M) : State M :=
  statements.foldl (exec c) s

/-- The equation of a phase as it is handed to `fvOptions.constrain`: the
operator sum, relaxed, with the bracketed source terms subtracted, all of it
evaluated on the fields `EEqns.H` starts from. -/
def assembled {M : Type} (c : Collaborators M) (s : State M) : Phase → M
  | Phase.one =>
    c.subtract Phase.one (c.relax (c.assemble Phase.one s.he1 s.he2 s.T1 s.T2))
      (E1Eqn.exchange (c.Kh s.he1 s.he2 s.T1 s.T2) s.T1 s.T2)
      (c.Kh s.he1 s.he2 s.T1 s.T2) (c.Cpv Phase.one s.he1 s.T1) s.he1
  | Phase.two =>
    c.subtract Phase.two (c.relax (c.assemble Phase.two s.he1 s.he2 s.T1 s.T2))
      (E2Eqn.exchange (c.Kh s.he1 s.he2 s.T1 s.T2) s.T1 s.T2)
      (c.Kh s.he1 s.he2 s.T1 s.T2) (c.Cpv Phase.two s.he2 s.T2) s.he2

/-- A linear solver that never converges: it reports non-convergence with
residual 1000 and leaves every value of the field increased by 1. -/
def failingSolve (_ : Unit) (he : volScalarField) : SolverPerformance × volScalarField :=
  ({ initialResidual := 1000, finalResidual := 1000, converged := false },
    he.map (fun x => x + 1))

/-- Collaborators for a run of `EEqns.H` in which the linear solver never
converges; the other operations do as little as possible. -/
def failingCollaborators : Collaborators Unit :=
  { Cpv := fun _ he _ => he
    Kh := fun he1 _ _ _ => he1
    assemble := fun _ _ _ _ _ => ()
    relax := fun m => m
    subtract := fun _ m _ _ _ _ => m
    constrain := fun m => m
    solve := failingSolve
    correct := fun he => he
    thermoCorrect := fun _ he _ => he }

/-- A one-cell state to start `EEqns.H` from. -/
def oneCell : State Unit :=
  { he1 := [300], he2 := [400], T1 := [30], T2 := [40], Cpv1 := [], Cpv2 := [], Kh := [],
    E1Eqn := none, E2Eqn := none, log := [] }

end EEqns

/-! ## Registration in run-time selection tables -/

/-- A category of run-time selectable types: the base type and the name of
the constructor argument list, the first and third argument of
`addToRunTimeSelectionTable(baseType, thisType, argNames)`.  Every category
has a selection table of its own. -/
structure Category where
  baseType : word
  argNames : word
deriving DecidableEq, Repr

/-- Modelled from the spec: the ConfigurationError of a registration,
"duplicate registration under an already-used name is a configuration-time
fatal error raised at program startup, not at first use". -/
inductive ConfigurationError where
  | duplicateEntry (lookupName : word) (category : Category)
deriving DecidableEq, Repr

/-- The selection tables of all categories. -/
abbrev Registry (C : Type) := Category → HashTable C

/-- The registry before any static initialiser has run. -/
def Registry.empty {C : Type} : Registry C := fun _ => []

/-- Modelled from the spec: the registration
`addToRunTimeSelectionTable(baseType, thisType, argNames)` (the macro is
defined outside the embedded files; the embedded files only use it).  "A
scheme implementation registers itself under a unique name within its
category; duplicate registration under an already-used name is a
configuration-time fatal error".  `lookupName` is `thisType::typeName` and
`ctor` the constructor of `thisType`. -/
def addToRunTimeSelectionTable {C : Type} (registry : Registry C) (category : Category)
    (lookupName : word) (ctor : C) : Except ConfigurationError (Registry C) :=
  if (HashTable.lookup (registry category) lookupName).isSome then
    Except.error (ConfigurationError.duplicateEntry lookupName category)
  else
    Except.ok (fun cat =>
      if cat = category then registry category ++ [(lookupName, ctor)] else registry cat)

/-- Modelled from the spec: program startup, the registrations of the static
initialisers one after the other; the first duplicate stops it. -/
def startup {C : Type} (registry : Registry C) :
    List (Category × word × C) → Except ConfigurationError (Registry C)
  | [] => Except.ok registry
  | (category, lookupName, ctor) :: rest =>
    match addToRunTimeSelectionTable registry category lookupName ctor with
    | Except.error e => Except.error e
    | Except.ok registry1 => startup registry1 rest

/-- The type name of `pointToPoint`, the key of its registrations and of its
usage entry `"Usage: pointToPoint <pointSet>"`. -/
def pointToPoint.typeName : word := "pointToPoint"

/-- The registrations of `pointToPoint.C` and of `layeredEngineMesh.C`, in
file order.  `layeredTypeName` is the type name of `layeredEngineMesh`, which
is declared outside the embedded files; a constructor is represented by its
name. -/
def staticRegistrations (layeredTypeName : word) : List (Category × word × word) :=
  [ (⟨"topoSetSource", "word"⟩, pointToPoint.typeName, "pointToPoint(mesh, word)"),
    (⟨"topoSetSource", "istream"⟩, pointToPoint.typeName, "pointToPoint(mesh, Istream)"),
    (⟨"topoSetPointSource", "word"⟩, pointToPoint.typeName, "pointToPoint(mesh, word)"),
    (⟨"topoSetPointSource", "istream"⟩, pointToPoint.typeName, "pointToPoint(mesh, Istream)"),
    (⟨"engineMesh", "IOobject"⟩, layeredTypeName, "layeredEngineMesh(io)") ]

/-! ## The point-set source `pointToPoint` -/

/-- A `topoSet`: a set of labels. -/
abbrev topoSet := Finset Nat

namespace topoSetSource

/-- The enumeration `topoSetSource::setAction`.  `applyToSet` names `ADD`,
`SUBTRACT` and `NEW`; the enumerators it does not name are declared outside
the embedded files and are told apart by a number. -/
inductive setAction where
  | ADD
  | SUBTRACT
  | NEW
  | other (n : Nat)
deriving DecidableEq, Repr

end topoSetSource

/-- The members `topoSet::addSet` and `topoSet::subtractSet`, which are
defined outside the embedded files, as parameters. -/
structure topoSetOps where
  addSet : topoSet → topoSet → topoSet
  subtractSet : topoSet → topoSet → topoSet

/-- The part of `polyMesh` that `pointToPoint` reads: the point zones by name,
`mesh_.pointZones()[setName]`, and the point sets stored with the mesh, which
`pointSet loadedSet(mesh_, setName, IOobject::NO_REGISTER)` loads by name.  A
name without zone or set gives no value. -/
structure polyMesh where
  pointZones : word → Option topoSet
  pointSets : word → Option topoSet

/-- The data members of `pointToPoint`. -/
structure pointToPoint where
  mesh_ : polyMesh
  names_ : List word
  isZone_ : Bool

namespace pointToPoint

/-- The body of the loop of the `ADD`/`NEW` branch of `applyToSet` for one
name. -/
def addOne (ops : topoSetOps) (this : pointToPoint) (set : topoSet) (setName : word) :
    Option topoSet :=
  if this.isZone_ then
    match this.mesh_.pointZones setName with
    | some zone => some (ops.addSet set zone)
    | none => none
  else
    match this.mesh_.pointSets setName with
    | some loadedSet => some (ops.addSet set loadedSet)
    | none => none

/-- The body of the loop of the `SUBTRACT` branch of `applyToSet` for one
name. -/
def subtractOne (ops : topoSetOps) (this : pointToPoint) (set : topoSet) (setName : word) :
    Option topoSet :=
  if this.isZone_ then
    match this.mesh_.pointZones setName with
    | some zone => some (ops.subtractSet set zone)
    | none => none
  else
    match this.mesh_.pointSets setName with
    | some loadedSet => some (ops.subtractSet set loadedSet)
    | none => none

/-- A loop `for (const word& setName : names_)` whose body updates the set and
may fail. -/
def forNames (body : topoSet → word → Option topoSet) : List word → topoSet → Option topoSet
  | [], set => some set
  | setName :: rest, set =>
    match body set setName with
    | some set1 => forNames body rest set1
    | none => none

/-- The member `pointToPoint::applyToSet(action, set)`; the result is the set
after the call.  The `Info` output under `verbose_` is left out. -/
def applyToSet (ops : topoSetOps) (this : pointToPoint) (action : topoSetSource.setAction)
    (set : topoSet) : Option topoSet :=
  if action = topoSetSource.setAction.ADD ∨ action = topoSetSource.setAction.NEW then
    forNames (addOne ops this) this.names_ set
  else if action = topoSetSource.setAction.SUBTRACT then
    forNames (subtractOne ops this) this.names_ set
  else
    some set

/-- The named source of `pointToPoint`: the point zone or the point set of
that name, according to `isZone_`. -/
def source (this : pointToPoint) (setName : word) : Option topoSet :=
  if this.isZone_ then this.mesh_.pointZones setName else this.mesh_.pointSets setName

/-- Set operations that add by union and subtract by difference. -/
def setAlgebra : topoSetOps :=
  { addSet := fun set other => set ∪ other
    subtractSet := fun set other => set \ other }

/-- A mesh with the point sets `a = {1, 2}` and `b = {2, 3}` and no point
zone. -/
def twoSets : polyMesh :=
  { pointZones := fun _ => none
    pointSets := fun setName =>
      if setName = "a" then some {1, 2} else if setName = "b" then some {2, 3} else none }

end pointToPoint

namespace EEqns

/-- The execution of the first `k` statements of `EEqns.H`. -/
def runPrefix {M : Type} (c : Collaborators M) (s : State M) (k : Nat) : State M :=
  (statements.take k).foldl (exec c) s

end EEqns

/-! ## The source terms subtracted from the energy equations -/

/-- The quotient `a/b` of two fields, cell by cell. -/
def volScalarField.div (a b : volScalarField) : volScalarField :=
  List.zipWith (fun x y => x / y) a b

namespace EquationMatrix

/-- Modelled from the spec: the negation `-A` of an "EquationMatrix" (the
operators of `fvMatrix` are outside the embedded files; `EEqns.H` only uses
them): "algebraic combination of multiple operator results via elementwise
addition/subtraction of diagonal, off-diagonal, and source arrays". -/
def neg (A : EquationMatrix) : EquationMatrix :=
  { diagonal := A.diagonal.map (fun d => -d)
    offDiagonal := A.offDiagonal.map (fun a => -a)
    source := A.source.map (fun s => -s)
    boundaryCoeffs := A.boundaryCoeffs.map (fun b => (-b.1, -b.2)) }

/-- Modelled from the spec: the sum `A + B` of two "EquationMatrix" values,
the "elementwise addition ... of diagonal, off-diagonal, and source
arrays". -/
def add (A B : EquationMatrix) : EquationMatrix :=
  { diagonal := List.zipWith (fun a b => a + b) A.diagonal B.diagonal
    offDiagonal := List.zipWith (fun a b => a + b) A.offDiagonal B.offDiagonal
    source := List.zipWith (fun a b => a + b) A.source B.source
    boundaryCoeffs :=
      List.zipWith (fun a b => (a.1 + b.1, a.2 + b.2)) A.boundaryCoeffs B.boundaryCoeffs }

/-- Modelled from the spec: the sum `A + su` of an "EquationMatrix" and an
explicit field, an "explicit (source-vector)" contribution.  The system reads
`diagonal·x_P + Σ offDiagonal·x_N = source`, so a term `su` added on its
left-hand side is subtracted from the source, weighted by the cell volumes
`V`. -/
def addSu (A : EquationMatrix) (V su : volScalarField) : EquationMatrix :=
  { A with source := List.zipWith (fun s e => s - e) A.source (volScalarField.mul V su) }

/-- Modelled from the spec: the value in cell `c` of the operator sum that an
"EquationMatrix" stands for, evaluated at the field `x`: the left-hand side of
`diagonal·x_P + Σ offDiagonal·x_N = source` minus its right-hand side. -/
def residual (A : EquationMatrix) (mesh : MeshTopology) (x : List ℚ) (c : Nat) : ℚ :=
  lhs A mesh x c - rhs A mesh c

end EquationMatrix

namespace fvm

/-- Modelled from the spec: the "Linearized sink (`Sp`)" operator `fvm::Sp(sp,
psi)` (outside the embedded files; `EEqns.H` only calls it): "diagonal +=
given coefficient", weighted by the cell volumes `V`; it has no off-diagonal,
source or boundary contribution. -/
def Sp (V sp : volScalarField) (mesh : MeshTopology) : EquationMatrix :=
  { diagonal := volScalarField.mul V sp
    offDiagonal := mesh.owner.map (fun _ => 0)
    source := List.replicate mesh.nCells 0
    boundaryCoeffs := mesh.faceCells.map (fun _ => (0, 0)) }

end fvm

namespace EEqns

/-- The bracketed term that `EEqns.H` subtracts from the equation of a phase,
`exchange + Kh*he/Cpv - fvm::Sp(Kh/Cpv, he) + alpha*rho*(U&g) + fvOptions(alpha,
rho, he)`, built in the order of the expression: the sum of the two fields
first, then the field minus the `Sp` matrix, then the gravity work `work`
(the field `alpha*rho*(U&g)`), then the matrix `options` that `fvOptions`
returns. -/
def sourceTerms (mesh : MeshTopology) (V exchange Kh he Cpv work : volScalarField)
    (options : EquationMatrix) : EquationMatrix :=
  EquationMatrix.add
    (EquationMatrix.addSu
      (EquationMatrix.addSu
        (EquationMatrix.neg (fvm.Sp V (volScalarField.div Kh Cpv) mesh)) V
        (volScalarField.add exchange (volScalarField.div (volScalarField.mul Kh he) Cpv)))
      V work)
    options

/-- The explicit part `Kh*he/Cpv` and the implicit part `fvm::Sp(Kh/Cpv, he)`
of the bracketed term, `Kh*he/Cpv - fvm::Sp(Kh/Cpv, he)`, on their own. -/
def linearisation (mesh : MeshTopology) (V Kh he Cpv : volScalarField) : EquationMatrix :=
  EquationMatrix.addSu (EquationMatrix.neg (fvm.Sp V (volScalarField.div Kh Cpv) mesh)) V
    (volScalarField.div (volScalarField.mul Kh he) Cpv)

end EEqns

/-- The term `(...)` in `E1Eqn -= (...)`. -/
def E1Eqn.sourceTerms (mesh : MeshTopology) (V Kh T1 T2 he1 Cpv1 work : volScalarField)
    (options : EquationMatrix) : EquationMatrix :=
  EEqns.sourceTerms mesh V (E1Eqn.exchange Kh T1 T2) Kh he1 Cpv1 work options

/-- The term `(...)` in `E2Eqn -= (...)`. -/
def E2Eqn.sourceTerms (mesh : MeshTopology) (V Kh T1 T2 he2 Cpv2 work : volScalarField)
    (options : EquationMatrix) : EquationMatrix :=
  EEqns.sourceTerms mesh V (E2Eqn.exchange Kh T1 T2) Kh he2 Cpv2 work options

/-- An equation matrix with no entries but the given diagonal and source. -/
def EquationMatrix.ofDiagonalSource (diagonal source : List ℚ) : EquationMatrix :=
  { diagonal := diagonal, offDiagonal := [], source := source, boundaryCoeffs := [] }

/-! ## The layered engine mesh -/

/-- A `point` (a `vector`), by its three components. -/
structure point where
  x : ℚ
  y : ℚ
  z : ℚ
deriving DecidableEq, Repr

/-- The quotient `a/b` of two scalars, with the division by zero as failure. -/
def scalar.divide (a b : ℚ) : Option ℚ :=
  if b = 0 then none else some (a / b)

/-- A `layeredEngineMesh`, by what `move` reads and writes: the mesh points,
`pistonPosition_` and `deckHeight_` of `engineMesh`, `pistonLayers_`, and the
flux field `phi` if one is registered in `engineDB_`.  `Φ` is the type of a
`surfaceScalarField`. -/
structure layeredEngineMesh (Φ : Type) where
  points : List point
  pistonPosition_ : ℚ
  deckHeight_ : ℚ
  pistonLayers_ : ℚ
  phi : Option Φ

namespace layeredEngineMesh

/-- The local `pistonPlusLayers` of `move`, "position of the top of the
static mesh layers above the piston". -/
def pistonPlusLayers {Φ : Type} (this : layeredEngineMesh Φ) : ℚ :=
  this.pistonPosition_ + this.pistonLayers_

/-- The body of the point loop of `move`: a point in the piston bowl is
displaced by `deltaZ`, a point in the liner region by the share
`(deckHeight - z)/(deckHeight - pistonPlusLayers)` of `deltaZ`, any other
point is left as it is. -/
def movePoint (deltaZ pistonPlusLayers deckHeight : ℚ) (p : point) : point :=
  if p.z < pistonPlusLayers then
    { p with z := p.z + deltaZ }
  else if p.z < deckHeight then
    { p with z := p.z + deltaZ * (deckHeight - p.z) / (deckHeight - pistonPlusLayers) }
  else
    p

/-- The body of the point loop of `move` with the division checked: no result
where the liner branch divides by zero. -/
def movePointChecked (deltaZ pistonPlusLayers deckHeight : ℚ) (p : point) : Option point :=
  if p.z < pistonPlusLayers then
    some { p with z := p.z + deltaZ }
  else if p.z < deckHeight then
    (scalar.divide (deltaZ * (deckHeight - p.z)) (deckHeight - pistonPlusLayers)).map
      (fun d => { p with z := p.z + d })
  else
    some p

/-- The member `move()`.  `deltaZ` is the value of
`engineDB_.pistonDisplacement()`, `moving` that of `moving()`;
`makeAbsolute` and `makeRelative` are the two updates of `phi` by
`fvc::interpolate(rho)*fvc::meshPhi(rho, U)` before and after the points are
moved, and `movePoints(newPoints)` makes `newPoints` the points of the mesh
(these operations are outside the embedded files). -/
def move {Φ : Type} (this : layeredEngineMesh Φ) (deltaZ : ℚ) (moving : Bool)
    (makeAbsolute makeRelative : Φ → Φ) : layeredEngineMesh Φ :=
  let newPoints := this.points.map (movePoint deltaZ this.pistonPlusLayers this.deckHeight_)
  let phi :=
    match this.phi with
    | some phi => some (if moving then makeRelative (makeAbsolute phi) else phi)
    | none => none
  { this with
    points := newPoints
    phi := phi
    pistonPosition_ := this.pistonPosition_ + deltaZ }

/-- A cylinder with the piston at height 0, one static layer of thickness 1
above it and the deck at height 5, with a point in the piston bowl, one in
the liner region, one on the deck and one above it; no flux field is
registered. -/
def cylinder : layeredEngineMesh Unit :=
  { points := [⟨1, 2, 1 / 2⟩, ⟨3, 4, 3⟩, ⟨5, 6, 5⟩, ⟨7, 8, 6⟩]
    pistonPosition_ := 0
    deckHeight_ := 5
    pistonLayers_ := 1
    phi := none }

/-- A mesh whose piston, at height 10, is above the deck, at height 0, with
one point at height 5 between them. -/
def pistonAboveDeck : layeredEngineMesh Unit :=
  { points := [⟨0, 0, 5⟩]
    pistonPosition_ := 10
    deckHeight_ := 0
    pistonLayers_ := 0
    phi := none }

end layeredEngineMesh

/-! ## Stream input and output of a DSMC parcel -/

/-- A `vector`, by its three components, as a `point` is. -/
abbrev vector := point

namespace IOstreamOption

/-- The data format of a stream. -/
inductive streamFormat where
  | ASCII
  | BINARY
deriving DecidableEq, Repr

end IOstreamOption

/-- A stream, by what `DSMCParcelIO.C` asks of it: its `format()`, the values
of `checkLabelSize<>()` and `checkScalarSize<>()`, and its characters: for an
output stream those written so far, for an input stream those not yet read.
`C` is the type of a character. -/
structure IOstream (C : Type) where
  format : IOstreamOption.streamFormat
  checkLabelSize : Bool
  checkScalarSize : Bool
  content : List C

/-- The operations on streams and on the memory of a parcel that
`DSMCParcelIO.C` calls and that are defined outside the embedded files, as
parameters.  `B` is the base `ParcelType`.  Output operations give the
characters they write; input operations take the unread characters and give
what they read and the characters left, or nothing where the stream goes bad.
`writeParcel` is `os << static_cast<const ParcelType&>(p)` and `readParcel` the
base constructor `ParcelType(mesh, is, readFields, newFormat)`;
`writeVector`, `writeScalar`, `writeLabel` are `os << p.U()`, `os << p.Ei()`,
`os << p.typeId()` and `readVector`, `readScalar`, `readLabel` are `is >> U_`,
`is >> Ei_`, `is >> typeId_`; `write` is `os.write(buf, n)` and `read` is
`is.read(buf, n)`; `objectBytes U Ei typeId n` are the `n` bytes of a parcel
with these members from the address of `U_` on, and `store` gives the members
after bytes have been copied to that address. -/
structure IOstream.Primitives (C B : Type) where
  SPACE : C
  writeParcel : IOstreamOption.streamFormat → B → List C
  readParcel : IOstreamOption.streamFormat → Bool → Bool → List C → Option (B × List C)
  writeVector : vector → List C
  writeScalar : ℚ → List C
  writeLabel : Int → List C
  readVector : List C → Option (vector × List C)
  readScalar : List C → Option (ℚ × List C)
  readLabel : List C → Option (Int × List C)
  write : List C → List C
  read : Nat → List C → Option (List C × List C)
  beginRawRead : List C → Option (List C)
  readRawScalar : Nat → List C → Option (List ℚ × List C)
  readRawLabel : List C → Option (Int × List C)
  endRawRead : List C → Option (List C)
  sizeofFields : Nat
  objectBytes : vector → ℚ → Int → Nat → List C
  store : List C → vector × ℚ × Int

/-- The round-trip laws of the stream operations, for reading what was
written: the base parcel type round-trips; a vector, a
scalar and a label written in ASCII after a `token::SPACE` are read back as
they were; a block written by `os.write` is read back by `is.read` of the same
size; and the `sizeofFields` bytes from the address of `U_` on are that many
and hold the three members. -/
structure IOstream.Primitives.RoundTrips {C B : Type} (ops : IOstream.Primitives C B) :
    Prop where
  parcel : ∀ format newFormat b rest,
    ops.readParcel format true newFormat (ops.writeParcel format b ++ rest) = some (b, rest)
  vector : ∀ v rest, ops.readVector (ops.SPACE :: (ops.writeVector v ++ rest)) = some (v, rest)
  scalar : ∀ s rest, ops.readScalar (ops.SPACE :: (ops.writeScalar s ++ rest)) = some (s, rest)
  label : ∀ l rest, ops.readLabel (ops.SPACE :: (ops.writeLabel l ++ rest)) = some (l, rest)
  raw : ∀ bytes rest, ops.read bytes.length (ops.write bytes ++ rest) = some (bytes, rest)
  size : ∀ U Ei typeId n, (ops.objectBytes U Ei typeId n).length = n
  members : ∀ U Ei typeId,
    ops.store (ops.objectBytes U Ei typeId ops.sizeofFields) = (U, Ei, typeId)

/-- A `DSMCParcel<ParcelType>`: the base parcel and the members `U_`, `Ei_`
and `typeId_`. -/
structure DSMCParcel (ParcelType : Type) where
  base : ParcelType
  U_ : vector
  Ei_ : ℚ
  typeId_ : Int

/-- The constructor `DSMCParcel(mesh, is, readFields, newFormat)`: the base
parcel is constructed from the stream, the members are initialised to `Zero`,
`0.0` and `-1`, and with `readFields` they are read from the stream, in ASCII
one after the other, in binary with a non-native label or scalar size through
`readRawScalar` and `readRawLabel`, and else as one block of `sizeofFields`
bytes copied to the address of `U_`.  The result is the parcel and the stream
after the read; nothing where the stream has gone bad (`is.check`). -/
def DSMCParcel.construct {C B : Type} (ops : IOstream.Primitives C B) (is : IOstream C)
    (readFields newFormat : Bool) : Option (DSMCParcel B × IOstream C) :=
  match ops.readParcel is.format readFields newFormat is.content with
  | none => none
  | some (base, c0) =>
    if readFields then
      if is.format = IOstreamOption.streamFormat.ASCII then
        match ops.readVector c0 with
        | none => none
        | some (U, c1) =>
          match ops.readScalar c1 with
          | none => none
          | some (Ei, c2) =>
            match ops.readLabel c2 with
            | none => none
            | some (typeId, c3) =>
              some ({ base := base, U_ := U, Ei_ := Ei, typeId_ := typeId },
                { is with content := c3 })
      else if !is.checkLabelSize || !is.checkScalarSize then
        match ops.beginRawRead c0 with
        | none => none
        | some c1 =>
          match ops.readRawScalar 3 c1 with
          | some ([x, y, z], c2) =>
            match ops.readRawScalar 1 c2 with
            | some ([Ei], c3) =>
              match ops.readRawLabel c3 with
              | none => none
              | some (typeId, c4) =>
                match ops.endRawRead c4 with
                | none => none
                | some c5 =>
                  some ({ base := base, U_ := ⟨x, y, z⟩, Ei_ := Ei, typeId_ := typeId },
                    { is with content := c5 })
            | _ => none
          | _ => none
      else
        match ops.read ops.sizeofFields c0 with
        | none => none
        | some (bytes, c1) =>
          some ({ base := base, U_ := (ops.store bytes).1, Ei_ := (ops.store bytes).2.1,
                  typeId_ := (ops.store bytes).2.2 },
            { is with content := c1 })
    else
      some ({ base := base, U_ := ⟨0, 0, 0⟩, Ei_ := 0, typeId_ := -1 }, { is with content := c0 })

/-- The operator `operator<<(Ostream&, const DSMCParcel<ParcelType>&)`: in
ASCII the base parcel, then `U`, `Ei` and `typeId`, each after a
`token::SPACE`; else the base parcel, then the `sizeofFields` bytes from the
address of `U_` on as one block. -/
def DSMCParcel.write {C B : Type} (ops : IOstream.Primitives C B) (os : IOstream C)
    (p : DSMCParcel B) : IOstream C :=
  if os.format = IOstreamOption.streamFormat.ASCII then
    { os with
      content := os.content ++ (ops.writeParcel os.format p.base
        ++ (ops.SPACE :: (ops.writeVector p.U_
        ++ (ops.SPACE :: (ops.writeScalar p.Ei_
        ++ (ops.SPACE :: ops.writeLabel p.typeId_)))))) }
  else
    { os with
      content := os.content ++ (ops.writeParcel os.format p.base
        ++ ops.write (ops.objectBytes p.U_ p.Ei_ p.typeId_ ops.sizeofFields)) }

namespace DSMCParcel

/-- A character of the example stream: a space or a number. -/
inductive exampleChar where
  | SPACE
  | number (q : ℚ)
deriving DecidableEq, Repr

/-- The number at the head of an example stream, after at most one space. -/
def exampleNumber : List exampleChar → Option (ℚ × List exampleChar)
  | exampleChar.SPACE :: exampleChar.number q :: rest => some (q, rest)
  | exampleChar.number q :: rest => some (q, rest)
  | _ => none

/-- An example of stream operations: every number is one character, the base
parcel is one number, a vector is three numbers, a block is its characters
as they are, and a parcel takes five characters in memory. -/
def exampleStream : IOstream.Primitives exampleChar ℚ :=
  { SPACE := exampleChar.SPACE
    writeParcel := fun _ b => [exampleChar.number b]
    readParcel := fun _ _ _ c => exampleNumber c
    writeVector := fun v => [exampleChar.number v.x, exampleChar.number v.y, exampleChar.number v.z]
    writeScalar := fun s => [exampleChar.number s]
    writeLabel := fun l => [exampleChar.number l]
    readVector := fun c =>
      match c with
      | exampleChar.SPACE :: exampleChar.number x :: exampleChar.number y
          :: exampleChar.number z :: rest => some (⟨x, y, z⟩, rest)
      | _ => none
    readScalar := exampleNumber
    readLabel := fun c => (exampleNumber c).map (fun r => (r.1.num, r.2))
    write := fun bytes => bytes
    read := fun n c => if n ≤ c.length then some (c.take n, c.drop n) else none
    beginRawRead := fun c => some c
    readRawScalar := fun _ _ => none
    readRawLabel := fun _ => none
    endRawRead := fun c => some c
    sizeofFields := 5
    objectBytes := fun U Ei typeId n =>
      ([exampleChar.number U.x, exampleChar.number U.y, exampleChar.number U.z,
        exampleChar.number Ei, exampleChar.number typeId]
        ++ List.replicate (n - 5) exampleChar.SPACE).take n
    store := fun bytes =>
      match bytes with
      | [exampleChar.number x, exampleChar.number y, exampleChar.number z,
          exampleChar.number Ei, exampleChar.number typeId] => (⟨x, y, z⟩, Ei, typeId.num)
      | _ => (⟨0, 0, 0⟩, 0, -1) }

/-- An example parcel. -/
def exampleParcel : DSMCParcel ℚ :=
  { base := 7, U_ := ⟨1, 2, 3⟩, Ei_ := 1 / 2, typeId_ := 4 }

end DSMCParcel

end Foam

open Foam

/-! ## Properties of the word order and of selection tables -/

theorem word.lessChars_asymm : ∀ (a b : List Char),
    word.lessChars a b = true → word.lessChars b a = false
  | _, [] => by intro h; simp [word.lessChars] at h
  | [], _ :: _ => by intro _; simp [word.lessChars]
  | a :: as, b :: bs => by
    intro h
    simp only [word.lessChars] at h ⊢
    split_ifs at h ⊢ with h1 h2 h3
    · omega
    · rfl
    · exact word.lessChars_asymm as bs h

theorem word.lessChars_trans : ∀ (a b c : List Char),
    word.lessChars b a = false → word.lessChars c b = false → word.lessChars c a = false
  | [], _, c => by intro _ _; cases c <;> simp [word.lessChars]
  | _ :: _, [], _ => by intro h1 _; simp [word.lessChars] at h1
  | _ :: _, _ :: _, [] => by intro _ h2; simp [word.lessChars] at h2
  | a :: as, b :: bs, c :: cs => by
    intro h1 h2
    simp only [word.lessChars] at h1 h2 ⊢
    split_ifs at h1 h2 ⊢ <;>
      first
      | omega
      | rfl
      | exact word.lessChars_trans as bs cs h1 h2

theorem word.le_total (a b : word) : word.le a b ∨ word.le b a := by
  unfold word.le word.less
  cases h : word.lessChars a.data b.data
  · exact Or.inr rfl
  · exact Or.inl (word.lessChars_asymm _ _ h)

theorem word.le_trans {a b c : word} (h1 : word.le a b) (h2 : word.le b c) : word.le a c := by
  unfold word.le word.less at *
  exact word.lessChars_trans _ _ _ h1 h2

theorem word.eq_of_toNat (a b : Char) (h1 : ¬ a.toNat < b.toNat) (h2 : ¬ b.toNat < a.toNat) :
    a = b := by
  have : a.toNat = b.toNat := by omega
  exact Char.ext (UInt32.ext this)

theorem word.lessChars_iff_lt : ∀ (a b : List Char), word.lessChars a b = true ↔ a < b
  | [], [] => by simp [word.lessChars]
  | [], _ :: _ => by simp only [word.lessChars, true_iff]; exact List.Lex.nil
  | _ :: _, [] => by simp [word.lessChars]
  | a :: as, b :: bs => by
    simp only [word.lessChars]
    split_ifs with h1 h2
    · simp only [true_iff]
      exact List.Lex.rel (show a.toNat < b.toNat from h1)
    · simp only [Bool.false_eq_true, false_iff]
      intro h
      cases h with
      | rel h' => exact h1 h'
      | cons h' => omega
    · have hab : a = b := word.eq_of_toNat a b h1 h2
      subst hab
      rw [word.lessChars_iff_lt as bs]
      exact List.Lex.cons_iff.symm

theorem word.less_iff_lt (a b : word) : word.less a b = true ↔ a < b := by
  rw [String.lt_iff_toList_lt]
  exact word.lessChars_iff_lt a.data b.data

theorem word.le_iff_le (a b : word) : word.le a b ↔ a ≤ b := by
  rw [← not_lt, ← word.less_iff_lt]
  unfold word.le
  cases word.less b a <;> simp

theorem HashTable.sortedToc_sorted {C : Type} (t : HashTable C) :
    List.Sorted (fun a b : word => a ≤ b) (HashTable.sortedToc t) := by
  haveI : IsTotal word word.le := ⟨word.le_total⟩
  haveI : IsTrans word word.le := ⟨fun _ _ _ => word.le_trans⟩
  have h := List.sorted_insertionSort word.le (HashTable.toc t)
  exact List.Pairwise.imp (fun {a b} hab => (word.le_iff_le a b).1 hab) h

theorem HashTable.sortedToc_perm {C : Type} (t : HashTable C) :
    List.Perm (HashTable.sortedToc t) (HashTable.toc t) :=
  List.perm_insertionSort word.le (HashTable.toc t)

theorem HashTable.lookup_isSome_iff {C : Type} (t : HashTable C) (k : word) :
    (HashTable.lookup t k).isSome = true ↔ k ∈ HashTable.toc t := by
  induction t with
  | nil => simp [HashTable.lookup, HashTable.toc]
  | cons e rest ih =>
    obtain ⟨k', c⟩ := e
    by_cases h : k' = k
    · simp [HashTable.lookup, HashTable.toc, h]
    · have h' : ¬ k = k' := fun e => h e.symm
      simp only [HashTable.lookup, h, if_false, ih]
      simp [HashTable.toc, h']

theorem HashTable.mem_sortedToc_iff {C : Type} (t : HashTable C) (k : word) :
    k ∈ HashTable.sortedToc t ↔ (HashTable.lookup t k).isSome = true := by
  rw [HashTable.lookup_isSome_iff]
  exact (HashTable.sortedToc_perm t).mem_iff

/-! ## The selector `lnGradScheme::New` -/

/-- C1: for every constructor table and every stream that is not at
end-of-input and whose first word is not registered in the table,
`lnGradScheme::New` fails with the lookup error that names the requested word
and lists the sorted table of contents; that list is in ascending order, is a
rearrangement of the registered names, and holds exactly the names the table
can look up.  The order is the lexicographic order of strings. -/
theorem lnGradScheme_New_unknown_lists_sorted {M S : Type}
    (table : HashTable (M → Istream → S)) (mesh : M) (schemeData : Istream)
    (schemeName : word) (rest : List word)
    (hfirst : schemeData.tokens = schemeName :: rest)
    (hunreg : HashTable.lookup table schemeName = none) :
    fa.lnGradScheme.New table mesh schemeData
        = Except.error (IOerror.unknownType "grad" schemeName (HashTable.sortedToc table))
      ∧ List.Sorted (fun a b : word => a ≤ b) (HashTable.sortedToc table)
      ∧ List.Perm (HashTable.sortedToc table) (HashTable.toc table)
      ∧ ∀ n, n ∈ HashTable.sortedToc table ↔ (HashTable.lookup table n).isSome = true := by
  refine ⟨?_, HashTable.sortedToc_sorted table, HashTable.sortedToc_perm table,
    HashTable.mem_sortedToc_iff table⟩
  obtain ⟨tokens⟩ := schemeData
  simp only at hfirst
  subst hfirst
  simp [fa.lnGradScheme.New, Istream.eof, Istream.readWord, hunreg, FatalIOErrorInLookup]

/-- The scenario of C1: requesting `bogusScheme` from the category whose
registered names are `linear`, `upwind` and `limitedLinear` fails listing
exactly `limitedLinear`, `linear`, `upwind`. -/
theorem lnGradScheme_New_unknown_lists_sorted_witness :
    fa.lnGradScheme.New
        [("linear", fun (_ : Unit) (_ : Istream) => (0 : Nat)),
         ("upwind", fun _ _ => 1), ("limitedLinear", fun _ _ => 2)]
        () ⟨["bogusScheme", "0.33"]⟩
      = Except.error
          (IOerror.unknownType "grad" "bogusScheme" ["limitedLinear", "linear", "upwind"]) :=
  (lnGradScheme_New_unknown_lists_sorted
    [("linear", fun (_ : Unit) (_ : Istream) => (0 : Nat)),
     ("upwind", fun _ _ => 1), ("limitedLinear", fun _ _ => 2)]
    () ⟨["bogusScheme", "0.33"]⟩ "bogusScheme" ["0.33"] rfl rfl).1

/-- C2: `lnGradScheme::New` returns a scheme exactly when the stream is not
at end-of-input and its first word is registered in the constructor table,
and the scheme returned is the registered constructor applied to the mesh and
to the stream positioned just after the scheme word; for the table that
registers `fourthLnGrad` under its type name the result is the `fourth`
scheme bound to the mesh. -/
theorem lnGradScheme_New_ok_iff {M S : Type}
    (table : HashTable (M → Istream → S)) (mesh : M) (schemeData : Istream) (r : S) :
    (fa.lnGradScheme.New table mesh schemeData = Except.ok r
      ↔ schemeData.eof = false
        ∧ ∃ schemeName rest ctorPtr,
            schemeData.tokens = schemeName :: rest
            ∧ HashTable.lookup table schemeName = some ctorPtr
            ∧ r = ctorPtr mesh ⟨rest⟩)
    ∧ ∀ (correction : faMesh → areaField → edgeField) (m : faMesh) (params : List word),
        fa.lnGradScheme.New [(fa.fourthLnGrad.typeName, fa.fourthLnGrad correction)] m
            ⟨"fourth" :: params⟩
          = Except.ok (fa.fourthLnGrad correction m ⟨params⟩) := by
  refine ⟨?_, fun correction m params => rfl⟩
  obtain ⟨tokens⟩ := schemeData
  cases tokens with
  | nil => simp [fa.lnGradScheme.New, Istream.eof]
  | cons w rest =>
    cases hl : HashTable.lookup table w with
    | none => simp [fa.lnGradScheme.New, Istream.eof, Istream.readWord, hl]
    | some ctorPtr =>
      simp only [fa.lnGradScheme.New, Istream.eof, Istream.readWord, hl, List.isEmpty_cons,
        Bool.false_eq_true, if_false, Except.ok.injEq, true_and]
      constructor
      · intro h
        exact ⟨w, rest, ctorPtr, rfl, hl, h.symm⟩
      · rintro ⟨w', rest', c', hw, hl', hr⟩
        simp only [List.cons.injEq] at hw
        obtain ⟨rfl, rfl⟩ := hw
        rw [hl] at hl'
        cases hl'
        exact hr.symm

/-! ## The uncorrected edge-normal gradient -/

theorem UList.allSome_eq_some {α : Type} : ∀ (l : List (Option α)) (r : List α),
    UList.allSome l = some r → l = r.map some
  | [], r => by
    intro h
    simp only [UList.allSome, Option.some.injEq] at h
    subst h
    rfl
  | none :: _, r => by intro h; simp [UList.allSome] at h
  | some a :: rest, r => by
    intro h
    simp only [UList.allSome] at h
    cases hr : UList.allSome rest with
    | none => simp [hr] at h
    | some as =>
      simp only [hr, Option.some.injEq] at h
      subst h
      simp [UList.allSome_eq_some rest as hr]

theorem UList.allSome_of_forall_isSome {α : Type} : ∀ (l : List (Option α)),
    (∀ x ∈ l, x.isSome = true) → ∃ r, UList.allSome l = some r
  | [], _ => ⟨[], rfl⟩
  | none :: _, h => by simpa using h none (List.mem_cons_self _ _)
  | some a :: rest, h => by
    obtain ⟨as, has⟩ := UList.allSome_of_forall_isSome rest
      (fun x hx => h x (List.mem_cons_of_mem _ hx))
    exact ⟨a :: as, by simp [UList.allSome, has]⟩

theorem fa.lnGradScheme.lnGradEdge_isSome (deltaCoeffs : List ℚ) (owner neighbour : List Nat)
    (vf : List ℚ) (faceI : Nat)
    (hd : deltaCoeffs.length = owner.length) (hn : neighbour.length = owner.length)
    (ho : ∀ o ∈ owner, o < vf.length) (hnb : ∀ n ∈ neighbour, n < vf.length)
    (hf : faceI < owner.length) :
    (fa.lnGradScheme.lnGradEdge deltaCoeffs owner neighbour vf faceI).isSome = true := by
  have h1 : faceI < deltaCoeffs.length := by omega
  have h2 : faceI < neighbour.length := by omega
  have h3 : owner[faceI] < vf.length := ho _ (List.getElem_mem _)
  have h4 : neighbour[faceI] < vf.length := hnb _ (List.getElem_mem _)
  simp [fa.lnGradScheme.lnGradEdge, UList.elem, List.getElem?_eq_getElem, h1, h2, hf, h3, h4]

theorem fa.lnGradScheme.lnGradEdge_eq (deltaCoeffs : List ℚ) (owner neighbour : List Nat)
    (vf : List ℚ) (faceI : Nat) (d vo vn : ℚ) (o n : Nat)
    (hd : deltaCoeffs[faceI]? = some d) (ho : owner[faceI]? = some o)
    (hn : neighbour[faceI]? = some n) (hvo : vf[o]? = some vo) (hvn : vf[n]? = some vn) :
    fa.lnGradScheme.lnGradEdge deltaCoeffs owner neighbour vf faceI = some (d * (vn - vo)) := by
  simp [fa.lnGradScheme.lnGradEdge, UList.elem, hd, ho, hn, hvo, hvn]

/-- C4: when the difference coefficients have one entry per internal edge and
every owner and neighbour label indexes a cell value, the static `lnGrad`
returns an edge field (and nothing else: no matrix coefficients) that has one
internal value per owner entry, whose value on every internal edge is
`deltaCoeffs[f] * (vf[neighbour[f]] - vf[owner[f]])`, and whose boundary
patches are the `snGrad()` of the patch fields of `vf`, in order. -/
theorem lnGradScheme_lnGrad_reference (vf : areaField) (tdeltaCoeffs : edgeField)
    (lnGradName : word)
    (hd : tdeltaCoeffs.internalField.length = vf.mesh.owner.length)
    (hn : vf.mesh.neighbour.length = vf.mesh.owner.length)
    (ho : ∀ o ∈ vf.mesh.owner, o < vf.internalField.length)
    (hnb : ∀ n ∈ vf.mesh.neighbour, n < vf.internalField.length) :
    ∃ ssf, fa.lnGradScheme.lnGrad vf tdeltaCoeffs lnGradName = some ssf
      ∧ ssf.internalField.length = vf.mesh.owner.length
      ∧ (∀ (faceI o n : Nat) (d vo vn : ℚ),
          tdeltaCoeffs.internalField[faceI]? = some d →
          vf.mesh.owner[faceI]? = some o →
          vf.mesh.neighbour[faceI]? = some n →
          vf.internalField[o]? = some vo →
          vf.internalField[n]? = some vn →
          ssf.internalField[faceI]? = some (d * (vn - vo)))
      ∧ ssf.boundaryField.length = vf.boundaryField.length
      ∧ (∀ (patchI : Nat) (pf : faPatchField),
          vf.boundaryField[patchI]? = some pf → ssf.boundaryField[patchI]? = some pf.snGrad) := by
  obtain ⟨r, hr⟩ := UList.allSome_of_forall_isSome
    ((List.range vf.mesh.owner.length).map
      (fa.lnGradScheme.lnGradEdge tdeltaCoeffs.internalField vf.mesh.owner vf.mesh.neighbour
        vf.internalField))
    (by
      intro x hx
      obtain ⟨faceI, hf, rfl⟩ := List.mem_map.1 hx
      exact fa.lnGradScheme.lnGradEdge_isSome _ _ _ _ _ hd hn ho hnb (List.mem_range.1 hf))
  have hmap := UList.allSome_eq_some _ _ hr
  have hlen : r.length = vf.mesh.owner.length := by
    have := congrArg List.length hmap
    simpa using this.symm
  refine ⟨{ name := lnGradName ++ "(" ++ vf.name ++ ")",
             dimensions := dimensionSet.mul vf.dimensions tdeltaCoeffs.dimensions,
             internalField := r,
             boundaryField := vf.boundaryField.map faPatchField.snGrad },
    by simp only [fa.lnGradScheme.lnGrad, hr], hlen, ?_, by simp, ?_⟩
  · intro faceI o n d vo vn h1 h2 h3 h4 h5
    have hf : faceI < vf.mesh.owner.length := by
      rcases Nat.lt_or_ge faceI vf.mesh.owner.length with h | h
      · exact h
      · rw [List.getElem?_eq_none h] at h2
        cases h2
    have hget := congrArg (fun l => l[faceI]?) hmap
    simp only [List.getElem?_map, List.getElem?_range hf, Option.map_some'] at hget
    rw [fa.lnGradScheme.lnGradEdge_eq _ _ _ _ _ d vo vn o n h1 h2 h3 h4 h5] at hget
    show r[faceI]? = some (d * (vn - vo))
    cases hrf : r[faceI]? with
    | none => simp [hrf] at hget
    | some v =>
      simp only [hrf, Option.map_some', Option.some.injEq] at hget
      rw [hget]
  · intro patchI pf hpf
    simp [hpf]

/-- A two-cell area field with one internal edge and one boundary patch: the
gradient on the edge is `2 * (5 - 1)` and the patch value is the patch
field's own `snGrad()`. -/
theorem lnGradScheme_lnGrad_reference_witness :
    ∃ ssf, fa.lnGradScheme.lnGrad
        { name := "T", dimensions := [0, 0, 0, 1, 0], internalField := [1, 5],
          mesh := { owner := [0], neighbour := [1],
                    deltaCoeffs := { name := "deltaCoeffs", dimensions := [0, -1, 0, 0, 0],
                                     internalField := [2], boundaryField := [[4]] } },
          boundaryField := [{ value := [7], snGrad := [3] }] }
        { name := "deltaCoeffs", dimensions := [0, -1, 0, 0, 0],
          internalField := [2], boundaryField := [[4]] }
        "lnGrad" = some ssf
      ∧ ssf.internalField.length = 1
      ∧ ssf.internalField[0]? = some (2 * (5 - 1))
      ∧ ssf.boundaryField[0]? = some [3] := by
  obtain ⟨ssf, h1, h2, h3, _, h5⟩ := lnGradScheme_lnGrad_reference
    { name := "T", dimensions := [0, 0, 0, 1, 0], internalField := [1, 5],
      mesh := { owner := [0], neighbour := [1],
                deltaCoeffs := { name := "deltaCoeffs", dimensions := [0, -1, 0, 0, 0],
                                 internalField := [2], boundaryField := [[4]] } },
      boundaryField := [{ value := [7], snGrad := [3] }] }
    { name := "deltaCoeffs", dimensions := [0, -1, 0, 0, 0],
      internalField := [2], boundaryField := [[4]] }
    "lnGrad" rfl rfl (by simp) (by simp)
  exact ⟨ssf, h1, h2, h3 0 0 1 2 1 5 rfl rfl rfl rfl rfl, h5 0 _ rfl⟩

/-! ## The inter-phase exchange terms -/

theorem volScalarField.getElem?_zipWith (f : ℚ → ℚ → ℚ) (a b : List ℚ) (i : Nat) (x y : ℚ)
    (ha : a[i]? = some x) (hb : b[i]? = some y) :
    (List.zipWith f a b)[i]? = some (f x y) := by
  induction a generalizing b i with
  | nil => simp at ha
  | cons a0 as ih =>
    cases b with
    | nil => simp at hb
    | cons b0 bs =>
      cases i with
      | zero =>
        simp only [List.getElem?_cons_zero, Option.some.injEq] at ha hb
        simp [ha, hb]
      | succ j =>
        simp only [List.getElem?_cons_succ] at ha hb
        simpa using ih bs j ha hb

/-- C3: in every cell the exchange term subtracted from `E1Eqn` is
`Kh*(T2 - T1)`, the one subtracted from `E2Eqn` is `Kh*(T1 - T2)`, and their
sum is exactly zero, whatever the values of `Kh`, `T1` and `T2` in that
cell. -/
theorem EEqns_exchange_sum_zero (Kh T1 T2 : volScalarField) (celli : Nat) (k t1 t2 : ℚ)
    (hK : Kh[celli]? = some k) (hT1 : T1[celli]? = some t1) (hT2 : T2[celli]? = some t2) :
    (E1Eqn.exchange Kh T1 T2)[celli]? = some (k * (t2 - t1))
      ∧ (E2Eqn.exchange Kh T1 T2)[celli]? = some (k * (t1 - t2))
      ∧ (volScalarField.add (E1Eqn.exchange Kh T1 T2) (E2Eqn.exchange Kh T1 T2))[celli]?
          = some 0 := by
  have h1 : (E1Eqn.exchange Kh T1 T2)[celli]? = some (k * (t2 - t1)) :=
    volScalarField.getElem?_zipWith _ _ _ _ _ _ hK
      (volScalarField.getElem?_zipWith _ _ _ _ _ _ hT2 hT1)
  have h2 : (E2Eqn.exchange Kh T1 T2)[celli]? = some (k * (t1 - t2)) :=
    volScalarField.getElem?_zipWith _ _ _ _ _ _ hK
      (volScalarField.getElem?_zipWith _ _ _ _ _ _ hT1 hT2)
  refine ⟨h1, h2, ?_⟩
  have h3 := volScalarField.getElem?_zipWith (fun x y => x + y) _ _ _ _ _ h1 h2
  have h4 : k * (t2 - t1) + k * (t1 - t2) = 0 := by ring
  simpa [volScalarField.add, h4] using h3

/-- Two cells with `Kh = [3, 1/2]`, `T1 = [300, 310]`, `T2 = [350, 290]`: in
cell 1 the two exchange terms are `-10` and `10` and their sum is `0`. -/
theorem EEqns_exchange_sum_zero_witness :
    (E1Eqn.exchange [3, 1 / 2] [300, 310] [350, 290])[1]? = some ((1 / 2) * (290 - 310))
      ∧ (E2Eqn.exchange [3, 1 / 2] [300, 310] [350, 290])[1]? = some ((1 / 2) * (310 - 290))
      ∧ (volScalarField.add (E1Eqn.exchange [3, 1 / 2] [300, 310] [350, 290])
            (E2Eqn.exchange [3, 1 / 2] [300, 310] [350, 290]))[1]? = some 0 :=
  EEqns_exchange_sum_zero [3, 1 / 2] [300, 310] [350, 290] 1 (1 / 2) 310 290 rfl rfl rfl

/-! ## The corrected edge-normal gradient -/

/-- C5: the correction is purely additive and explicit.  For every scheme
and field, `lnGrad(vf)` is the uncorrected `lnGrad(vf, deltaCoeffs(vf))`
alone when `corrected()` is false, and that same uncorrected gradient with
`correction(vf)` added to it when `corrected()` is true; the sum has, on
every internal edge and every boundary edge, the uncorrected value plus the
correction value, computed with the scheme's own difference coefficients.
The `fourth` scheme is always corrected and its difference coefficients are
the mesh's, whatever the field. -/
theorem lnGradScheme_lnGrad_correction_additive (s : fa.lnGradScheme) (vf : areaField) :
    (s.corrected = false →
        fa.lnGradScheme.lnGradOf s vf
          = fa.lnGradScheme.lnGrad vf (s.deltaCoeffs vf) fa.lnGradScheme.defaultName)
      ∧ (s.corrected = true →
        fa.lnGradScheme.lnGradOf s vf
          = (fa.lnGradScheme.lnGrad vf (s.deltaCoeffs vf) fa.lnGradScheme.defaultName).bind
              (fun tsf => edgeField.addAssign tsf (s.correction vf)))
      ∧ (∀ tsf r : edgeField, edgeField.addAssign tsf (s.correction vf) = some r →
          r.internalField.length = tsf.internalField.length
          ∧ (∀ (faceI : Nat) (g c : ℚ), tsf.internalField[faceI]? = some g →
              (s.correction vf).internalField[faceI]? = some c →
              r.internalField[faceI]? = some (g + c))
          ∧ (∀ (patchI : Nat) (pg pc : List ℚ) (i : Nat) (g c : ℚ),
              tsf.boundaryField[patchI]? = some pg →
              (s.correction vf).boundaryField[patchI]? = some pc →
              pg[i]? = some g → pc[i]? = some c →
              ∃ pr, r.boundaryField[patchI]? = some pr ∧ pr[i]? = some (g + c)))
      ∧ (∀ (correction : faMesh → areaField → edgeField) (mesh : faMesh) (is : Istream),
          (fa.fourthLnGrad correction mesh is).corrected = true
          ∧ (fa.fourthLnGrad correction mesh is).deltaCoeffs vf = mesh.deltaCoeffs) := by
  refine ⟨?_, ?_, ?_, fun _ _ _ => ⟨rfl, rfl⟩⟩
  · intro hc
    simp only [fa.lnGradScheme.lnGradOf, hc]
    cases fa.lnGradScheme.lnGrad vf (s.deltaCoeffs vf) fa.lnGradScheme.defaultName <;> simp
  · intro hc
    simp only [fa.lnGradScheme.lnGradOf, hc]
    cases fa.lnGradScheme.lnGrad vf (s.deltaCoeffs vf) fa.lnGradScheme.defaultName <;> simp
  · intro tsf r hr
    unfold edgeField.addAssign at hr
    split_ifs at hr with hcond
    simp only [Option.some.injEq] at hr
    subst hr
    refine ⟨by simp [hcond.2.1], ?_, ?_⟩
    · intro faceI g c hg hcv
      exact volScalarField.getElem?_zipWith _ _ _ _ _ _ hg hcv
    · intro patchI pg pc i g c hpg hpc hg hcv
      refine ⟨List.zipWith (fun x y => x + y) pg pc, ?_, ?_⟩
      · show (List.zipWith (fun p q => List.zipWith (fun x y => x + y) p q)
            tsf.boundaryField (s.correction vf).boundaryField)[patchI]? = _
        clear hcond
        generalize tsf.boundaryField = A at hpg
        generalize (s.correction vf).boundaryField = B at hpc
        induction A generalizing B patchI with
        | nil => simp at hpg
        | cons a0 as ih =>
          cases B with
          | nil => simp at hpc
          | cons b0 bs =>
            cases patchI with
            | zero =>
              simp only [List.getElem?_cons_zero, Option.some.injEq] at hpg hpc
              simp [hpg, hpc]
            | succ j =>
              simp only [List.getElem?_cons_succ] at hpg hpc
              simpa using ih j hpg bs hpc
      · exact volScalarField.getElem?_zipWith _ _ _ _ _ _ hg hcv

/-- The `fourth` scheme on a two-cell mesh: it is corrected, so its `lnGrad`
is the uncorrected gradient with the mesh difference coefficients, with the
correction added. -/
theorem lnGradScheme_lnGrad_correction_additive_witness :
    fa.lnGradScheme.lnGradOf
        (fa.fourthLnGrad
          (fun _ _ => { name := "corr", dimensions := [0, -1, 0, 1, 0],
                        internalField := [1 / 4], boundaryField := [[0]] })
          { owner := [0], neighbour := [1],
            deltaCoeffs := { name := "deltaCoeffs", dimensions := [0, -1, 0, 0, 0],
                             internalField := [2], boundaryField := [[4]] } }
          ⟨[]⟩)
        { name := "T", dimensions := [0, 0, 0, 1, 0], internalField := [1, 5],
          mesh := { owner := [0], neighbour := [1],
                    deltaCoeffs := { name := "deltaCoeffs", dimensions := [0, -1, 0, 0, 0],
                                     internalField := [2], boundaryField := [[4]] } },
          boundaryField := [{ value := [7], snGrad := [3] }] }
      = (fa.lnGradScheme.lnGrad
          { name := "T", dimensions := [0, 0, 0, 1, 0], internalField := [1, 5],
            mesh := { owner := [0], neighbour := [1],
                      deltaCoeffs := { name := "deltaCoeffs", dimensions := [0, -1, 0, 0, 0],
                                       internalField := [2], boundaryField := [[4]] } },
            boundaryField := [{ value := [7], snGrad := [3] }] }
          { name := "deltaCoeffs", dimensions := [0, -1, 0, 0, 0],
            internalField := [2], boundaryField := [[4]] }
          "lnGrad").bind
          (fun tsf => edgeField.addAssign tsf
            { name := "corr", dimensions := [0, -1, 0, 1, 0],
              internalField := [1 / 4], boundaryField := [[0]] }) :=
  (lnGradScheme_lnGrad_correction_additive
    (fa.fourthLnGrad
      (fun _ _ => { name := "corr", dimensions := [0, -1, 0, 1, 0],
                    internalField := [1 / 4], boundaryField := [[0]] })
      { owner := [0], neighbour := [1],
        deltaCoeffs := { name := "deltaCoeffs", dimensions := [0, -1, 0, 0, 0],
                         internalField := [2], boundaryField := [[4]] } }
      ⟨[]⟩)
    { name := "T", dimensions := [0, 0, 0, 1, 0], internalField := [1, 5],
      mesh := { owner := [0], neighbour := [1],
                deltaCoeffs := { name := "deltaCoeffs", dimensions := [0, -1, 0, 0, 0],
                                 internalField := [2], boundaryField := [[4]] } },
      boundaryField := [{ value := [7], snGrad := [3] }] }).2.1 rfl

/-! ## The diffusion operator -/

theorem fvm.length_addAt : ∀ (l : List ℚ) (i : Nat) (v : ℚ), (fvm.addAt l i v).length = l.length
  | [], _, _ => rfl
  | _ :: _, 0, _ => rfl
  | a :: as, i + 1, v => by simp [fvm.addAt, fvm.length_addAt as i v]

theorem fvm.getD_addAt : ∀ (l : List ℚ) (i : Nat) (v : ℚ) (j : Nat), j < l.length →
    (fvm.addAt l i v).getD j 0 = l.getD j 0 + (if i = j then v else 0)
  | [], _, _, _ => by intro h; simp at h
  | a :: as, 0, v, 0 => by intro _; simp [fvm.addAt]
  | a :: as, 0, v, j + 1 => by intro _; simp [fvm.addAt]
  | a :: as, i + 1, v, 0 => by intro _; simp [fvm.addAt]
  | a :: as, i + 1, v, j + 1 => by
    intro h
    have h' : j < as.length := by simpa using h
    simpa [fvm.addAt] using fvm.getD_addAt as i v j h'

theorem fvm.length_negSumDiag : ∀ (os ns : List Nat) (as : List ℚ) (diag : List ℚ),
    (fvm.negSumDiag diag os ns as).length = diag.length
  | [], _, _, _ => by simp [fvm.negSumDiag]
  | _ :: _, [], _, _ => by simp [fvm.negSumDiag]
  | _ :: _, _ :: _, [], _ => by simp [fvm.negSumDiag]
  | o :: os, n :: ns, a :: as, diag => by
    simp [fvm.negSumDiag, fvm.length_negSumDiag os ns as, fvm.length_addAt]

theorem fvm.getD_negSumDiag (c : Nat) : ∀ (os ns : List Nat) (as : List ℚ) (diag : List ℚ),
    c < diag.length →
    (fvm.negSumDiag diag os ns as).getD c 0
      = diag.getD c 0 - EquationMatrix.rowOffDiagonal c os ns as
  | [], _, _, _ => by intro _; simp [fvm.negSumDiag, EquationMatrix.rowOffDiagonal]
  | _ :: _, [], _, _ => by intro _; simp [fvm.negSumDiag, EquationMatrix.rowOffDiagonal]
  | _ :: _, _ :: _, [], _ => by intro _; simp [fvm.negSumDiag, EquationMatrix.rowOffDiagonal]
  | o :: os, n :: ns, a :: as, diag => by
    intro hc
    have h1 : c < (fvm.addAt diag o (-a)).length := by rw [fvm.length_addAt]; exact hc
    have h2 : c < (fvm.addAt (fvm.addAt diag o (-a)) n (-a)).length := by
      rw [fvm.length_addAt]; exact h1
    simp only [fvm.negSumDiag, EquationMatrix.rowOffDiagonal]
    rw [fvm.getD_negSumDiag c os ns as _ h2, fvm.getD_addAt _ _ _ _ h1,
      fvm.getD_addAt _ _ _ _ hc]
    split_ifs <;> ring

theorem EquationMatrix.offDiagonalSum_uniform (c nCells : Nat) (v : ℚ) :
    ∀ (os ns : List Nat) (as : List ℚ),
    (∀ o ∈ os, o < nCells) → (∀ n ∈ ns, n < nCells) →
    EquationMatrix.offDiagonalSum c (List.replicate nCells v) os ns as
      = EquationMatrix.rowOffDiagonal c os ns as * v
  | [], _, _ => by
    intro _ _; simp [EquationMatrix.offDiagonalSum, EquationMatrix.rowOffDiagonal]
  | _ :: _, [], _ => by
    intro _ _; simp [EquationMatrix.offDiagonalSum, EquationMatrix.rowOffDiagonal]
  | _ :: _, _ :: _, [] => by
    intro _ _; simp [EquationMatrix.offDiagonalSum, EquationMatrix.rowOffDiagonal]
  | o :: os, n :: ns, a :: as => by
    intro ho hn
    have ho0 : o < nCells := ho o (List.mem_cons_self _ _)
    have hn0 : n < nCells := hn n (List.mem_cons_self _ _)
    have hgo : (List.replicate nCells v).getD o 0 = v := by
      simp [List.getD_eq_getElem?_getD, List.getElem?_replicate, ho0]
    have hgn : (List.replicate nCells v).getD n 0 = v := by
      simp [List.getD_eq_getElem?_getD, List.getElem?_replicate, hn0]
    simp only [EquationMatrix.offDiagonalSum, EquationMatrix.rowOffDiagonal, hgo, hgn]
    rw [EquationMatrix.offDiagonalSum_uniform c nCells v os ns as
      (fun x hx => ho x (List.mem_cons_of_mem _ hx))
      (fun x hx => hn x (List.mem_cons_of_mem _ hx))]
    split_ifs <;> ring

theorem EquationMatrix.boundaryDiagonal_interior (c : Nat) :
    ∀ (ps : List Nat) (bs : List (ℚ × ℚ)), c ∉ ps →
    EquationMatrix.boundaryDiagonal c ps bs = 0
  | [], _, _ => by simp [EquationMatrix.boundaryDiagonal]
  | _ :: _, [], _ => by simp [EquationMatrix.boundaryDiagonal]
  | p :: ps, b :: bs, h => by
    have hp : ¬ p = c := fun e => h (e ▸ List.mem_cons_self _ _)
    have hps : c ∉ ps := fun e => h (List.mem_cons_of_mem _ e)
    simp [EquationMatrix.boundaryDiagonal, hp,
      EquationMatrix.boundaryDiagonal_interior c ps bs hps]

theorem EquationMatrix.boundarySource_interior (c : Nat) :
    ∀ (ps : List Nat) (bs : List (ℚ × ℚ)), c ∉ ps →
    EquationMatrix.boundarySource c ps bs = 0
  | [], _, _ => by simp [EquationMatrix.boundarySource]
  | _ :: _, [], _ => by simp [EquationMatrix.boundarySource]
  | p :: ps, b :: bs, h => by
    have hp : ¬ p = c := fun e => h (e ▸ List.mem_cons_self _ _)
    have hps : c ∉ ps := fun e => h (List.mem_cons_of_mem _ e)
    simp [EquationMatrix.boundarySource, hp,
      EquationMatrix.boundarySource_interior c ps bs hps]

/-- C6: in the matrix assembled by the diffusion operator the diagonal
coefficient of every cell is the negative sum of the off-diagonal entries of
its row, and at every interior cell (a cell without boundary face) the
assembled operator applied to a uniform field gives zero, which is also the
right-hand side there. -/
theorem laplacian_diffusion_consistency (mesh : MeshTopology)
    (gamma boundaryGamma : List ℚ) (bcs : List (ℚ × ℚ)) (c : Nat) (v : ℚ)
    (hc : c < mesh.nCells)
    (ho : ∀ o ∈ mesh.owner, o < mesh.nCells)
    (hn : ∀ n ∈ mesh.neighbour, n < mesh.nCells)
    (hint : c ∉ mesh.faceCells) :
    (fvm.laplacian mesh gamma boundaryGamma bcs).diagonal[c]?
        = some (-(EquationMatrix.rowOffDiagonal c mesh.owner mesh.neighbour
            (fvm.laplacian mesh gamma boundaryGamma bcs).offDiagonal))
      ∧ EquationMatrix.lhs (fvm.laplacian mesh gamma boundaryGamma bcs) mesh
          (List.replicate mesh.nCells v) c = 0
      ∧ EquationMatrix.rhs (fvm.laplacian mesh gamma boundaryGamma bcs) mesh c = 0 := by
  have hlen : c < (fvm.negSumDiag (List.replicate mesh.nCells 0) mesh.owner mesh.neighbour
      (fvm.faceCoeffs gamma mesh.magSf mesh.delta)).length := by
    rw [fvm.length_negSumDiag]; simpa using hc
  have hD := fvm.getD_negSumDiag c mesh.owner mesh.neighbour
    (fvm.faceCoeffs gamma mesh.magSf mesh.delta) (List.replicate mesh.nCells 0)
    (by simpa using hc)
  have hz : (List.replicate mesh.nCells (0 : ℚ)).getD c 0 = 0 := by
    simp [List.getD_eq_getElem?_getD, List.getElem?_replicate, hc]
  rw [hz, zero_sub] at hD
  have hv : (List.replicate mesh.nCells v).getD c 0 = v := by
    simp [List.getD_eq_getElem?_getD, List.getElem?_replicate, hc]
  refine ⟨?_, ?_, ?_⟩
  · show (fvm.negSumDiag (List.replicate mesh.nCells 0) mesh.owner mesh.neighbour
        (fvm.faceCoeffs gamma mesh.magSf mesh.delta))[c]? = _
    rw [List.getElem?_eq_getElem hlen, ← List.getD_eq_getElem _ 0 hlen, hD]
    rfl
  · show (List.getD (fvm.negSumDiag (List.replicate mesh.nCells 0) mesh.owner mesh.neighbour
        (fvm.faceCoeffs gamma mesh.magSf mesh.delta)) c 0
        + EquationMatrix.boundaryDiagonal c mesh.faceCells _)
          * (List.replicate mesh.nCells v).getD c 0
        + EquationMatrix.offDiagonalSum c (List.replicate mesh.nCells v) mesh.owner
            mesh.neighbour (fvm.faceCoeffs gamma mesh.magSf mesh.delta) = 0
    rw [hD, EquationMatrix.boundaryDiagonal_interior c _ _ hint, hv,
      EquationMatrix.offDiagonalSum_uniform c mesh.nCells v _ _ _ ho hn]
    ring
  · show List.getD (List.replicate mesh.nCells (0 : ℚ)) c 0
        + EquationMatrix.boundarySource c mesh.faceCells _ = 0
    rw [hz, EquationMatrix.boundarySource_interior c _ _ hint]
    ring

/-- The middle cell of the 1-D mesh of 5 cells: its diagonal `-2` is minus
the sum of its two off-diagonal entries, and the uniform field 7 gives zero
there. -/
theorem laplacian_diffusion_consistency_witness :
    fvm.diffusion1D.diagonal[2]?
        = some (-(EquationMatrix.rowOffDiagonal 2 fvm.mesh1D.owner fvm.mesh1D.neighbour
            fvm.diffusion1D.offDiagonal))
      ∧ EquationMatrix.lhs fvm.diffusion1D fvm.mesh1D (List.replicate 5 7) 2 = 0
      ∧ EquationMatrix.rhs fvm.diffusion1D fvm.mesh1D 2 = 0 :=
  laplacian_diffusion_consistency fvm.mesh1D [1, 1, 1, 1] [1, 1]
    [fvm.Dirichlet 0 (1 / 2), fvm.Dirichlet 100 (1 / 2)] 2 7
    (by decide) (by decide) (by decide) (by decide)

/-! ## The concrete diffusion scenario -/

theorem fvm.diffusion1D_eq :
    fvm.diffusion1D
      = { diagonal := [-1, -2, -2, -2, -1], offDiagonal := [1, 1, 1, 1],
          source := [0, 0, 0, 0, 0], boundaryCoeffs := [(-2, 0), (-2, -200)] } := by
  norm_num [fvm.diffusion1D, fvm.laplacian, fvm.mesh1D, fvm.faceCoeffs, fvm.negSumDiag,
    fvm.addAt, fvm.boundaryTerm, fvm.Dirichlet, List.replicate]

theorem fvm.diffusion1D_isSolution :
    EquationMatrix.isSolution fvm.diffusion1D fvm.mesh1D [10, 30, 50, 70, 90] := by
  rw [fvm.diffusion1D_eq]
  refine ⟨rfl, ?_⟩
  intro c hc
  have : c = 0 ∨ c = 1 ∨ c = 2 ∨ c = 3 ∨ c = 4 := by
    simp only [fvm.mesh1D] at hc; omega
  rcases this with rfl | rfl | rfl | rfl | rfl <;>
    norm_num [EquationMatrix.lhs, EquationMatrix.rhs, fvm.mesh1D,
      EquationMatrix.offDiagonalSum, EquationMatrix.boundaryDiagonal,
      EquationMatrix.boundarySource]

/-- C7: on the 1-D mesh of 5 equal cells of length 1, the pure diffusion
equation with diffusivity 1, Dirichlet values 0 (left) and 100 (right) and
zero source has exactly one solution, the cell-centre values
`[10, 30, 50, 70, 90]`: this is what an exact linear solve of the assembled
system returns. -/
theorem diffusion1D_solution (x : List ℚ) :
    EquationMatrix.isSolution fvm.diffusion1D fvm.mesh1D x ↔ x = [10, 30, 50, 70, 90] := by
  constructor
  · rw [fvm.diffusion1D_eq]
    rintro ⟨hlen, hrow⟩
    match x, hlen with
    | [a, b, c, d, e], _ =>
      have h0 := hrow 0 (by decide)
      have h1 := hrow 1 (by decide)
      have h2 := hrow 2 (by decide)
      have h3 := hrow 3 (by decide)
      have h4 := hrow 4 (by decide)
      simp [EquationMatrix.lhs, EquationMatrix.rhs, fvm.mesh1D, EquationMatrix.offDiagonalSum,
        EquationMatrix.boundaryDiagonal, EquationMatrix.boundarySource] at h0 h1 h2 h3 h4
      have ha : a = 10 := by linarith
      have hb : b = 30 := by linarith
      have hc : c = 50 := by linarith
      have hd : d = 70 := by linarith
      have he : e = 90 := by linarith
      simp [ha, hb, hc, hd, he]
  · rintro rfl
    exact fvm.diffusion1D_isSolution

/-! ## Relaxation -/

theorem EquationMatrix.offDiagonalSum_scale (c : Nat) (x : List ℚ) (f : ℚ) :
    ∀ (os ns : List Nat) (as : List ℚ),
    EquationMatrix.offDiagonalSum c x os ns (as.map (fun a => f * a))
      = f * EquationMatrix.offDiagonalSum c x os ns as
  | [], _, _ => by simp [EquationMatrix.offDiagonalSum]
  | _ :: _, [], _ => by simp [EquationMatrix.offDiagonalSum]
  | _ :: _, _ :: _, [] => by simp [EquationMatrix.offDiagonalSum]
  | o :: os, n :: ns, a :: as => by
    simp only [List.map_cons, EquationMatrix.offDiagonalSum,
      EquationMatrix.offDiagonalSum_scale c x f os ns as]
    split_ifs <;> ring

theorem EquationMatrix.boundaryDiagonal_scale (c : Nat) (f : ℚ) :
    ∀ (ps : List Nat) (bs : List (ℚ × ℚ)),
    EquationMatrix.boundaryDiagonal c ps (bs.map (fun b => (f * b.1, f * b.2)))
      = f * EquationMatrix.boundaryDiagonal c ps bs
  | [], _ => by simp [EquationMatrix.boundaryDiagonal]
  | _ :: _, [] => by simp [EquationMatrix.boundaryDiagonal]
  | p :: ps, b :: bs => by
    simp only [List.map_cons, EquationMatrix.boundaryDiagonal,
      EquationMatrix.boundaryDiagonal_scale c f ps bs]
    split_ifs <;> ring

theorem EquationMatrix.boundarySource_scale (c : Nat) (f : ℚ) :
    ∀ (ps : List Nat) (bs : List (ℚ × ℚ)),
    EquationMatrix.boundarySource c ps (bs.map (fun b => (f * b.1, f * b.2)))
      = f * EquationMatrix.boundarySource c ps bs
  | [], _ => by simp [EquationMatrix.boundarySource]
  | _ :: _, [] => by simp [EquationMatrix.boundarySource]
  | p :: ps, b :: bs => by
    simp only [List.map_cons, EquationMatrix.boundarySource,
      EquationMatrix.boundarySource_scale c f ps bs]
    split_ifs <;> ring

theorem EquationMatrix.lhs_relax (A : EquationMatrix) (mesh : MeshTopology) (f : ℚ)
    (psiPrev x : List ℚ) (c : Nat) (hc : c < A.diagonal.length) :
    EquationMatrix.lhs (A.relax f psiPrev) mesh x c
      = f * EquationMatrix.lhs A mesh x c + (1 - f) * x.getD c 0 := by
  have hd : (A.diagonal.map (fun d => f * d + (1 - f))).getD c 0
      = f * A.diagonal.getD c 0 + (1 - f) := by
    simp [List.getD_eq_getElem?_getD, List.getElem?_eq_getElem hc]
  simp only [EquationMatrix.lhs, EquationMatrix.relax, hd,
    EquationMatrix.offDiagonalSum_scale, EquationMatrix.boundaryDiagonal_scale]
  ring

theorem EquationMatrix.rhs_relax (A : EquationMatrix) (mesh : MeshTopology) (f : ℚ)
    (psiPrev : List ℚ) (c : Nat) (hc : c < A.source.length) (hp : c < psiPrev.length) :
    EquationMatrix.rhs (A.relax f psiPrev) mesh c
      = f * EquationMatrix.rhs A mesh c + (1 - f) * psiPrev.getD c 0 := by
  have hs : (List.zipWith (fun s p => f * s + (1 - f) * p) A.source psiPrev).getD c 0
      = f * A.source.getD c 0 + (1 - f) * psiPrev.getD c 0 := by
    have := volScalarField.getElem?_zipWith (fun s p => f * s + (1 - f) * p) A.source psiPrev c
      _ _ (List.getElem?_eq_getElem hc) (List.getElem?_eq_getElem hp)
    simp [List.getD_eq_getElem?_getD, this, List.getElem?_eq_getElem hc,
      List.getElem?_eq_getElem hp]
  simp only [EquationMatrix.rhs, EquationMatrix.relax, hs,
    EquationMatrix.boundarySource_scale]
  ring

theorem EquationMatrix.zipWith_left (f : ℚ → ℚ → ℚ) (hf : ∀ s p, f s p = s) :
    ∀ (a b : List ℚ), a.length ≤ b.length → List.zipWith f a b = a
  | [], _, _ => by simp
  | _ :: _, [], h => by simp at h
  | a0 :: as, b0 :: bs, h => by
    have h' : as.length ≤ bs.length := by simpa using h
    simp [hf, EquationMatrix.zipWith_left f hf as bs h']

/-- C8: `relax` with factor 1 leaves the assembled system unchanged: for
every equation matrix and every previous field that has a value for each
source entry, the diagonal, off-diagonal, source and boundary-coefficient
arrays after relaxation are those of the unrelaxed matrix. -/
theorem relax_one_unchanged (A : EquationMatrix) (psiPrev : List ℚ)
    (hprev : psiPrev.length = A.source.length) :
    (A.relax 1 psiPrev).diagonal = A.diagonal
      ∧ (A.relax 1 psiPrev).offDiagonal = A.offDiagonal
      ∧ (A.relax 1 psiPrev).source = A.source
      ∧ A.relax 1 psiPrev = A := by
  have h1 : A.diagonal.map (fun d => 1 * d + (1 - 1)) = A.diagonal := by simp
  have h2 : A.offDiagonal.map (fun a => (1 : ℚ) * a) = A.offDiagonal := by simp
  have h3 : List.zipWith (fun s p => 1 * s + (1 - 1) * p) A.source psiPrev = A.source :=
    EquationMatrix.zipWith_left _ (by intro s p; ring) _ _ (by omega)
  have h4 : A.boundaryCoeffs.map (fun b => ((1 : ℚ) * b.1, (1 : ℚ) * b.2)) = A.boundaryCoeffs := by
    simp
  refine ⟨h1, h2, h3, ?_⟩
  cases A
  simp only [EquationMatrix.relax] at h1 h2 h3 h4 ⊢
  rw [h1, h2, h3, h4]

/-- The diffusion matrix of the 1-D scenario relaxed with factor 1 against
the previous field `[1, 2, 3, 4, 5]` is unchanged. -/
theorem relax_one_unchanged_witness :
    (fvm.diffusion1D.relax 1 [1, 2, 3, 4, 5]).diagonal = fvm.diffusion1D.diagonal
      ∧ (fvm.diffusion1D.relax 1 [1, 2, 3, 4, 5]).offDiagonal = fvm.diffusion1D.offDiagonal
      ∧ (fvm.diffusion1D.relax 1 [1, 2, 3, 4, 5]).source = fvm.diffusion1D.source
      ∧ fvm.diffusion1D.relax 1 [1, 2, 3, 4, 5] = fvm.diffusion1D :=
  relax_one_unchanged fvm.diffusion1D [1, 2, 3, 4, 5] (by simp [fvm.diffusion1D_eq])

/-- C9: `relax` with factor 0 yields a system whose solution is the previous
field: for every assembled matrix bound to the mesh and every previous field
with one value per cell, a field solves the system relaxed with factor 0 if
and only if it equals the previous field, cell by cell. -/
theorem relax_zero_solution (A : EquationMatrix) (mesh : MeshTopology) (psiPrev x : List ℚ)
    (hwf : EquationMatrix.wellFormed A mesh) (hprev : psiPrev.length = mesh.nCells) :
    EquationMatrix.isSolution (A.relax 0 psiPrev) mesh x ↔ x = psiPrev := by
  obtain ⟨hd, hs, -⟩ := hwf
  have hrow : ∀ c, c < mesh.nCells →
      (EquationMatrix.lhs (A.relax 0 psiPrev) mesh x c
          = EquationMatrix.rhs (A.relax 0 psiPrev) mesh c
        ↔ x.getD c 0 = psiPrev.getD c 0) := by
    intro c hc
    rw [EquationMatrix.lhs_relax A mesh 0 psiPrev x c (by omega),
      EquationMatrix.rhs_relax A mesh 0 psiPrev c (by omega) (by omega)]
    simp
  constructor
  · rintro ⟨hlen, hall⟩
    apply List.ext_getElem (by omega)
    intro c h1 h2
    have := (hrow c (by omega)).1 (hall c (by omega))
    rwa [List.getD_eq_getElem _ _ h1, List.getD_eq_getElem _ _ h2] at this
  · rintro rfl
    exact ⟨hprev, fun c hc => (hrow c hc).2 rfl⟩

/-- The diffusion matrix of the 1-D scenario relaxed with factor 0 against
the previous field `[1, 2, 3, 4, 5]` has that field as its solution. -/
theorem relax_zero_solution_witness :
    EquationMatrix.isSolution (fvm.diffusion1D.relax 0 [1, 2, 3, 4, 5]) fvm.mesh1D
      [1, 2, 3, 4, 5] :=
  (relax_zero_solution fvm.diffusion1D fvm.mesh1D [1, 2, 3, 4, 5] [1, 2, 3, 4, 5]
    (by rw [fvm.diffusion1D_eq]; decide) rfl).2 rfl

/-- C10: relaxation does not alter the converged solution: for every
relaxation factor in (0,1], every matrix bound to the mesh and every previous
field with one value per cell, the previous field solves the unrelaxed system
if and only if it solves the relaxed system. -/
theorem relax_steady_state (A : EquationMatrix) (mesh : MeshTopology) (factor : ℚ)
    (psiPrev : List ℚ) (hpos : 0 < factor) (_hle : factor ≤ 1)
    (hwf : EquationMatrix.wellFormed A mesh) (hprev : psiPrev.length = mesh.nCells) :
    EquationMatrix.isSolution A mesh psiPrev
      ↔ EquationMatrix.isSolution (A.relax factor psiPrev) mesh psiPrev := by
  obtain ⟨hd, hs, -⟩ := hwf
  have hrow : ∀ c, c < mesh.nCells →
      (EquationMatrix.lhs (A.relax factor psiPrev) mesh psiPrev c
          = EquationMatrix.rhs (A.relax factor psiPrev) mesh c
        ↔ EquationMatrix.lhs A mesh psiPrev c = EquationMatrix.rhs A mesh c) := by
    intro c hc
    rw [EquationMatrix.lhs_relax A mesh factor psiPrev psiPrev c (by omega),
      EquationMatrix.rhs_relax A mesh factor psiPrev c (by omega) (by omega)]
    constructor
    · intro h
      have h' : factor * EquationMatrix.lhs A mesh psiPrev c
          = factor * EquationMatrix.rhs A mesh c := by linarith
      exact mul_left_cancel₀ (ne_of_gt hpos) h'
    · intro h
      rw [h]
  constructor
  · rintro ⟨hlen, hall⟩
    exact ⟨hlen, fun c hc => (hrow c hc).2 (hall c hc)⟩
  · rintro ⟨hlen, hall⟩
    exact ⟨hlen, fun c hc => (hrow c hc).1 (hall c hc)⟩

/-- The steady solution `[10, 30, 50, 70, 90]` of the 1-D scenario still
solves the system relaxed with factor 1/2 against it. -/
theorem relax_steady_state_witness :
    EquationMatrix.isSolution (fvm.diffusion1D.relax (1 / 2) [10, 30, 50, 70, 90]) fvm.mesh1D
      [10, 30, 50, 70, 90] :=
  (relax_steady_state fvm.diffusion1D fvm.mesh1D (1 / 2) [10, 30, 50, 70, 90]
    (by norm_num) (by norm_num) (by rw [fvm.diffusion1D_eq]; decide) rfl).1
    fvm.diffusion1D_isSolution

/-! ## Conservation of the explicit divergence -/

theorem fvm.sum_addAt : ∀ (l : List ℚ) (i : Nat) (v : ℚ), i < l.length →
    (fvm.addAt l i v).sum = l.sum + v
  | [], _, _ => by intro h; simp at h
  | a :: as, 0, v => by intro _; simp [fvm.addAt]; ring
  | a :: as, i + 1, v => by
    intro h
    have h' : i < as.length := by simpa using h
    simp [fvm.addAt, fvm.sum_addAt as i v h']
    ring

theorem fvc.length_surfaceSum : ∀ (os ns : List Nat) (phis : List ℚ) (acc : List ℚ),
    (fvc.surfaceSum acc os ns phis).length = acc.length
  | [], _, _, _ => by simp [fvc.surfaceSum]
  | _ :: _, [], _, _ => by simp [fvc.surfaceSum]
  | _ :: _, _ :: _, [], _ => by simp [fvc.surfaceSum]
  | o :: os, n :: ns, phi :: phis, acc => by
    simp [fvc.surfaceSum, fvc.length_surfaceSum os ns phis, fvm.length_addAt]

theorem fvc.sum_surfaceSum : ∀ (os ns : List Nat) (phis : List ℚ) (acc : List ℚ),
    (∀ o ∈ os, o < acc.length) → (∀ n ∈ ns, n < acc.length) →
    (fvc.surfaceSum acc os ns phis).sum = acc.sum
  | [], _, _, _ => by intro _ _; simp [fvc.surfaceSum]
  | _ :: _, [], _, _ => by intro _ _; simp [fvc.surfaceSum]
  | _ :: _, _ :: _, [], _ => by intro _ _; simp [fvc.surfaceSum]
  | o :: os, n :: ns, phi :: phis, acc => by
    intro ho hn
    have ho0 : o < acc.length := ho o (List.mem_cons_self _ _)
    have hn0 : n < (fvm.addAt acc o phi).length := by
      rw [fvm.length_addAt]; exact hn n (List.mem_cons_self _ _)
    simp only [fvc.surfaceSum]
    rw [fvc.sum_surfaceSum os ns phis _
        (fun x hx => by
          rw [fvm.length_addAt, fvm.length_addAt]; exact ho x (List.mem_cons_of_mem _ hx))
        (fun x hx => by
          rw [fvm.length_addAt, fvm.length_addAt]; exact hn x (List.mem_cons_of_mem _ hx)),
      fvm.sum_addAt _ _ _ hn0, fvm.sum_addAt _ _ _ ho0]
    ring

theorem fvc.volumeIntegral_div_cancel : ∀ (V s : List ℚ), s.length = V.length →
    (∀ v ∈ V, v ≠ 0) →
    fvc.volumeIntegral V (List.zipWith (fun x v => x / v) s V) = s.sum
  | [], [], _, _ => by simp [fvc.volumeIntegral]
  | [], _ :: _, h, _ => by simp at h
  | _ :: _, [], h, _ => by simp at h
  | v :: V, x :: s, h, hV => by
    have hv : v ≠ 0 := hV v (List.mem_cons_self _ _)
    have ih := fvc.volumeIntegral_div_cancel V s (by simpa using h)
      (fun w hw => hV w (List.mem_cons_of_mem _ hw))
    simp only [fvc.volumeIntegral] at ih
    simp only [fvc.volumeIntegral, List.zipWith_cons_cons, List.sum_cons, ih]
    field_simp

/-- C11: on a closed mesh (no boundary face, every face label a cell of the
mesh) with non-zero cell volumes, the volume integral over all cells of the
explicit divergence of any face flux field is zero: every internal face's
flux is added to its owner cell and subtracted from its neighbour cell.  The
same holds for the convection term `fvc::div(flux, vf)`, whatever the
interpolated face values. -/
theorem fvc_div_conservation (mesh : MeshTopology) (V ssf bssf flux vff bflux bvff : List ℚ)
    (hclosed : mesh.faceCells = [])
    (ho : ∀ o ∈ mesh.owner, o < mesh.nCells)
    (hn : ∀ n ∈ mesh.neighbour, n < mesh.nCells)
    (hV : V.length = mesh.nCells) (hpos : ∀ v ∈ V, v ≠ 0) :
    fvc.volumeIntegral V (fvc.surfaceIntegrate mesh V ssf bssf) = 0
      ∧ fvc.volumeIntegral V (fvc.div mesh V flux vff bflux bvff) = 0 := by
  have key : ∀ (f b : List ℚ), fvc.volumeIntegral V (fvc.surfaceIntegrate mesh V f b) = 0 := by
    intro f b
    unfold fvc.surfaceIntegrate
    rw [hclosed]
    simp only [fvc.boundarySum]
    rw [fvc.volumeIntegral_div_cancel V _ (by rw [fvc.length_surfaceSum]; simp [hV]) hpos,
      fvc.sum_surfaceSum _ _ _ _ (by simpa using ho) (by simpa using hn)]
    simp
  exact ⟨key ssf bssf, key _ _⟩

/-- Three cells that touch each other (faces 0→1, 1→2, 0→2), volumes 1, 2,
1/2 and face fluxes 5, -3, 7: the volume integral of the divergence is
zero. -/
theorem fvc_div_conservation_witness :
    fvc.volumeIntegral [1, 2, 1 / 2]
        (fvc.surfaceIntegrate
          { nCells := 3, owner := [0, 1, 0], neighbour := [1, 2, 2], magSf := [1, 1, 1],
            delta := [1, 1, 1], faceCells := [], boundaryMagSf := [] }
          [1, 2, 1 / 2] [5, -3, 7] []) = 0 :=
  (fvc_div_conservation
    { nCells := 3, owner := [0, 1, 0], neighbour := [1, 2, 2], magSf := [1, 1, 1],
      delta := [1, 1, 1], faceCells := [], boundaryMagSf := [] }
    [1, 2, 1 / 2] [5, -3, 7] [] [] [] [] [] rfl (by decide) (by decide) rfl
    (by norm_num)).1

/-! ## The solve/correct loop is bounded -/

theorem solveCorrect.run_add {F E : Type} (c : solveCorrect.Collaborators F E)
    (ctl : solveCorrect.Controls) : ∀ (a b : Nat) (m : solveCorrect.Machine F E),
    solveCorrect.run c ctl (a + b) m = solveCorrect.run c ctl b (solveCorrect.run c ctl a m)
  | 0, b, m => by simp [solveCorrect.run]
  | a + 1, b, m => by
    have h : a + 1 + b = (a + b) + 1 := by omega
    rw [h]
    simp only [solveCorrect.run]
    exact solveCorrect.run_add c ctl a b _

theorem solveCorrect.step_terminal {F E : Type} (c : solveCorrect.Collaborators F E)
    (ctl : solveCorrect.Controls) (m : solveCorrect.Machine F E)
    (h : solveCorrect.isTerminal m = true) : solveCorrect.step c ctl m = m := by
  unfold solveCorrect.isTerminal at h
  unfold solveCorrect.step
  split <;> simp_all

theorem solveCorrect.run_terminal {F E : Type} (c : solveCorrect.Collaborators F E)
    (ctl : solveCorrect.Controls) : ∀ (fuel : Nat) (m : solveCorrect.Machine F E),
    solveCorrect.isTerminal m = true → solveCorrect.run c ctl fuel m = m
  | 0, _, _ => rfl
  | fuel + 1, m, h => by
    simp only [solveCorrect.run, solveCorrect.step_terminal c ctl m h]
    exact solveCorrect.run_terminal c ctl fuel m h

theorem solveCorrect.run_pass {F E : Type} (c : solveCorrect.Collaborators F E)
    (ctl : solveCorrect.Controls) (m : solveCorrect.Machine F E)
    (h : m.state = solveCorrect.LoopState.Assemble) :
    (solveCorrect.run c ctl 4 m).passes = m.passes + 1
      ∧ (solveCorrect.isTerminal (solveCorrect.run c ctl 4 m) = true
        ∨ ((solveCorrect.run c ctl 4 m).state = solveCorrect.LoopState.Assemble
            ∧ (solveCorrect.run c ctl 4 m).outerIter = m.outerIter + 1
            ∧ (m.outerIter : Int) < ctl.nCorr)) := by
  obtain ⟨state, field, outerIter, passes, reports⟩ := m
  simp only at h
  subst h
  simp only [solveCorrect.run, solveCorrect.step]
  by_cases hf : solveCorrect.hardFailure ctl
      (c.linearSolver (c.constrain (c.assemble field)) field).1 = true
  · simp [hf, solveCorrect.step, solveCorrect.isTerminal]
  · simp only [hf, Bool.false_eq_true, if_false, solveCorrect.step]
    by_cases hfin : solveCorrect.finished ctl outerIter
        (c.linearSolver (c.constrain (c.assemble field)) field).1 = true
    · simp [hfin, solveCorrect.step, solveCorrect.isTerminal]
    · simp only [hfin, Bool.false_eq_true, if_false, solveCorrect.step, true_and]
      right
      simp only [solveCorrect.finished, Bool.or_eq_true, decide_eq_true_eq, not_or, not_le] at hfin
      exact hfin.2

theorem solveCorrect.run_bounded {F E : Type} (c : solveCorrect.Collaborators F E)
    (ctl : solveCorrect.Controls) : ∀ (k : Nat) (m : solveCorrect.Machine F E),
    m.state = solveCorrect.LoopState.Assemble → ctl.nCorr ≤ (m.outerIter : Int) + k →
    solveCorrect.isTerminal (solveCorrect.run c ctl (4 * (k + 1)) m) = true
      ∧ m.passes + 1 ≤ (solveCorrect.run c ctl (4 * (k + 1)) m).passes
      ∧ (solveCorrect.run c ctl (4 * (k + 1)) m).passes ≤ m.passes + k + 1
  | 0, m, h, hk => by
    obtain ⟨hp, ht⟩ := solveCorrect.run_pass c ctl m h
    rcases ht with ht | ⟨_, _, hlt⟩
    · exact ⟨ht, by simp only [Nat.zero_add, Nat.mul_one]; omega,
        by simp only [Nat.zero_add, Nat.mul_one]; omega⟩
    · simp at hk; omega
  | k + 1, m, h, hk => by
    obtain ⟨hp, ht⟩ := solveCorrect.run_pass c ctl m h
    have hsplit : 4 * (k + 1 + 1) = 4 + 4 * (k + 1) := by ring
    rw [hsplit, solveCorrect.run_add]
    rcases ht with ht | ⟨hs, hi, _⟩
    · rw [solveCorrect.run_terminal c ctl _ _ ht]
      exact ⟨ht, by omega, by omega⟩
    · have ih := solveCorrect.run_bounded c ctl k (solveCorrect.run c ctl 4 m) hs
        (by rw [hi]; push_cast at hk ⊢; omega)
      exact ⟨ih.1, by omega, by omega⟩

/-- C12: the outer correction loop is bounded by its corrector count.  For
every corrector count `nCorr >= 0`, every tolerance and failure threshold,
all collaborators and every initial field, the loop started in Assemble
reaches a terminal state within `4 * (nCorr + 1)` transitions and stays
there; the number of assemble-solve passes it has performed is at least 1
and at most `nCorr + 1`, and it is exactly 1 when `nCorr` is 0, in
particular with the default controls of `energyTransport`. -/
theorem solveCorrect_loop_bounded {F E : Type} (c : solveCorrect.Collaborators F E)
    (ctl : solveCorrect.Controls) (field : F) (hn : 0 ≤ ctl.nCorr) :
    solveCorrect.isTerminal
        (solveCorrect.run c ctl (4 * (ctl.nCorr.toNat + 1)) (solveCorrect.init field)) = true
      ∧ (∀ extra, solveCorrect.run c ctl (4 * (ctl.nCorr.toNat + 1) + extra)
            (solveCorrect.init field)
          = solveCorrect.run c ctl (4 * (ctl.nCorr.toNat + 1)) (solveCorrect.init field))
      ∧ 1 ≤ (solveCorrect.run c ctl (4 * (ctl.nCorr.toNat + 1))
            (solveCorrect.init field)).passes
      ∧ ((solveCorrect.run c ctl (4 * (ctl.nCorr.toNat + 1))
            (solveCorrect.init field)).passes : Int) ≤ ctl.nCorr + 1
      ∧ (ctl.nCorr = 0 →
          (solveCorrect.run c ctl (4 * (ctl.nCorr.toNat + 1))
            (solveCorrect.init field)).passes = 1)
      ∧ ∀ threshold,
          solveCorrect.isTerminal
              (solveCorrect.run c (solveCorrect.readControls none none threshold) 4
                (solveCorrect.init field)) = true
            ∧ (solveCorrect.run c (solveCorrect.readControls none none threshold) 4
                (solveCorrect.init field)).passes = 1 := by
  have h := solveCorrect.run_bounded c ctl ctl.nCorr.toNat (solveCorrect.init field) rfl
    (by simp only [solveCorrect.init]; push_cast; omega)
  simp only [solveCorrect.init, Nat.zero_add] at h
  obtain ⟨h1, h2, h3⟩ := h
  refine ⟨h1, ?_, h2, ?_, ?_, ?_⟩
  · intro extra
    rw [solveCorrect.run_add]
    exact solveCorrect.run_terminal c ctl _ _ h1
  · have : ((ctl.nCorr.toNat : Int)) = ctl.nCorr := Int.toNat_of_nonneg hn
    simp only [solveCorrect.init] at h3 ⊢
    omega
  · intro h0
    simp only [solveCorrect.init] at h2 h3 ⊢
    rw [h0] at h2 h3 ⊢
    simp at h2 h3 ⊢
    omega
  · intro threshold
    have hd := solveCorrect.run_bounded c (solveCorrect.readControls none none threshold) 0
      (solveCorrect.init field) rfl (by simp [solveCorrect.readControls, solveCorrect.init])
    exact ⟨hd.1, (solveCorrect.run_pass c _ (solveCorrect.init field) rfl).1⟩

/-- A loop with 2 correctors whose linear solver never meets the tolerance
performs between 1 and 3 passes before it stops. -/
theorem solveCorrect_loop_bounded_witness :
    1 ≤ (solveCorrect.run
          { assemble := fun (f : ℚ) => f, constrain := fun (e : ℚ) => e,
            linearSolver := fun e _ => (SolverPerformance.mk 1 (1 / 10) true, e / 2),
            boundaryUpdate := fun f => f }
          { tolerance := 1 / 100, nCorr := 2, failureThreshold := 10 }
          (4 * ((2 : Int).toNat + 1)) (solveCorrect.init (8 : ℚ))).passes
      ∧ ((solveCorrect.run
          { assemble := fun (f : ℚ) => f, constrain := fun (e : ℚ) => e,
            linearSolver := fun e _ => (SolverPerformance.mk 1 (1 / 10) true, e / 2),
            boundaryUpdate := fun f => f }
          { tolerance := 1 / 100, nCorr := 2, failureThreshold := 10 }
          (4 * ((2 : Int).toNat + 1)) (solveCorrect.init (8 : ℚ))).passes : Int) ≤ 2 + 1 :=
  ⟨(solveCorrect_loop_bounded
      { assemble := fun (f : ℚ) => f, constrain := fun (e : ℚ) => e,
        linearSolver := fun e _ => (SolverPerformance.mk 1 (1 / 10) true, e / 2),
        boundaryUpdate := fun f => f }
      { tolerance := 1 / 100, nCorr := 2, failureThreshold := 10 }
      (8 : ℚ) (by decide)).2.2.1,
   (solveCorrect_loop_bounded
      { assemble := fun (f : ℚ) => f, constrain := fun (e : ℚ) => e,
        linearSolver := fun e _ => (SolverPerformance.mk 1 (1 / 10) true, e / 2),
        boundaryUpdate := fun f => f }
      { tolerance := 1 / 100, nCorr := 2, failureThreshold := 10 }
      (8 : ℚ) (by decide)).2.2.2.1⟩

/-! ## The order of the steps in `EEqns.H` -/

theorem EEqns.run_eq {M : Type} (c : EEqns.Collaborators M) (s : EEqns.State M) :
    EEqns.run c s =
      { he1 := c.correct (c.solve (c.constrain (EEqns.assembled c s EEqns.Phase.one)) s.he1).2
        he2 := c.correct (c.solve (c.constrain (EEqns.assembled c s EEqns.Phase.two)) s.he2).2
        T1 := c.thermoCorrect EEqns.Phase.one
          (c.correct (c.solve (c.constrain (EEqns.assembled c s EEqns.Phase.one)) s.he1).2) s.T1
        T2 := c.thermoCorrect EEqns.Phase.two
          (c.correct (c.solve (c.constrain (EEqns.assembled c s EEqns.Phase.two)) s.he2).2) s.T2
        Cpv1 := c.Cpv EEqns.Phase.one s.he1 s.T1
        Cpv2 := c.Cpv EEqns.Phase.two s.he2 s.T2
        Kh := c.Kh s.he1 s.he2 s.T1 s.T2
        E1Eqn := some (c.constrain (EEqns.assembled c s EEqns.Phase.one))
        E2Eqn := some (c.constrain (EEqns.assembled c s EEqns.Phase.two))
        log := s.log ++ EEqns.statements } := by
  simp [EEqns.run, EEqns.statements, EEqns.exec, EEqns.effect, EEqns.assembled]

/-- C13: in `EEqns.H` the steps of each equation occur in the fixed order
assemble, constrain, solve, correct.  Whatever the collaborators do, the
statements executed are those of the file in file order, each once; for each
of `E1Eqn` and `E2Eqn` the construction comes before `fvOptions.constrain`,
that before `solve` and that before `fvOptions.correct`; the equation handed
to the solver is the constrained one, and the field handed to
`fvOptions.correct` is the one the solve has left. -/
theorem EEqns_step_order {M : Type} (c : EEqns.Collaborators M) (s : EEqns.State M) :
    (EEqns.run c s).log = s.log ++ EEqns.statements
      ∧ EEqns.statements.Nodup
      ∧ (∀ p : EEqns.Phase,
          List.indexOf (EEqns.Statement.assemble p) EEqns.statements
              < List.indexOf (EEqns.Statement.constrain p) EEqns.statements
            ∧ List.indexOf (EEqns.Statement.constrain p) EEqns.statements
              < List.indexOf (EEqns.Statement.solve p) EEqns.statements
            ∧ List.indexOf (EEqns.Statement.solve p) EEqns.statements
              < List.indexOf (EEqns.Statement.correct p) EEqns.statements
            ∧ List.indexOf (EEqns.Statement.correct p) EEqns.statements
              < EEqns.statements.length)
      ∧ (EEqns.run c s).he1
          = c.correct (c.solve (c.constrain (EEqns.assembled c s EEqns.Phase.one)) s.he1).2
      ∧ (EEqns.run c s).he2
          = c.correct (c.solve (c.constrain (EEqns.assembled c s EEqns.Phase.two)) s.he2).2 := by
  refine ⟨?_, by decide, ?_, ?_, ?_⟩
  · rw [EEqns.run_eq]
  · intro p
    cases p <;> decide
  · rw [EEqns.run_eq]
  · rw [EEqns.run_eq]

/-! ## A failed solve in `EEqns.H` -/

/-- Counterexample to C14: with a linear solver that reports
non-convergence, the run of `EEqns.H` does not end at the failed
`E1Eqn.solve()` with `he1` unchanged: `thermo2.correct()` is the last
statement executed and `he1` holds what the solver left. -/
theorem EEqns_solve_failure_counterexample :
    (EEqns.failingCollaborators.solve () EEqns.oneCell.he1).1.converged = false
      ∧ ¬ ((EEqns.run EEqns.failingCollaborators EEqns.oneCell).log.getLast?
              = some (EEqns.Statement.solve EEqns.Phase.one)
            ∧ (EEqns.run EEqns.failingCollaborators EEqns.oneCell).he1 = EEqns.oneCell.he1) := by
  refine ⟨rfl, ?_⟩
  rintro ⟨h, _⟩
  rw [EEqns.run_eq] at h
  revert h
  decide

/-- C14 as amended: `EEqns.H` does not inspect what `solve()` returns.
Replacing the report of the linear solver by any other report changes nothing
in the run; whatever is reported, all statements of the file are executed, and
`he1`, `he2` end as the fields the solver left, passed through
`fvOptions.correct`. -/
theorem EEqns_solver_report_not_inspected {M : Type} (c : EEqns.Collaborators M)
    (report : M → volScalarField → SolverPerformance) (s : EEqns.State M) :
    EEqns.run { c with solve := fun eqn he => (report eqn he, (c.solve eqn he).2) } s
        = EEqns.run c s
      ∧ (EEqns.run c s).log = s.log ++ EEqns.statements
      ∧ (EEqns.run c s).he1
          = c.correct (c.solve (c.constrain (EEqns.assembled c s EEqns.Phase.one)) s.he1).2
      ∧ (EEqns.run c s).he2
          = c.correct (c.solve (c.constrain (EEqns.assembled c s EEqns.Phase.two)) s.he2).2 := by
  refine ⟨?_, ?_, ?_, ?_⟩
  · rw [EEqns.run_eq, EEqns.run_eq]
    simp [EEqns.assembled]
  · rw [EEqns.run_eq]
  · rw [EEqns.run_eq]
  · rw [EEqns.run_eq]

/-! ## Scheme categories are separate namespaces -/

/-- C15: a name that is registered only in another category's table fails in
the queried category exactly as a name registered nowhere.  For both,
`lnGradScheme::New` on the queried table returns the lookup error of the same
kind, naming the requested word and listing the sorted names of the queried
table; the other table is never consulted. -/
theorem lnGradScheme_New_wrong_category {M S C : Type}
    (queried : HashTable (M → Istream → S)) (other : HashTable C) (mesh : M)
    (name unknown : word) (rest : List word)
    (hname : HashTable.lookup queried name = none)
    (_hother : (HashTable.lookup other name).isSome = true)
    (hunknown : HashTable.lookup queried unknown = none)
    (_hnowhere : HashTable.lookup other unknown = none) :
    fa.lnGradScheme.New queried mesh ⟨name :: rest⟩
        = Except.error (IOerror.unknownType "grad" name (HashTable.sortedToc queried))
      ∧ fa.lnGradScheme.New queried mesh ⟨unknown :: rest⟩
        = Except.error (IOerror.unknownType "grad" unknown (HashTable.sortedToc queried))
      ∧ name ∉ HashTable.sortedToc queried
      ∧ unknown ∉ HashTable.sortedToc queried := by
  refine ⟨?_, ?_, ?_, ?_⟩
  · simp [fa.lnGradScheme.New, Istream.eof, Istream.readWord, hname, FatalIOErrorInLookup]
  · simp [fa.lnGradScheme.New, Istream.eof, Istream.readWord, hunknown, FatalIOErrorInLookup]
  · rw [HashTable.mem_sortedToc_iff, hname]; simp
  · rw [HashTable.mem_sortedToc_iff, hunknown]; simp

/-- Asking the category that registers only `fourth` for `pointToPoint`,
which the `topoSetSource` table registers, and for `bogusScheme`, which no
table registers, gives the same error listing `fourth`. -/
theorem lnGradScheme_New_wrong_category_witness :
    fa.lnGradScheme.New [("fourth", fun (_ : Unit) (_ : Istream) => (4 : Nat))] ()
        ⟨["pointToPoint"]⟩
        = Except.error (IOerror.unknownType "grad" "pointToPoint" ["fourth"])
      ∧ fa.lnGradScheme.New [("fourth", fun (_ : Unit) (_ : Istream) => (4 : Nat))] ()
        ⟨["bogusScheme"]⟩
        = Except.error (IOerror.unknownType "grad" "bogusScheme" ["fourth"]) :=
  ⟨(lnGradScheme_New_wrong_category
      [("fourth", fun (_ : Unit) (_ : Istream) => (4 : Nat))]
      [("pointToPoint", "pointToPoint(mesh, word)")] () "pointToPoint" "bogusScheme" []
      rfl rfl rfl rfl).1,
   (lnGradScheme_New_wrong_category
      [("fourth", fun (_ : Unit) (_ : Istream) => (4 : Nat))]
      [("pointToPoint", "pointToPoint(mesh, word)")] () "pointToPoint" "bogusScheme" []
      rfl rfl rfl rfl).2.1⟩

/-! ## Duplicate registration -/

theorem startup_staticRegistrations (layeredTypeName : word) :
    ∃ registry, startup Registry.empty (staticRegistrations layeredTypeName)
        = Except.ok registry
      ∧ HashTable.toc (registry ⟨"topoSetSource", "word"⟩) = ["pointToPoint"]
      ∧ HashTable.toc (registry ⟨"topoSetSource", "istream"⟩) = ["pointToPoint"]
      ∧ HashTable.toc (registry ⟨"topoSetPointSource", "word"⟩) = ["pointToPoint"]
      ∧ HashTable.toc (registry ⟨"topoSetPointSource", "istream"⟩) = ["pointToPoint"]
      ∧ HashTable.toc (registry ⟨"engineMesh", "IOobject"⟩) = [layeredTypeName] :=
  ⟨_, rfl, rfl, rfl, rfl, rfl, rfl⟩

/-- C16: registering a name that the table of the same category already holds
is an error of the registration itself, and the startup that meets it stops
there, before any lookup; registering a name the category does not hold yet
succeeds, adds it to that category only and leaves every other category's
table as it was, so the same name may be registered in different categories:
the registrations of `pointToPoint.C` and `layeredEngineMesh.C` all
succeed. -/
theorem addToRunTimeSelectionTable_duplicate {C : Type} (registry : Registry C)
    (category : Category) (lookupName : word) (ctor : C)
    (rest : List (Category × word × C)) :
    ((HashTable.lookup (registry category) lookupName).isSome = true →
        addToRunTimeSelectionTable registry category lookupName ctor
            = Except.error (ConfigurationError.duplicateEntry lookupName category)
          ∧ startup registry ((category, lookupName, ctor) :: rest)
            = Except.error (ConfigurationError.duplicateEntry lookupName category))
      ∧ (HashTable.lookup (registry category) lookupName = none →
          ∃ registry1, addToRunTimeSelectionTable registry category lookupName ctor
              = Except.ok registry1
            ∧ HashTable.lookup (registry1 category) lookupName = some ctor
            ∧ (∀ other, other ≠ category → registry1 other = registry other)
            ∧ ∀ ctor2, addToRunTimeSelectionTable registry1 category lookupName ctor2
                = Except.error (ConfigurationError.duplicateEntry lookupName category))
      ∧ ∀ layeredTypeName, ∃ registry1,
          startup Registry.empty (staticRegistrations layeredTypeName) = Except.ok registry1 := by
  have lookup_append : ∀ (t : HashTable C), HashTable.lookup t lookupName = none →
      HashTable.lookup (t ++ [(lookupName, ctor)]) lookupName = some ctor := by
    intro t
    induction t with
    | nil => intro _; simp [HashTable.lookup]
    | cons e t ih =>
      obtain ⟨k, v⟩ := e
      intro h
      by_cases hk : k = lookupName
      · simp [HashTable.lookup, hk] at h
      · simp only [HashTable.lookup, hk, if_false] at h
        simp [HashTable.lookup, hk, ih h]
  refine ⟨?_, ?_, ?_⟩
  · intro h
    have h1 : addToRunTimeSelectionTable registry category lookupName ctor
        = Except.error (ConfigurationError.duplicateEntry lookupName category) := by
      simp [addToRunTimeSelectionTable, h]
    exact ⟨h1, by simp [startup, h1]⟩
  · intro h
    refine ⟨fun cat =>
      if cat = category then registry category ++ [(lookupName, ctor)] else registry cat,
      by simp [addToRunTimeSelectionTable, h], ?_, ?_, ?_⟩
    · simp [lookup_append _ h]
    · intro other hne
      simp [hne]
    · intro ctor2
      simp [addToRunTimeSelectionTable, lookup_append _ h]
  · intro layeredTypeName
    obtain ⟨registry1, h, _⟩ := startup_staticRegistrations layeredTypeName
    exact ⟨registry1, h⟩

/-- After the registrations of the embedded files, registering `pointToPoint`
once more in the `topoSetSource` table of `word` constructors is a duplicate
entry. -/
theorem addToRunTimeSelectionTable_duplicate_witness :
    addToRunTimeSelectionTable
        (fun cat => if cat = ⟨"topoSetSource", "word"⟩
          then [("pointToPoint", "pointToPoint(mesh, word)")] else [])
        ⟨"topoSetSource", "word"⟩ "pointToPoint" "pointToPoint(mesh, word)"
      = Except.error (ConfigurationError.duplicateEntry "pointToPoint" ⟨"topoSetSource", "word"⟩) :=
  ((addToRunTimeSelectionTable_duplicate
    (fun cat => if cat = ⟨"topoSetSource", "word"⟩
      then [("pointToPoint", "pointToPoint(mesh, word)")] else [])
    ⟨"topoSetSource", "word"⟩ "pointToPoint" "pointToPoint(mesh, word)" []).1 rfl).1

/-! ## Referential transparency of the edge-normal gradient -/

/-- C17: the explicit evaluator `lnGrad` is referentially transparent.  The
values of its result, internal and boundary, are determined by the cell
values of the field, the `snGrad()` of its patch fields, the difference
coefficients and the owner/neighbour addressing: two evaluations that agree
on these return the same values, whatever else differs; with the same names
and dimension tags as well they return the same edge field.  The member
`lnGrad(vf)` of two schemes that give the same difference coefficients,
correction flag and correction for `vf` returns the same edge field.  The
evaluation returns the edge field and nothing else, so the input field is
not changed. -/
theorem lnGradScheme_lnGrad_transparent (vf vf2 : areaField) (tdeltaCoeffs tdeltaCoeffs2 : edgeField)
    (lnGradName lnGradName2 : word)
    (hcells : vf.internalField = vf2.internalField)
    (hpatch : vf.boundaryField.map faPatchField.snGrad
      = vf2.boundaryField.map faPatchField.snGrad)
    (hdelta : tdeltaCoeffs.internalField = tdeltaCoeffs2.internalField)
    (howner : vf.mesh.owner = vf2.mesh.owner)
    (hneighbour : vf.mesh.neighbour = vf2.mesh.neighbour) :
    (fa.lnGradScheme.lnGrad vf tdeltaCoeffs lnGradName).map
          (fun ssf => (ssf.internalField, ssf.boundaryField))
        = (fa.lnGradScheme.lnGrad vf2 tdeltaCoeffs2 lnGradName2).map
          (fun ssf => (ssf.internalField, ssf.boundaryField))
      ∧ (vf.name = vf2.name → vf.dimensions = vf2.dimensions →
          tdeltaCoeffs.dimensions = tdeltaCoeffs2.dimensions → lnGradName = lnGradName2 →
          fa.lnGradScheme.lnGrad vf tdeltaCoeffs lnGradName
            = fa.lnGradScheme.lnGrad vf2 tdeltaCoeffs2 lnGradName2)
      ∧ (∀ s s2 : fa.lnGradScheme, s.deltaCoeffs vf = s2.deltaCoeffs vf →
          s.corrected = s2.corrected → s.correction vf = s2.correction vf →
          fa.lnGradScheme.lnGradOf s vf = fa.lnGradScheme.lnGradOf s2 vf) := by
  refine ⟨?_, ?_, ?_⟩
  · simp only [fa.lnGradScheme.lnGrad, hcells, hpatch, hdelta, howner, hneighbour]
    cases UList.allSome ((List.range vf2.mesh.owner.length).map
      (fa.lnGradScheme.lnGradEdge tdeltaCoeffs2.internalField vf2.mesh.owner vf2.mesh.neighbour
        vf2.internalField)) <;> simp
  · intro h1 h2 h3 h4
    simp only [fa.lnGradScheme.lnGrad, hcells, hpatch, hdelta, howner, hneighbour, h1, h2, h3, h4]
  · intro s s2 h1 h2 h3
    simp only [fa.lnGradScheme.lnGradOf, h1, h2, h3]

/-- Two area fields that differ in name, patch values and mesh difference
coefficients but agree on cell values, patch `snGrad()` and addressing give
the same gradient values. -/
theorem lnGradScheme_lnGrad_transparent_witness :
    (fa.lnGradScheme.lnGrad
        { name := "T", dimensions := [0, 0, 0, 1, 0], internalField := [1, 5],
          mesh := { owner := [0], neighbour := [1],
                    deltaCoeffs := { name := "deltaCoeffs", dimensions := [0, -1, 0, 0, 0],
                                     internalField := [2], boundaryField := [[4]] } },
          boundaryField := [{ value := [7], snGrad := [3] }] }
        { name := "deltaCoeffs", dimensions := [0, -1, 0, 0, 0],
          internalField := [2], boundaryField := [[4]] }
        "lnGrad").map (fun ssf => (ssf.internalField, ssf.boundaryField))
      = (fa.lnGradScheme.lnGrad
        { name := "h", dimensions := [0, 1, 0, 0, 0], internalField := [1, 5],
          mesh := { owner := [0], neighbour := [1],
                    deltaCoeffs := { name := "other", dimensions := [],
                                     internalField := [9], boundaryField := [] } },
          boundaryField := [{ value := [8], snGrad := [3] }] }
        { name := "dc", dimensions := [0, -1, 0, 0, 0],
          internalField := [2], boundaryField := [] }
        "snGrad").map (fun ssf => (ssf.internalField, ssf.boundaryField)) :=
  (lnGradScheme_lnGrad_transparent
    { name := "T", dimensions := [0, 0, 0, 1, 0], internalField := [1, 5],
      mesh := { owner := [0], neighbour := [1],
                deltaCoeffs := { name := "deltaCoeffs", dimensions := [0, -1, 0, 0, 0],
                                 internalField := [2], boundaryField := [[4]] } },
      boundaryField := [{ value := [7], snGrad := [3] }] }
    { name := "h", dimensions := [0, 1, 0, 0, 0], internalField := [1, 5],
      mesh := { owner := [0], neighbour := [1],
                deltaCoeffs := { name := "other", dimensions := [],
                                 internalField := [9], boundaryField := [] } },
      boundaryField := [{ value := [8], snGrad := [3] }] }
    { name := "deltaCoeffs", dimensions := [0, -1, 0, 0, 0],
      internalField := [2], boundaryField := [[4]] }
    { name := "dc", dimensions := [0, -1, 0, 0, 0],
      internalField := [2], boundaryField := [] }
    "lnGrad" "snGrad" rfl rfl rfl rfl rfl).1

/-! ## Sizes that disagree with the mesh -/

theorem UList.allSome_eq_none {α : Type} : ∀ (l : List (Option α)),
    none ∈ l → UList.allSome l = none
  | [], h => by simp at h
  | none :: _, _ => rfl
  | some a :: rest, h => by
    have h' : none ∈ rest := by simpa using h
    simp [UList.allSome, UList.allSome_eq_none rest h']

theorem fa.lnGradScheme.lnGrad_eq_none (vf : areaField) (tdeltaCoeffs : edgeField)
    (lnGradName : word) (faceI : Nat) (hf : faceI < vf.mesh.owner.length)
    (hnone : fa.lnGradScheme.lnGradEdge tdeltaCoeffs.internalField vf.mesh.owner
      vf.mesh.neighbour vf.internalField faceI = none) :
    fa.lnGradScheme.lnGrad vf tdeltaCoeffs lnGradName = none := by
  have hmem : none ∈ (List.range vf.mesh.owner.length).map
      (fa.lnGradScheme.lnGradEdge tdeltaCoeffs.internalField vf.mesh.owner vf.mesh.neighbour
        vf.internalField) :=
    List.mem_map.2 ⟨faceI, List.mem_range.2 hf, hnone⟩
  simp only [fa.lnGradScheme.lnGrad, UList.allSome_eq_none _ hmem]

/-- Counterexample to C18: a difference-coefficient array with two entries on
a mesh with one internal edge does not have exactly one entry per internal
edge, yet `lnGrad` returns a result; the second entry is never read. -/
theorem lnGradScheme_lnGrad_size_counterexample :
    ¬ (([2, 99] : List ℚ).length = ([0] : List Nat).length)
      ∧ fa.lnGradScheme.lnGrad
          { name := "T", dimensions := [0, 0, 0, 1, 0], internalField := [1, 5],
            mesh := { owner := [0], neighbour := [1],
                      deltaCoeffs := { name := "deltaCoeffs", dimensions := [0, -1, 0, 0, 0],
                                       internalField := [2], boundaryField := [[4]] } },
            boundaryField := [{ value := [7], snGrad := [3] }] }
          { name := "deltaCoeffs", dimensions := [0, -1, 0, 0, 0],
            internalField := [2, 99], boundaryField := [[4]] }
          "lnGrad"
        = some { name := "lnGrad(T)", dimensions := [0, -1, 0, 1, 0],
                 internalField := [8], boundaryField := [[3]] } := by
  refine ⟨by decide, ?_⟩
  norm_num [fa.lnGradScheme.lnGrad, fa.lnGradScheme.lnGradEdge, UList.elem, UList.allSome,
    dimensionSet.mul, List.range, List.range.loop]
  rfl

/-- C18 as amended: `lnGrad` compares no sizes itself; it fails exactly
through the element accesses of its edge loop.  It returns no result when
the difference-coefficient array or the neighbour addressing has fewer
entries than there are internal edges, or when the owner or neighbour label
of an internal edge does not index a cell value of the field; entries of the
difference-coefficient array beyond the number of internal edges are not
read, and the result is the one for the array cut to that number. -/
theorem lnGradScheme_lnGrad_size_mismatch (vf : areaField) (tdeltaCoeffs : edgeField)
    (lnGradName : word) :
    (tdeltaCoeffs.internalField.length < vf.mesh.owner.length →
        fa.lnGradScheme.lnGrad vf tdeltaCoeffs lnGradName = none)
      ∧ (vf.mesh.neighbour.length < vf.mesh.owner.length →
        fa.lnGradScheme.lnGrad vf tdeltaCoeffs lnGradName = none)
      ∧ (∀ faceI o : Nat, vf.mesh.owner[faceI]? = some o → vf.internalField.length ≤ o →
        fa.lnGradScheme.lnGrad vf tdeltaCoeffs lnGradName = none)
      ∧ (∀ faceI n : Nat, faceI < vf.mesh.owner.length → vf.mesh.neighbour[faceI]? = some n →
        vf.internalField.length ≤ n →
        fa.lnGradScheme.lnGrad vf tdeltaCoeffs lnGradName = none)
      ∧ fa.lnGradScheme.lnGrad vf tdeltaCoeffs lnGradName
        = fa.lnGradScheme.lnGrad vf
            { tdeltaCoeffs with
              internalField := tdeltaCoeffs.internalField.take vf.mesh.owner.length }
            lnGradName := by
  refine ⟨?_, ?_, ?_, ?_, ?_⟩
  · intro h
    apply fa.lnGradScheme.lnGrad_eq_none vf tdeltaCoeffs lnGradName
      tdeltaCoeffs.internalField.length h
    simp [fa.lnGradScheme.lnGradEdge, UList.elem]
  · intro h
    apply fa.lnGradScheme.lnGrad_eq_none vf tdeltaCoeffs lnGradName
      vf.mesh.neighbour.length h
    simp only [fa.lnGradScheme.lnGradEdge, UList.elem]
    have : vf.mesh.neighbour[vf.mesh.neighbour.length]? = none := by simp
    rw [this]
    split <;> simp_all
  · intro faceI o ho hle
    have hf : faceI < vf.mesh.owner.length := by
      rcases Nat.lt_or_ge faceI vf.mesh.owner.length with h | h
      · exact h
      · rw [List.getElem?_eq_none h] at ho
        cases ho
    apply fa.lnGradScheme.lnGrad_eq_none vf tdeltaCoeffs lnGradName faceI hf
    have hv : vf.internalField[o]? = none := List.getElem?_eq_none hle
    simp only [fa.lnGradScheme.lnGradEdge, UList.elem, ho]
    split
    · rename_i d n o2 h1 h2 h3
      simp only [Option.some.injEq] at h3
      subst h3
      rw [hv]
      split <;> simp_all
    · rfl
  · intro faceI n hf hn hle
    apply fa.lnGradScheme.lnGrad_eq_none vf tdeltaCoeffs lnGradName faceI hf
    have hv : vf.internalField[n]? = none := List.getElem?_eq_none hle
    simp only [fa.lnGradScheme.lnGradEdge, UList.elem, hn]
    split
    · rename_i d n2 o h1 h2 h3
      simp only [Option.some.injEq] at h2
      subst h2
      rw [hv]
    · rfl
  · have hedge : ∀ faceI ∈ List.range vf.mesh.owner.length,
        fa.lnGradScheme.lnGradEdge tdeltaCoeffs.internalField vf.mesh.owner vf.mesh.neighbour
            vf.internalField faceI
          = fa.lnGradScheme.lnGradEdge (tdeltaCoeffs.internalField.take vf.mesh.owner.length)
            vf.mesh.owner vf.mesh.neighbour vf.internalField faceI := by
      intro faceI hf
      have hf' : faceI < vf.mesh.owner.length := List.mem_range.1 hf
      simp only [fa.lnGradScheme.lnGradEdge, UList.elem, List.getElem?_take, hf', if_true]
    simp only [fa.lnGradScheme.lnGrad, List.map_congr_left hedge]

/-- A difference-coefficient array without entry on a mesh with one internal
edge: `lnGrad` returns no result. -/
theorem lnGradScheme_lnGrad_size_mismatch_witness :
    fa.lnGradScheme.lnGrad
        { name := "T", dimensions := [0, 0, 0, 1, 0], internalField := [1, 5],
          mesh := { owner := [0], neighbour := [1],
                    deltaCoeffs := { name := "deltaCoeffs", dimensions := [0, -1, 0, 0, 0],
                                     internalField := [2], boundaryField := [[4]] } },
          boundaryField := [{ value := [7], snGrad := [3] }] }
        { name := "deltaCoeffs", dimensions := [0, -1, 0, 0, 0],
          internalField := [], boundaryField := [[4]] }
        "lnGrad" = none :=
  (lnGradScheme_lnGrad_size_mismatch
    { name := "T", dimensions := [0, 0, 0, 1, 0], internalField := [1, 5],
      mesh := { owner := [0], neighbour := [1],
                deltaCoeffs := { name := "deltaCoeffs", dimensions := [0, -1, 0, 0, 0],
                                 internalField := [2], boundaryField := [[4]] } },
      boundaryField := [{ value := [7], snGrad := [3] }] }
    { name := "deltaCoeffs", dimensions := [0, -1, 0, 0, 0],
      internalField := [], boundaryField := [[4]] }
    "lnGrad").1 (by decide)

/-! ## `pointToPoint::applyToSet` against set algebra -/

theorem pointToPoint.addOne_eq (ops : topoSetOps) (this : pointToPoint) (set : topoSet)
    (setName : word) :
    pointToPoint.addOne ops this set setName
      = (pointToPoint.source this setName).map (ops.addSet set) := by
  unfold pointToPoint.addOne pointToPoint.source
  split
  · cases this.mesh_.pointZones setName <;> rfl
  · cases this.mesh_.pointSets setName <;> rfl

theorem pointToPoint.subtractOne_eq (ops : topoSetOps) (this : pointToPoint) (set : topoSet)
    (setName : word) :
    pointToPoint.subtractOne ops this set setName
      = (pointToPoint.source this setName).map (ops.subtractSet set) := by
  unfold pointToPoint.subtractOne pointToPoint.source
  split
  · cases this.mesh_.pointZones setName <;> rfl
  · cases this.mesh_.pointSets setName <;> rfl

theorem pointToPoint.forNames_add (ops : topoSetOps) (this : pointToPoint)
    (hadd : ∀ s t x, x ∈ ops.addSet s t ↔ x ∈ s ∨ x ∈ t) :
    ∀ (names : List word) (set : topoSet),
    (∀ n ∈ names, (pointToPoint.source this n).isSome = true) →
    ∃ r, pointToPoint.forNames (pointToPoint.addOne ops this) names set = some r
      ∧ ∀ x, x ∈ r ↔ x ∈ set ∨ ∃ n ∈ names, ∃ t, pointToPoint.source this n = some t ∧ x ∈ t
  | [], set, _ => ⟨set, rfl, by simp⟩
  | n :: rest, set, h => by
    have hn := h n (List.mem_cons_self _ _)
    cases hs : pointToPoint.source this n with
    | none => simp [hs] at hn
    | some t =>
      obtain ⟨r, hr, hmem⟩ := pointToPoint.forNames_add ops this hadd rest (ops.addSet set t)
        (fun m hm => h m (List.mem_cons_of_mem _ hm))
      refine ⟨r, by simp [pointToPoint.forNames, pointToPoint.addOne_eq, hs, hr], ?_⟩
      intro x
      rw [hmem, hadd]
      constructor
      · rintro ((hx | hx) | ⟨m, hm, t2, ht2, hx⟩)
        · exact Or.inl hx
        · exact Or.inr ⟨n, List.mem_cons_self _ _, t, hs, hx⟩
        · exact Or.inr ⟨m, List.mem_cons_of_mem _ hm, t2, ht2, hx⟩
      · rintro (hx | ⟨m, hm, t2, ht2, hx⟩)
        · exact Or.inl (Or.inl hx)
        · rcases List.mem_cons.1 hm with rfl | hm
          · rw [hs] at ht2
            cases ht2
            exact Or.inl (Or.inr hx)
          · exact Or.inr ⟨m, hm, t2, ht2, hx⟩

theorem pointToPoint.forNames_subtract (ops : topoSetOps) (this : pointToPoint)
    (hsub : ∀ s t x, x ∈ ops.subtractSet s t ↔ x ∈ s ∧ x ∉ t) :
    ∀ (names : List word) (set : topoSet),
    (∀ n ∈ names, (pointToPoint.source this n).isSome = true) →
    ∃ r, pointToPoint.forNames (pointToPoint.subtractOne ops this) names set = some r
      ∧ ∀ x, x ∈ r ↔ x ∈ set ∧ ∀ n ∈ names, ∀ t, pointToPoint.source this n = some t → x ∉ t
  | [], set, _ => ⟨set, rfl, by simp⟩
  | n :: rest, set, h => by
    have hn := h n (List.mem_cons_self _ _)
    cases hs : pointToPoint.source this n with
    | none => simp [hs] at hn
    | some t =>
      obtain ⟨r, hr, hmem⟩ := pointToPoint.forNames_subtract ops this hsub rest
        (ops.subtractSet set t) (fun m hm => h m (List.mem_cons_of_mem _ hm))
      refine ⟨r, by simp [pointToPoint.forNames, pointToPoint.subtractOne_eq, hs, hr], ?_⟩
      intro x
      rw [hmem, hsub]
      constructor
      · rintro ⟨⟨hx, hxt⟩, hrest⟩
        refine ⟨hx, ?_⟩
        intro m hm t2 ht2
        rcases List.mem_cons.1 hm with rfl | hm
        · rw [hs] at ht2
          cases ht2
          exact hxt
        · exact hrest m hm t2 ht2
      · rintro ⟨hx, hall⟩
        exact ⟨⟨hx, hall n (List.mem_cons_self _ _) t hs⟩,
          fun m hm t2 ht2 => hall m (List.mem_cons_of_mem _ hm) t2 ht2⟩

/-- C19: `pointToPoint::applyToSet` against the set-algebra reference,
given that `addSet` adds the elements of its argument, `subtractSet` removes
them, and every named source exists.  For `ADD` and for `NEW` the resulting
set holds exactly the elements of the input set and of every named source
(point zone or point set, according to `isZone_`), so `NEW` does not clear
the set; for `SUBTRACT` it holds exactly the elements of the input set that
are in no named source; for every other action the set is returned
unchanged. -/
theorem pointToPoint_applyToSet_reference (ops : topoSetOps) (this : pointToPoint)
    (action : topoSetSource.setAction) (set : topoSet)
    (hadd : ∀ s t x, x ∈ ops.addSet s t ↔ x ∈ s ∨ x ∈ t)
    (hsub : ∀ s t x, x ∈ ops.subtractSet s t ↔ x ∈ s ∧ x ∉ t)
    (hsrc : ∀ n ∈ this.names_, (pointToPoint.source this n).isSome = true) :
    (action = topoSetSource.setAction.ADD ∨ action = topoSetSource.setAction.NEW →
        ∃ r, pointToPoint.applyToSet ops this action set = some r
          ∧ ∀ x, x ∈ r ↔
              x ∈ set ∨ ∃ n ∈ this.names_, ∃ t, pointToPoint.source this n = some t ∧ x ∈ t)
      ∧ (action = topoSetSource.setAction.SUBTRACT →
        ∃ r, pointToPoint.applyToSet ops this action set = some r
          ∧ ∀ x, x ∈ r ↔
              x ∈ set ∧ ∀ n ∈ this.names_, ∀ t, pointToPoint.source this n = some t → x ∉ t)
      ∧ (∀ k, action = topoSetSource.setAction.other k →
        pointToPoint.applyToSet ops this action set = some set) := by
  refine ⟨?_, ?_, ?_⟩
  · intro h
    obtain ⟨r, hr, hmem⟩ := pointToPoint.forNames_add ops this hadd this.names_ set hsrc
    exact ⟨r, by simp only [pointToPoint.applyToSet, h, if_true, hr], hmem⟩
  · intro h
    obtain ⟨r, hr, hmem⟩ := pointToPoint.forNames_subtract ops this hsub this.names_ set hsrc
    refine ⟨r, ?_, hmem⟩
    subst h
    simp [pointToPoint.applyToSet, hr]
  · intro k h
    subst h
    simp [pointToPoint.applyToSet]

/-- The action `NEW` with the sources `a = {1, 2}` and `b = {2, 3}` applied to
the set `{0, 1}`: the result keeps 0 and 1 and gains the elements of `a` and
`b`. -/
theorem pointToPoint_applyToSet_reference_witness :
    ∃ r, pointToPoint.applyToSet pointToPoint.setAlgebra
          { mesh_ := pointToPoint.twoSets, names_ := ["a", "b"], isZone_ := false }
          topoSetSource.setAction.NEW {0, 1} = some r
      ∧ ∀ x, x ∈ r ↔
          x ∈ ({0, 1} : topoSet)
            ∨ ∃ n ∈ ["a", "b"], ∃ t,
                pointToPoint.source
                  { mesh_ := pointToPoint.twoSets, names_ := ["a", "b"], isZone_ := false } n
                  = some t ∧ x ∈ t :=
  (pointToPoint_applyToSet_reference pointToPoint.setAlgebra
    { mesh_ := pointToPoint.twoSets, names_ := ["a", "b"], isZone_ := false }
    topoSetSource.setAction.NEW {0, 1}
    (by intro s t x; simp [pointToPoint.setAlgebra])
    (by intro s t x; simp [pointToPoint.setAlgebra])
    (by decide)).1 (Or.inr rfl)

/-! ## A missing scheme name -/

/-- C21: a missing scheme name is detected by the selector.  On a stream
that is already at end-of-input `lnGradScheme::New` fails with the error
"not specified" that lists the sorted table of contents (in ascending order,
a rearrangement of the registered names); the stream holds no word to read,
and no constructor is consulted: any table with the same names, whatever its
constructors, gives the same error. -/
theorem lnGradScheme_New_eof {M S M2 S2 : Type} (table : HashTable (M → Istream → S))
    (mesh : M) (schemeData : Istream) (heof : schemeData.eof = true) :
    fa.lnGradScheme.New table mesh schemeData
        = Except.error (IOerror.notSpecified (HashTable.sortedToc table))
      ∧ List.Sorted (fun a b : word => a ≤ b) (HashTable.sortedToc table)
      ∧ List.Perm (HashTable.sortedToc table) (HashTable.toc table)
      ∧ schemeData.readWord = none
      ∧ ∀ (table2 : HashTable (M2 → Istream → S2)) (mesh2 : M2),
          HashTable.toc table2 = HashTable.toc table →
          fa.lnGradScheme.New table2 mesh2 schemeData
            = Except.error (IOerror.notSpecified (HashTable.sortedToc table)) := by
  refine ⟨by simp [fa.lnGradScheme.New, heof], HashTable.sortedToc_sorted table,
    HashTable.sortedToc_perm table, ?_, ?_⟩
  · obtain ⟨tokens⟩ := schemeData
    cases tokens with
    | nil => rfl
    | cons w rest => simp [Istream.eof] at heof
  · intro table2 mesh2 htoc
    simp [fa.lnGradScheme.New, heof, HashTable.sortedToc, htoc]

/-- An empty scheme stream on the table that registers `linear`, `upwind`
and `limitedLinear`: the error lists `limitedLinear`, `linear`, `upwind`. -/
theorem lnGradScheme_New_eof_witness :
    fa.lnGradScheme.New
        [("linear", fun (_ : Unit) (_ : Istream) => (0 : Nat)),
         ("upwind", fun _ _ => 1), ("limitedLinear", fun _ _ => 2)]
        () ⟨[]⟩
      = Except.error (IOerror.notSpecified ["limitedLinear", "linear", "upwind"]) :=
  (@lnGradScheme_New_eof Unit Nat Unit Nat
    [("linear", fun (_ : Unit) (_ : Istream) => (0 : Nat)),
     ("upwind", fun _ _ => 1), ("limitedLinear", fun _ _ => 2)]
    () ⟨[]⟩ rfl).1

/-! ## The uncorrected gradient of uniform fields and of linear combinations -/

theorem UList.allSome_map_some {α : Type} : ∀ (r : List α), UList.allSome (r.map some) = some r
  | [] => rfl
  | a :: as => by simp [UList.allSome, UList.allSome_map_some as]

theorem fa.lnGradScheme.lnGradEdge_eq_some (deltaCoeffs : List ℚ) (owner neighbour : List Nat)
    (vf : List ℚ) (faceI : Nat) (g : ℚ)
    (h : fa.lnGradScheme.lnGradEdge deltaCoeffs owner neighbour vf faceI = some g) :
    ∃ (d vn vo : ℚ) (n o : Nat), deltaCoeffs[faceI]? = some d ∧ neighbour[faceI]? = some n
      ∧ owner[faceI]? = some o ∧ vf[n]? = some vn ∧ vf[o]? = some vo ∧ g = d * (vn - vo) := by
  unfold fa.lnGradScheme.lnGradEdge UList.elem at h
  cases hd : deltaCoeffs[faceI]? with
  | none => simp [hd] at h
  | some d =>
    cases hn : neighbour[faceI]? with
    | none => simp [hd, hn] at h
    | some n =>
      cases ho : owner[faceI]? with
      | none => simp [hd, hn, ho] at h
      | some o =>
        cases hvn : vf[n]? with
        | none => simp [hd, hn, ho, hvn] at h
        | some vn =>
          cases hvo : vf[o]? with
          | none => simp [hd, hn, ho, hvn, hvo] at h
          | some vo =>
            simp only [hd, hn, ho, hvn, hvo, Option.some.injEq] at h
            exact ⟨d, vn, vo, n, o, rfl, rfl, rfl, hvn, hvo, h.symm⟩

/-- C22: the uncorrected `lnGrad` of a field that has the same value in every
cell is zero on every internal edge, for every addressing and every
difference-coefficient array: whenever `lnGrad` returns an edge field all its
internal values are 0, and it does return one, with a 0 for every internal
edge, when the coefficients have one entry per edge and the labels index cell
values. -/
theorem lnGradScheme_lnGrad_uniform (vf : areaField) (tdeltaCoeffs : edgeField)
    (lnGradName : word) (c : ℚ) (hun : ∀ x ∈ vf.internalField, x = c) :
    (∀ ssf, fa.lnGradScheme.lnGrad vf tdeltaCoeffs lnGradName = some ssf →
        ∀ g ∈ ssf.internalField, g = 0)
      ∧ (tdeltaCoeffs.internalField.length = vf.mesh.owner.length →
          vf.mesh.neighbour.length = vf.mesh.owner.length →
          (∀ o ∈ vf.mesh.owner, o < vf.internalField.length) →
          (∀ n ∈ vf.mesh.neighbour, n < vf.internalField.length) →
          ∃ ssf, fa.lnGradScheme.lnGrad vf tdeltaCoeffs lnGradName = some ssf
            ∧ ssf.internalField = List.replicate vf.mesh.owner.length 0) := by
  have hzero : ∀ ssf, fa.lnGradScheme.lnGrad vf tdeltaCoeffs lnGradName = some ssf →
      ∀ g ∈ ssf.internalField, g = 0 := by
    intro ssf hssf g hg
    unfold fa.lnGradScheme.lnGrad at hssf
    simp only at hssf
    cases hr : UList.allSome ((List.range vf.mesh.owner.length).map
        (fa.lnGradScheme.lnGradEdge tdeltaCoeffs.internalField vf.mesh.owner vf.mesh.neighbour
          vf.internalField)) with
    | none => simp [hr] at hssf
    | some r =>
      simp only [hr, Option.some.injEq] at hssf
      subst hssf
      have hmap := UList.allSome_eq_some _ _ hr
      have hmem : some g ∈ (List.range vf.mesh.owner.length).map
          (fa.lnGradScheme.lnGradEdge tdeltaCoeffs.internalField vf.mesh.owner vf.mesh.neighbour
            vf.internalField) := by
        rw [hmap]
        exact List.mem_map.2 ⟨g, hg, rfl⟩
      obtain ⟨faceI, _, hedge⟩ := List.mem_map.1 hmem
      obtain ⟨d, vn, vo, n, o, _, _, _, hvn, hvo, hgd⟩ :=
        fa.lnGradScheme.lnGradEdge_eq_some _ _ _ _ _ _ hedge
      have h1 : vn = c := hun vn (List.getElem?_mem hvn)
      have h2 : vo = c := hun vo (List.getElem?_mem hvo)
      rw [hgd, h1, h2]
      ring
  refine ⟨hzero, ?_⟩
  intro hd hn ho hnb
  obtain ⟨r, hr⟩ := UList.allSome_of_forall_isSome
    ((List.range vf.mesh.owner.length).map
      (fa.lnGradScheme.lnGradEdge tdeltaCoeffs.internalField vf.mesh.owner vf.mesh.neighbour
        vf.internalField))
    (by
      intro x hx
      obtain ⟨faceI, hf, rfl⟩ := List.mem_map.1 hx
      exact fa.lnGradScheme.lnGradEdge_isSome _ _ _ _ _ hd hn ho hnb (List.mem_range.1 hf))
  have hlen : r.length = vf.mesh.owner.length := by
    have := congrArg List.length (UList.allSome_eq_some _ _ hr)
    simpa using this.symm
  have hres : fa.lnGradScheme.lnGrad vf tdeltaCoeffs lnGradName
      = some { name := lnGradName ++ "(" ++ vf.name ++ ")",
               dimensions := dimensionSet.mul vf.dimensions tdeltaCoeffs.dimensions,
               internalField := r,
               boundaryField := vf.boundaryField.map faPatchField.snGrad } := by
    simp only [fa.lnGradScheme.lnGrad, hr]
  refine ⟨_, hres, ?_⟩
  have hall := hzero _ hres
  simp only at hall
  rw [← hlen]
  exact List.eq_replicate_of_mem hall

/-- A uniform field of value 7 on two cells with one internal edge and
difference coefficient 2: the gradient on that edge is 0. -/
theorem lnGradScheme_lnGrad_uniform_witness :
    ∃ ssf, fa.lnGradScheme.lnGrad
        { name := "T", dimensions := [0, 0, 0, 1, 0], internalField := [7, 7],
          mesh := { owner := [0], neighbour := [1],
                    deltaCoeffs := { name := "deltaCoeffs", dimensions := [0, -1, 0, 0, 0],
                                     internalField := [2], boundaryField := [[4]] } },
          boundaryField := [{ value := [7], snGrad := [3] }] }
        { name := "deltaCoeffs", dimensions := [0, -1, 0, 0, 0],
          internalField := [2], boundaryField := [[4]] }
        "lnGrad" = some ssf
      ∧ ssf.internalField = List.replicate 1 0 :=
  (lnGradScheme_lnGrad_uniform
    { name := "T", dimensions := [0, 0, 0, 1, 0], internalField := [7, 7],
      mesh := { owner := [0], neighbour := [1],
                deltaCoeffs := { name := "deltaCoeffs", dimensions := [0, -1, 0, 0, 0],
                                 internalField := [2], boundaryField := [[4]] } },
      boundaryField := [{ value := [7], snGrad := [3] }] }
    { name := "deltaCoeffs", dimensions := [0, -1, 0, 0, 0],
      internalField := [2], boundaryField := [[4]] }
    "lnGrad" 7 (by simp)).2 rfl rfl (by simp) (by simp)

theorem fa.lnGradScheme.lnGrad_internal (vf : areaField) (tdeltaCoeffs : edgeField)
    (lnGradName : word) (ssf : edgeField)
    (h : fa.lnGradScheme.lnGrad vf tdeltaCoeffs lnGradName = some ssf) :
    (List.range vf.mesh.owner.length).map
        (fa.lnGradScheme.lnGradEdge tdeltaCoeffs.internalField vf.mesh.owner vf.mesh.neighbour
          vf.internalField)
      = ssf.internalField.map some := by
  unfold fa.lnGradScheme.lnGrad at h
  simp only at h
  cases hr : UList.allSome ((List.range vf.mesh.owner.length).map
      (fa.lnGradScheme.lnGradEdge tdeltaCoeffs.internalField vf.mesh.owner vf.mesh.neighbour
        vf.internalField)) with
  | none => simp [hr] at h
  | some r =>
    simp only [hr, Option.some.injEq] at h
    subst h
    exact UList.allSome_eq_some _ _ hr

/-- C29: the uncorrected `lnGrad` is linear in the field on internal edges.
For fields `u`, `v` on the same mesh, scalars `a`, `b` and the same
difference coefficients, if `lnGrad` returns an edge field for `u` and for
`v`, then it returns one for the field with cell values `a*u + b*v`, and on
every internal edge its value is `a` times that of `lnGrad(u)` plus `b` times
that of `lnGrad(v)`. -/
theorem lnGradScheme_lnGrad_linear (u v w : areaField) (tdeltaCoeffs : edgeField)
    (lnGradName : word) (a b : ℚ) (gu gv : edgeField)
    (hv : v.mesh = u.mesh) (hw : w.mesh = u.mesh)
    (hwi : w.internalField
      = List.zipWith (fun x y => a * x + b * y) u.internalField v.internalField)
    (hgu : fa.lnGradScheme.lnGrad u tdeltaCoeffs lnGradName = some gu)
    (hgv : fa.lnGradScheme.lnGrad v tdeltaCoeffs lnGradName = some gv) :
    ∃ gw, fa.lnGradScheme.lnGrad w tdeltaCoeffs lnGradName = some gw
      ∧ gw.internalField
        = List.zipWith (fun x y => a * x + b * y) gu.internalField gv.internalField
      ∧ ∀ (faceI : Nat) (x y : ℚ), gu.internalField[faceI]? = some x →
          gv.internalField[faceI]? = some y →
          gw.internalField[faceI]? = some (a * x + b * y) := by
  have hmu := fa.lnGradScheme.lnGrad_internal u tdeltaCoeffs lnGradName gu hgu
  have hmv := fa.lnGradScheme.lnGrad_internal v tdeltaCoeffs lnGradName gv hgv
  rw [hv] at hmv
  have hlu : gu.internalField.length = u.mesh.owner.length := by
    have := congrArg List.length hmu
    simpa using this.symm
  have hlv : gv.internalField.length = u.mesh.owner.length := by
    have := congrArg List.length hmv
    simpa using this.symm
  have hedge : (List.range u.mesh.owner.length).map
      (fa.lnGradScheme.lnGradEdge tdeltaCoeffs.internalField u.mesh.owner u.mesh.neighbour
        w.internalField)
      = (List.zipWith (fun x y => a * x + b * y) gu.internalField gv.internalField).map some := by
    apply List.ext_getElem?
    intro i
    rcases Nat.lt_or_ge i u.mesh.owner.length with hi | hi
    · have hiu : i < gu.internalField.length := by omega
      have hiv : i < gv.internalField.length := by omega
      have hxu : gu.internalField[i]? = some gu.internalField[i] :=
        List.getElem?_eq_getElem hiu
      have hxv : gv.internalField[i]? = some gv.internalField[i] :=
        List.getElem?_eq_getElem hiv
      have heu := congrArg (fun l => l[i]?) hmu
      have hev := congrArg (fun l => l[i]?) hmv
      simp only [List.getElem?_map, List.getElem?_range hi, Option.map_some', hxu, hxv] at heu hev
      simp only [Option.some.injEq] at heu hev
      obtain ⟨d, un, uo, n, o, hd, hn, ho, hun, huo, hgx⟩ :=
        fa.lnGradScheme.lnGradEdge_eq_some _ _ _ _ _ _ heu
      obtain ⟨d2, vn, vo, n2, o2, hd2, hn2, ho2, hvn, hvo, hgy⟩ :=
        fa.lnGradScheme.lnGradEdge_eq_some _ _ _ _ _ _ hev
      rw [hd] at hd2
      rw [hn] at hn2
      rw [ho] at ho2
      simp only [Option.some.injEq] at hd2 hn2 ho2
      subst hd2 hn2 ho2
      have hwn : w.internalField[n]? = some (a * un + b * vn) := by
        rw [hwi]
        exact volScalarField.getElem?_zipWith _ _ _ _ _ _ hun hvn
      have hwo : w.internalField[o]? = some (a * uo + b * vo) := by
        rw [hwi]
        exact volScalarField.getElem?_zipWith _ _ _ _ _ _ huo hvo
      have hz := volScalarField.getElem?_zipWith (fun x y => a * x + b * y) _ _ _ _ _ hxu hxv
      simp only [List.getElem?_map, List.getElem?_range hi, Option.map_some', hz]
      rw [fa.lnGradScheme.lnGradEdge_eq _ _ _ _ _ d _ _ o n hd ho hn hwo hwn, hgx, hgy]
      congr 1
      congr 1
      ring
    · have h1 : ((List.range u.mesh.owner.length).map
          (fa.lnGradScheme.lnGradEdge tdeltaCoeffs.internalField u.mesh.owner u.mesh.neighbour
            w.internalField))[i]? = none :=
        List.getElem?_eq_none (by simpa using hi)
      have h2 : ((List.zipWith (fun x y => a * x + b * y) gu.internalField
          gv.internalField).map some)[i]? = none :=
        List.getElem?_eq_none (by simp [hlu, hlv]; omega)
      rw [h1, h2]
  refine ⟨{ name := lnGradName ++ "(" ++ w.name ++ ")",
            dimensions := dimensionSet.mul w.dimensions tdeltaCoeffs.dimensions,
            internalField := List.zipWith (fun x y => a * x + b * y) gu.internalField
              gv.internalField,
            boundaryField := w.boundaryField.map faPatchField.snGrad }, ?_, rfl, ?_⟩
  · simp only [fa.lnGradScheme.lnGrad, hw, hedge, UList.allSome_map_some]
  · intro faceI x y hx hy
    exact volScalarField.getElem?_zipWith _ _ _ _ _ _ hx hy

/-- On two cells with one internal edge and difference coefficient 2, the
fields `u = [1, 5]` and `v = [3, 4]` have gradients 8 and 2, and `2*u - 3*v`
has gradient `2*8 - 3*2`. -/
theorem lnGradScheme_lnGrad_linear_witness :
    ∃ gw, fa.lnGradScheme.lnGrad
        { name := "w", dimensions := [0, 0, 0, 1, 0],
          internalField := List.zipWith (fun x y => 2 * x + (-3) * y) [1, 5] [3, 4],
          mesh := { owner := [0], neighbour := [1],
                    deltaCoeffs := { name := "deltaCoeffs", dimensions := [0, -1, 0, 0, 0],
                                     internalField := [2], boundaryField := [] } },
          boundaryField := [] }
        { name := "deltaCoeffs", dimensions := [0, -1, 0, 0, 0],
          internalField := [2], boundaryField := [] }
        "lnGrad" = some gw
      ∧ gw.internalField = List.zipWith (fun x y => 2 * x + (-3) * y) [8] [2] := by
  obtain ⟨gw, h1, h2, _⟩ := lnGradScheme_lnGrad_linear
    { name := "u", dimensions := [0, 0, 0, 1, 0], internalField := [1, 5],
      mesh := { owner := [0], neighbour := [1],
                deltaCoeffs := { name := "deltaCoeffs", dimensions := [0, -1, 0, 0, 0],
                                 internalField := [2], boundaryField := [] } },
      boundaryField := [] }
    { name := "v", dimensions := [0, 0, 0, 1, 0], internalField := [3, 4],
      mesh := { owner := [0], neighbour := [1],
                deltaCoeffs := { name := "deltaCoeffs", dimensions := [0, -1, 0, 0, 0],
                                 internalField := [2], boundaryField := [] } },
      boundaryField := [] }
    { name := "w", dimensions := [0, 0, 0, 1, 0],
      internalField := List.zipWith (fun x y => 2 * x + (-3) * y) [1, 5] [3, 4],
      mesh := { owner := [0], neighbour := [1],
                deltaCoeffs := { name := "deltaCoeffs", dimensions := [0, -1, 0, 0, 0],
                                 internalField := [2], boundaryField := [] } },
      boundaryField := [] }
    { name := "deltaCoeffs", dimensions := [0, -1, 0, 0, 0],
      internalField := [2], boundaryField := [] }
    "lnGrad" 2 (-3)
    { name := "lnGrad(u)", dimensions := [0, -1, 0, 1, 0], internalField := [8],
      boundaryField := [] }
    { name := "lnGrad(v)", dimensions := [0, -1, 0, 1, 0], internalField := [2],
      boundaryField := [] }
    rfl rfl rfl
    (by norm_num [fa.lnGradScheme.lnGrad, fa.lnGradScheme.lnGradEdge, UList.elem,
          UList.allSome, dimensionSet.mul, List.range, List.range.loop]; rfl)
    (by norm_num [fa.lnGradScheme.lnGrad, fa.lnGradScheme.lnGradEdge, UList.elem,
          UList.allSome, dimensionSet.mul, List.range, List.range.loop]; rfl)
  exact ⟨gw, h1, h2⟩

/-! ## Both coupling terms see the same fields -/

/-- C23: both coupling terms are evaluated from the same field state.  In
`EEqns.H` the sixth statement is `E1Eqn -= (...)` and the ninth is
`E2Eqn -= (...)`; among the first nine statements there is no solve, no
`fvOptions.correct` and no `thermo.correct()`, and both subtractions come
before every solve and every `thermo.correct()`.  Whatever the collaborators
do, the states in which the two subtractions are executed have the same `Kh`,
`T1`, `T2`, `he1` and `he2`, those `EEqns.H` starts from, and the equations
they leave carry `Kh*(T2 - T1)` and `Kh*(T1 - T2)` of these same fields. -/
theorem EEqns_coupling_same_state {M : Type} (c : EEqns.Collaborators M) (s : EEqns.State M) :
    EEqns.statements[5]? = some (EEqns.Statement.subtract EEqns.Phase.one)
      ∧ EEqns.statements[8]? = some (EEqns.Statement.subtract EEqns.Phase.two)
      ∧ (∀ p : EEqns.Phase,
          EEqns.Statement.solve p ∉ EEqns.statements.take 9
            ∧ EEqns.Statement.correct p ∉ EEqns.statements.take 9
            ∧ EEqns.Statement.thermoCorrect p ∉ EEqns.statements.take 9)
      ∧ (∀ p q : EEqns.Phase,
          List.indexOf (EEqns.Statement.subtract p) EEqns.statements
              < List.indexOf (EEqns.Statement.solve q) EEqns.statements
            ∧ List.indexOf (EEqns.Statement.subtract p) EEqns.statements
              < List.indexOf (EEqns.Statement.thermoCorrect q) EEqns.statements)
      ∧ ((EEqns.runPrefix c s 5).Kh = c.Kh s.he1 s.he2 s.T1 s.T2
          ∧ (EEqns.runPrefix c s 8).Kh = c.Kh s.he1 s.he2 s.T1 s.T2)
      ∧ ((EEqns.runPrefix c s 5).T1 = s.T1 ∧ (EEqns.runPrefix c s 8).T1 = s.T1
          ∧ (EEqns.runPrefix c s 5).T2 = s.T2 ∧ (EEqns.runPrefix c s 8).T2 = s.T2)
      ∧ ((EEqns.runPrefix c s 5).he1 = s.he1 ∧ (EEqns.runPrefix c s 8).he1 = s.he1
          ∧ (EEqns.runPrefix c s 5).he2 = s.he2 ∧ (EEqns.runPrefix c s 8).he2 = s.he2)
      ∧ (EEqns.runPrefix c s 6).E1Eqn
          = some (c.subtract EEqns.Phase.one
              (c.relax (c.assemble EEqns.Phase.one s.he1 s.he2 s.T1 s.T2))
              (E1Eqn.exchange (c.Kh s.he1 s.he2 s.T1 s.T2) s.T1 s.T2)
              (c.Kh s.he1 s.he2 s.T1 s.T2) (c.Cpv EEqns.Phase.one s.he1 s.T1) s.he1)
      ∧ (EEqns.runPrefix c s 9).E2Eqn
          = some (c.subtract EEqns.Phase.two
              (c.relax (c.assemble EEqns.Phase.two s.he1 s.he2 s.T1 s.T2))
              (E2Eqn.exchange (c.Kh s.he1 s.he2 s.T1 s.T2) s.T1 s.T2)
              (c.Kh s.he1 s.he2 s.T1 s.T2) (c.Cpv EEqns.Phase.two s.he2 s.T2) s.he2) := by
  refine ⟨by decide, by decide, ?_, ?_, ?_, ?_, ?_, ?_, ?_⟩
  · intro p
    cases p <;> decide
  · intro p q
    cases p <;> cases q <;> decide
  all_goals
    simp [EEqns.runPrefix, EEqns.statements, EEqns.exec, EEqns.effect]

/-! ## The linearised exchange term -/

theorem EquationMatrix.offDiagonalSum_add_zero (c : Nat) (x : List ℚ) (f : Nat → ℚ)
    (hf : ∀ o, f o = 0) :
    ∀ (os ns : List Nat) (bs : List ℚ),
    EquationMatrix.offDiagonalSum c x os ns
        (List.zipWith (fun a b => a + b) (os.map f) bs)
      = EquationMatrix.offDiagonalSum c x os ns bs
  | [], _, _ => by simp [EquationMatrix.offDiagonalSum]
  | _ :: _, [], _ => by simp [EquationMatrix.offDiagonalSum]
  | _ :: _, _ :: _, [] => by simp [EquationMatrix.offDiagonalSum]
  | o :: os, n :: ns, b :: bs => by
    simp only [List.map_cons, List.zipWith_cons_cons, EquationMatrix.offDiagonalSum,
      EquationMatrix.offDiagonalSum_add_zero c x f hf os ns bs, hf, zero_add]

theorem EquationMatrix.boundaryDiagonal_add_zero (c : Nat) (f : Nat → ℚ × ℚ)
    (hf : ∀ p, f p = (0, 0)) :
    ∀ (ps : List Nat) (bs : List (ℚ × ℚ)),
    EquationMatrix.boundaryDiagonal c ps
        (List.zipWith (fun a b => (a.1 + b.1, a.2 + b.2)) (ps.map f) bs)
      = EquationMatrix.boundaryDiagonal c ps bs
  | [], _ => by simp [EquationMatrix.boundaryDiagonal]
  | _ :: _, [] => by simp [EquationMatrix.boundaryDiagonal]
  | p :: ps, b :: bs => by
    simp only [List.map_cons, List.zipWith_cons_cons, EquationMatrix.boundaryDiagonal,
      EquationMatrix.boundaryDiagonal_add_zero c f hf ps bs, hf, zero_add]

theorem EquationMatrix.boundarySource_add_zero (c : Nat) (f : Nat → ℚ × ℚ)
    (hf : ∀ p, f p = (0, 0)) :
    ∀ (ps : List Nat) (bs : List (ℚ × ℚ)),
    EquationMatrix.boundarySource c ps
        (List.zipWith (fun a b => (a.1 + b.1, a.2 + b.2)) (ps.map f) bs)
      = EquationMatrix.boundarySource c ps bs
  | [], _ => by simp [EquationMatrix.boundarySource]
  | _ :: _, [] => by simp [EquationMatrix.boundarySource]
  | p :: ps, b :: bs => by
    simp only [List.map_cons, List.zipWith_cons_cons, EquationMatrix.boundarySource,
      EquationMatrix.boundarySource_add_zero c f hf ps bs, hf, zero_add]

theorem EquationMatrix.offDiagonalSum_zero (c : Nat) (x : List ℚ) (f : Nat → ℚ)
    (hf : ∀ o, f o = 0) :
    ∀ (os ns : List Nat), EquationMatrix.offDiagonalSum c x os ns (os.map f) = 0
  | [], _ => by simp [EquationMatrix.offDiagonalSum]
  | _ :: _, [] => by simp [EquationMatrix.offDiagonalSum]
  | o :: os, n :: ns => by
    simp [EquationMatrix.offDiagonalSum, EquationMatrix.offDiagonalSum_zero c x f hf os ns, hf]

theorem EquationMatrix.boundaryDiagonal_zero (c : Nat) (f : Nat → ℚ × ℚ)
    (hf : ∀ p, f p = (0, 0)) :
    ∀ (ps : List Nat), EquationMatrix.boundaryDiagonal c ps (ps.map f) = 0
  | [] => by simp [EquationMatrix.boundaryDiagonal]
  | p :: ps => by
    simp [EquationMatrix.boundaryDiagonal, EquationMatrix.boundaryDiagonal_zero c f hf ps, hf]

theorem EquationMatrix.boundarySource_zero (c : Nat) (f : Nat → ℚ × ℚ)
    (hf : ∀ p, f p = (0, 0)) :
    ∀ (ps : List Nat), EquationMatrix.boundarySource c ps (ps.map f) = 0
  | [] => by simp [EquationMatrix.boundarySource]
  | p :: ps => by
    simp [EquationMatrix.boundarySource, EquationMatrix.boundarySource_zero c f hf ps, hf]

theorem EEqns.linearisation_residual (mesh : MeshTopology) (V Kh he Cpv : volScalarField)
    (c : Nat) (v k h cp : ℚ) (hc : c < mesh.nCells)
    (hV : V[c]? = some v) (hK : Kh[c]? = some k) (hh : he[c]? = some h)
    (hCp : Cpv[c]? = some cp) (hcp : cp ≠ 0) :
    EquationMatrix.residual (EEqns.linearisation mesh V Kh he Cpv) mesh he c = 0 := by
  have hq : (volScalarField.div Kh Cpv)[c]? = some (k / cp) :=
    volScalarField.getElem?_zipWith _ _ _ _ _ _ hK hCp
  have hd : (volScalarField.mul V (volScalarField.div Kh Cpv))[c]? = some (v * (k / cp)) :=
    volScalarField.getElem?_zipWith _ _ _ _ _ _ hV hq
  have hkh : (volScalarField.mul Kh he)[c]? = some (k * h) :=
    volScalarField.getElem?_zipWith _ _ _ _ _ _ hK hh
  have he1 : (volScalarField.div (volScalarField.mul Kh he) Cpv)[c]? = some (k * h / cp) :=
    volScalarField.getElem?_zipWith _ _ _ _ _ _ hkh hCp
  have hve : (volScalarField.mul V (volScalarField.div (volScalarField.mul Kh he) Cpv))[c]?
      = some (v * (k * h / cp)) :=
    volScalarField.getElem?_zipWith _ _ _ _ _ _ hV he1
  have hz : ((List.replicate mesh.nCells (0 : ℚ)).map (fun s => -s))[c]? = some 0 := by
    simp [List.getElem?_replicate, hc]
  have hs := volScalarField.getElem?_zipWith (fun s e => s - e) _ _ c _ _ hz hve
  have hod := EquationMatrix.offDiagonalSum_zero c he
    ((fun a : ℚ => -a) ∘ fun _ : Nat => (0 : ℚ)) (by intro o; simp) mesh.owner mesh.neighbour
  have hbd := EquationMatrix.boundaryDiagonal_zero c
    ((fun b : ℚ × ℚ => (-b.1, -b.2)) ∘ fun _ : Nat => ((0 : ℚ), (0 : ℚ))) (by intro p; simp)
    mesh.faceCells
  have hbs := EquationMatrix.boundarySource_zero c
    ((fun b : ℚ × ℚ => (-b.1, -b.2)) ∘ fun _ : Nat => ((0 : ℚ), (0 : ℚ))) (by intro p; simp)
    mesh.faceCells
  simp only [EquationMatrix.residual, EquationMatrix.lhs, EquationMatrix.rhs,
    EEqns.linearisation, EquationMatrix.addSu, EquationMatrix.neg, fvm.Sp, List.map_map,
    List.getD_eq_getElem?_getD, hod, hbd, hbs, hs, List.getElem?_map, hd, hh,
    Option.map_some', Option.getD_some]
  field_simp
  ring

theorem EEqns.sourceTerms_residual (mesh : MeshTopology)
    (V exchange Kh he Cpv work : volScalarField) (options : EquationMatrix)
    (c : Nat) (v e k h cp w : ℚ) (hc : c < mesh.nCells)
    (hV : V[c]? = some v) (hE : exchange[c]? = some e) (hK : Kh[c]? = some k)
    (hh : he[c]? = some h) (hCp : Cpv[c]? = some cp) (hcp : cp ≠ 0)
    (hW : work[c]? = some w)
    (hod : c < options.diagonal.length) (hos : c < options.source.length) :
    EquationMatrix.residual (EEqns.sourceTerms mesh V exchange Kh he Cpv work options) mesh he c
      = v * e + v * w + EquationMatrix.residual options mesh he c := by
  have hq : (volScalarField.div Kh Cpv)[c]? = some (k / cp) :=
    volScalarField.getElem?_zipWith _ _ _ _ _ _ hK hCp
  have hd : ((volScalarField.mul V (volScalarField.div Kh Cpv)).map (fun d => -d))[c]?
      = some (-(v * (k / cp))) := by
    have := volScalarField.getElem?_zipWith (fun x y => x * y) V _ c _ _ hV hq
    simp only [volScalarField.mul, List.getElem?_map, this, Option.map_some']
  have hkh : (volScalarField.mul Kh he)[c]? = some (k * h) :=
    volScalarField.getElem?_zipWith _ _ _ _ _ _ hK hh
  have he1 : (volScalarField.div (volScalarField.mul Kh he) Cpv)[c]? = some (k * h / cp) :=
    volScalarField.getElem?_zipWith _ _ _ _ _ _ hkh hCp
  have hsum : (volScalarField.add exchange
      (volScalarField.div (volScalarField.mul Kh he) Cpv))[c]? = some (e + k * h / cp) :=
    volScalarField.getElem?_zipWith _ _ _ _ _ _ hE he1
  have hve := volScalarField.getElem?_zipWith (fun x y => x * y) V _ c _ _ hV hsum
  have hvw := volScalarField.getElem?_zipWith (fun x y => x * y) V _ c _ _ hV hW
  have hz : ((List.replicate mesh.nCells (0 : ℚ)).map (fun s => -s))[c]? = some 0 := by
    simp [List.getElem?_replicate, hc]
  have hs1 := volScalarField.getElem?_zipWith (fun s e => s - e) _ _ c _ _ hz hve
  have hs2 := volScalarField.getElem?_zipWith (fun s e => s - e) _ _ c _ _ hs1 hvw
  have hs3 := volScalarField.getElem?_zipWith (fun a b => a + b) _ _ c _ _ hs2
    (List.getElem?_eq_getElem hos)
  have hd3 := volScalarField.getElem?_zipWith (fun a b => a + b) _ _ c _ _ hd
    (List.getElem?_eq_getElem hod)
  have hoff := EquationMatrix.offDiagonalSum_add_zero c he
    ((fun a : ℚ => -a) ∘ fun _ : Nat => (0 : ℚ)) (by intro o; simp) mesh.owner mesh.neighbour
    options.offDiagonal
  have hbd := EquationMatrix.boundaryDiagonal_add_zero c
    ((fun b : ℚ × ℚ => (-b.1, -b.2)) ∘ fun _ : Nat => ((0 : ℚ), (0 : ℚ))) (by intro p; simp)
    mesh.faceCells options.boundaryCoeffs
  have hbs := EquationMatrix.boundarySource_add_zero c
    ((fun b : ℚ × ℚ => (-b.1, -b.2)) ∘ fun _ : Nat => ((0 : ℚ), (0 : ℚ))) (by intro p; simp)
    mesh.faceCells options.boundaryCoeffs
  simp only [volScalarField.mul] at hs3 hd3
  simp only [EquationMatrix.residual, EquationMatrix.lhs, EquationMatrix.rhs,
    EEqns.sourceTerms, EquationMatrix.add, EquationMatrix.addSu, EquationMatrix.neg, fvm.Sp,
    volScalarField.mul, List.map_map,
    List.getD_eq_getElem?_getD, hoff, hbd, hbs, hs3, hd3, hh,
    List.getElem?_eq_getElem hod, List.getElem?_eq_getElem hos, Option.getD_some]
  field_simp
  ring

/-- C24: the implicit linearisation of the inter-phase exchange is
residual-neutral at the current iterate.  In every cell that has a value of
each field and a non-zero `Cpv`, the explicit part `Kh*he1/Cpv1` and the
implicit part `fvm::Sp(Kh/Cpv1, he1)` of the term subtracted from `E1Eqn`
cancel when the unknown is the current `he1`, and the whole term is then the
cell volume times `Kh*(T2 - T1)` plus the gravity work plus what `fvOptions`
adds; likewise for `E2Eqn` with `he2`, `Cpv2` and `Kh*(T1 - T2)`. -/
theorem EEqns_linearisation_residual_neutral (mesh : MeshTopology)
    (V Kh T1 T2 he1 he2 Cpv1 Cpv2 work1 work2 : volScalarField)
    (options1 options2 : EquationMatrix) (c : Nat) (v k t1 t2 h1 h2 cp1 cp2 w1 w2 : ℚ)
    (hc : c < mesh.nCells) (hV : V[c]? = some v) (hK : Kh[c]? = some k)
    (hT1 : T1[c]? = some t1) (hT2 : T2[c]? = some t2)
    (hh1 : he1[c]? = some h1) (hh2 : he2[c]? = some h2)
    (hCp1 : Cpv1[c]? = some cp1) (hCp2 : Cpv2[c]? = some cp2)
    (hcp1 : cp1 ≠ 0) (hcp2 : cp2 ≠ 0)
    (hW1 : work1[c]? = some w1) (hW2 : work2[c]? = some w2)
    (hod1 : c < options1.diagonal.length) (hos1 : c < options1.source.length)
    (hod2 : c < options2.diagonal.length) (hos2 : c < options2.source.length) :
    EquationMatrix.residual (EEqns.linearisation mesh V Kh he1 Cpv1) mesh he1 c = 0
      ∧ EquationMatrix.residual (EEqns.linearisation mesh V Kh he2 Cpv2) mesh he2 c = 0
      ∧ EquationMatrix.residual
          (E1Eqn.sourceTerms mesh V Kh T1 T2 he1 Cpv1 work1 options1) mesh he1 c
          = v * (k * (t2 - t1)) + v * w1 + EquationMatrix.residual options1 mesh he1 c
      ∧ EquationMatrix.residual
          (E2Eqn.sourceTerms mesh V Kh T1 T2 he2 Cpv2 work2 options2) mesh he2 c
          = v * (k * (t1 - t2)) + v * w2 + EquationMatrix.residual options2 mesh he2 c := by
  have hE1 : (E1Eqn.exchange Kh T1 T2)[c]? = some (k * (t2 - t1)) :=
    volScalarField.getElem?_zipWith _ _ _ _ _ _ hK
      (volScalarField.getElem?_zipWith _ _ _ _ _ _ hT2 hT1)
  have hE2 : (E2Eqn.exchange Kh T1 T2)[c]? = some (k * (t1 - t2)) :=
    volScalarField.getElem?_zipWith _ _ _ _ _ _ hK
      (volScalarField.getElem?_zipWith _ _ _ _ _ _ hT1 hT2)
  exact ⟨EEqns.linearisation_residual mesh V Kh he1 Cpv1 c v k h1 cp1 hc hV hK hh1 hCp1 hcp1,
    EEqns.linearisation_residual mesh V Kh he2 Cpv2 c v k h2 cp2 hc hV hK hh2 hCp2 hcp2,
    EEqns.sourceTerms_residual mesh V _ Kh he1 Cpv1 work1 options1 c v _ k h1 cp1 w1 hc hV hE1
      hK hh1 hCp1 hcp1 hW1 hod1 hos1,
    EEqns.sourceTerms_residual mesh V _ Kh he2 Cpv2 work2 options2 c v _ k h2 cp2 w2 hc hV hE2
      hK hh2 hCp2 hcp2 hW2 hod2 hos2⟩

/-- On the five-cell mesh of the 1-D scenario, in cell 1, with cell volume 2,
`Kh = 3`, `T1 = 300`, `T2 = 350`, `he1 = 7`, `he2 = 9`, `Cpv1 = 4`, `Cpv2 = 5`,
gravity work 1 and -1 and an `fvOptions` term with diagonal 1 and source 10:
the linearisation cancels and the terms hold the exchange `2*(3*50)` and
`2*(3*(-50))`. -/
theorem EEqns_linearisation_residual_neutral_witness :
    EquationMatrix.residual (EEqns.linearisation fvm.mesh1D (List.replicate 5 2) (List.replicate 5 3) (List.replicate 5 7) (List.replicate 5 4))
        fvm.mesh1D (List.replicate 5 7) 1 = 0
      ∧ EquationMatrix.residual (EEqns.linearisation fvm.mesh1D (List.replicate 5 2) (List.replicate 5 3) (List.replicate 5 9) (List.replicate 5 5))
        fvm.mesh1D (List.replicate 5 9) 1 = 0
      ∧ EquationMatrix.residual
          (E1Eqn.sourceTerms fvm.mesh1D (List.replicate 5 2) (List.replicate 5 3) (List.replicate 5 300) (List.replicate 5 350) (List.replicate 5 7) (List.replicate 5 4) (List.replicate 5 1)
            (EquationMatrix.ofDiagonalSource (List.replicate 5 1) (List.replicate 5 10))) fvm.mesh1D (List.replicate 5 7) 1
          = 2 * (3 * (350 - 300)) + 2 * 1
            + EquationMatrix.residual (EquationMatrix.ofDiagonalSource (List.replicate 5 1) (List.replicate 5 10))
                fvm.mesh1D (List.replicate 5 7) 1
      ∧ EquationMatrix.residual
          (E2Eqn.sourceTerms fvm.mesh1D (List.replicate 5 2) (List.replicate 5 3) (List.replicate 5 300) (List.replicate 5 350) (List.replicate 5 9) (List.replicate 5 5)
            (List.replicate 5 (-1)) (EquationMatrix.ofDiagonalSource (List.replicate 5 1) (List.replicate 5 10))) fvm.mesh1D (List.replicate 5 9) 1
          = 2 * (3 * (300 - 350)) + 2 * (-1)
            + EquationMatrix.residual (EquationMatrix.ofDiagonalSource (List.replicate 5 1) (List.replicate 5 10))
                fvm.mesh1D (List.replicate 5 9) 1 :=
  EEqns_linearisation_residual_neutral fvm.mesh1D (List.replicate 5 2) (List.replicate 5 3) (List.replicate 5 300) (List.replicate 5 350)
    (List.replicate 5 7) (List.replicate 5 9) (List.replicate 5 4) (List.replicate 5 5) (List.replicate 5 1) (List.replicate 5 (-1))
    (EquationMatrix.ofDiagonalSource (List.replicate 5 1) (List.replicate 5 10))
    (EquationMatrix.ofDiagonalSource (List.replicate 5 1) (List.replicate 5 10)) 1 2 3 300 350 7 9 4 5 1 (-1)
    (by decide) rfl rfl rfl rfl rfl rfl rfl rfl (by norm_num) (by norm_num) rfl rfl
    (by decide) (by decide) (by decide) (by decide)

/-! ## The layered engine mesh -/

theorem layeredEngineMesh.movePoint_x (deltaZ pistonPlusLayers deckHeight : ℚ) (p : point) :
    (layeredEngineMesh.movePoint deltaZ pistonPlusLayers deckHeight p).x = p.x := by
  unfold layeredEngineMesh.movePoint
  split_ifs <;> rfl

theorem layeredEngineMesh.movePoint_y (deltaZ pistonPlusLayers deckHeight : ℚ) (p : point) :
    (layeredEngineMesh.movePoint deltaZ pistonPlusLayers deckHeight p).y = p.y := by
  unfold layeredEngineMesh.movePoint
  split_ifs <;> rfl

theorem layeredEngineMesh.move_points_getElem? {Φ : Type} (this : layeredEngineMesh Φ)
    (deltaZ : ℚ) (moving : Bool) (makeAbsolute makeRelative : Φ → Φ) (pointi : Nat) (p : point)
    (hp : this.points[pointi]? = some p) :
    (this.move deltaZ moving makeAbsolute makeRelative).points[pointi]?
      = some (layeredEngineMesh.movePoint deltaZ this.pistonPlusLayers this.deckHeight_ p) := by
  simp [layeredEngineMesh.move, List.getElem?_map, hp]

/-- C25: `layeredEngineMesh::move` displaces every mesh point according to its
height `z` before the move, with `P = pistonPosition + pistonLayers` and
`D = deckHeight`: the point keeps its `x` and `y`; if `z < P` its new height
is `z + deltaZ`; else if `z < D` it is `z + deltaZ*(D - z)/(D - P)`; otherwise,
where `z >= D`, the point is unchanged.  The number of points does not change,
`deckHeight` and `pistonLayers` do not change, and `pistonPosition` is
increased by `deltaZ`. -/
theorem layeredEngineMesh_move_displacement {Φ : Type} (this : layeredEngineMesh Φ)
    (deltaZ : ℚ) (moving : Bool) (makeAbsolute makeRelative : Φ → Φ) (pointi : Nat) (p : point)
    (hp : this.points[pointi]? = some p) :
    (this.move deltaZ moving makeAbsolute makeRelative).points.length = this.points.length
      ∧ (this.move deltaZ moving makeAbsolute makeRelative).pistonPosition_
          = this.pistonPosition_ + deltaZ
      ∧ (this.move deltaZ moving makeAbsolute makeRelative).deckHeight_ = this.deckHeight_
      ∧ (this.move deltaZ moving makeAbsolute makeRelative).pistonLayers_ = this.pistonLayers_
      ∧ ∃ q, (this.move deltaZ moving makeAbsolute makeRelative).points[pointi]? = some q
          ∧ q.x = p.x ∧ q.y = p.y
          ∧ (p.z < this.pistonPosition_ + this.pistonLayers_ → q.z = p.z + deltaZ)
          ∧ (¬ p.z < this.pistonPosition_ + this.pistonLayers_ → p.z < this.deckHeight_ →
              q.z = p.z + deltaZ * (this.deckHeight_ - p.z)
                / (this.deckHeight_ - (this.pistonPosition_ + this.pistonLayers_)))
          ∧ (¬ p.z < this.pistonPosition_ + this.pistonLayers_ → ¬ p.z < this.deckHeight_ →
              this.deckHeight_ ≤ p.z ∧ q = p) := by
  refine ⟨by simp [layeredEngineMesh.move], rfl, rfl, rfl,
    layeredEngineMesh.movePoint deltaZ this.pistonPlusLayers this.deckHeight_ p,
    layeredEngineMesh.move_points_getElem? this deltaZ moving makeAbsolute makeRelative pointi p hp,
    layeredEngineMesh.movePoint_x _ _ _ _, layeredEngineMesh.movePoint_y _ _ _ _, ?_, ?_, ?_⟩
  · intro h
    simp [layeredEngineMesh.movePoint, layeredEngineMesh.pistonPlusLayers, h]
  · intro h1 h2
    simp [layeredEngineMesh.movePoint, layeredEngineMesh.pistonPlusLayers, h1, h2]
  · intro h1 h2
    refine ⟨not_lt.1 h2, ?_⟩
    simp [layeredEngineMesh.movePoint, layeredEngineMesh.pistonPlusLayers, h1, h2]

/-- The liner point `(3, 4, 3)` of the cylinder, moved with `deltaZ = 2`: the
mesh keeps its four points, the piston goes from 0 to 2, and the point goes to
`(3, 4, 4)`, that is up by `2*(5 - 3)/(5 - 1)`. -/
theorem layeredEngineMesh_move_displacement_witness :
    (layeredEngineMesh.cylinder.move 2 false id id).points.length = 4
      ∧ (layeredEngineMesh.cylinder.move 2 false id id).pistonPosition_ = 2
      ∧ (layeredEngineMesh.cylinder.move 2 false id id).points
          = [⟨1, 2, 5 / 2⟩, ⟨3, 4, 4⟩, ⟨5, 6, 5⟩, ⟨7, 8, 6⟩]
      ∧ ∃ q, (layeredEngineMesh.cylinder.move 2 false id id).points[1]? = some q
          ∧ q.x = 3 ∧ q.y = 4 := by
  obtain ⟨h1, h2, _, _, q, hq, hx, hy, _⟩ :=
    layeredEngineMesh_move_displacement layeredEngineMesh.cylinder 2 false id id 1 ⟨3, 4, 3⟩ rfl
  refine ⟨h1, ?_, ?_, q, hq, hx, hy⟩
  · rw [h2]
    norm_num [layeredEngineMesh.cylinder]
  · norm_num [layeredEngineMesh.move, layeredEngineMesh.cylinder, layeredEngineMesh.movePoint,
      layeredEngineMesh.pistonPlusLayers]

/-- C26: the liner-region division in `layeredEngineMesh::move` never divides
by zero.  For every point and all values of `pistonPosition`, `pistonLayers`,
`deckHeight` and `deltaZ`, whenever the liner branch is taken, that is the
test `z < pistonPlusLayers` fails and the test `z < deckHeight` holds, the
divisor `deckHeight - (pistonPosition + pistonLayers)` is strictly positive;
the checked division has a result, and the loop body with the division
checked gives the point that the loop body gives. -/
theorem layeredEngineMesh_move_divisor_positive
    (deltaZ pistonPosition pistonLayers deckHeight : ℚ) (p : point)
    (hbowl : ¬ p.z < pistonPosition + pistonLayers) (hliner : p.z < deckHeight) :
    0 < deckHeight - (pistonPosition + pistonLayers)
      ∧ scalar.divide (deltaZ * (deckHeight - p.z)) (deckHeight - (pistonPosition + pistonLayers))
          = some (deltaZ * (deckHeight - p.z) / (deckHeight - (pistonPosition + pistonLayers)))
      ∧ layeredEngineMesh.movePointChecked deltaZ (pistonPosition + pistonLayers) deckHeight p
          = some (layeredEngineMesh.movePoint deltaZ (pistonPosition + pistonLayers) deckHeight p)
      ∧ (layeredEngineMesh.movePoint deltaZ (pistonPosition + pistonLayers) deckHeight p).z
          = p.z + deltaZ * (deckHeight - p.z) / (deckHeight - (pistonPosition + pistonLayers)) := by
  have hpos : 0 < deckHeight - (pistonPosition + pistonLayers) := by
    have := not_lt.1 hbowl
    linarith
  have hne : deckHeight - (pistonPosition + pistonLayers) ≠ 0 := ne_of_gt hpos
  refine ⟨hpos, ?_, ?_, ?_⟩
  · simp [scalar.divide, hne]
  · simp [layeredEngineMesh.movePointChecked, layeredEngineMesh.movePoint, scalar.divide, hbowl,
      hliner, hne]
  · simp [layeredEngineMesh.movePoint, hbowl, hliner]

/-- The liner point `(3, 4, 3)` with the piston at 0, one layer of thickness 1
and the deck at 5: the divisor is `5 - (0 + 1) = 4`. -/
theorem layeredEngineMesh_move_divisor_positive_witness :
    (0 : ℚ) < 5 - (0 + 1)
      ∧ scalar.divide (2 * (5 - (⟨3, 4, 3⟩ : point).z)) (5 - (0 + 1))
          = some (2 * (5 - (⟨3, 4, 3⟩ : point).z) / (5 - (0 + 1)))
      ∧ layeredEngineMesh.movePointChecked 2 (0 + 1) 5 ⟨3, 4, 3⟩
          = some (layeredEngineMesh.movePoint 2 (0 + 1) 5 ⟨3, 4, 3⟩)
      ∧ (layeredEngineMesh.movePoint 2 (0 + 1) 5 ⟨3, 4, 3⟩).z
          = (⟨3, 4, 3⟩ : point).z + 2 * (5 - (⟨3, 4, 3⟩ : point).z) / (5 - (0 + 1)) :=
  layeredEngineMesh_move_divisor_positive 2 0 1 5 ⟨3, 4, 3⟩ (by norm_num) (by norm_num)

theorem layeredEngineMesh.movePoint_z_lt (deltaZ P D : ℚ) (p1 p2 : point)
    (hdz : deltaZ < D - P) (hlt : p1.z < p2.z) :
    (layeredEngineMesh.movePoint deltaZ P D p1).z
      < (layeredEngineMesh.movePoint deltaZ P D p2).z := by
  have e1 : ∀ z : ℚ, deltaZ * (D - z) / (D - P) = deltaZ / (D - P) * (D - z) := by
    intro z; ring
  have key : 0 < D - P → deltaZ / (D - P) < 1 ∧ deltaZ = deltaZ / (D - P) * (D - P) := by
    intro hpos
    have hne : D - P ≠ 0 := ne_of_gt hpos
    exact ⟨(div_lt_one hpos).2 hdz, by field_simp⟩
  by_cases a1 : p1.z < P <;> by_cases b1 : p1.z < D <;>
    by_cases a2 : p2.z < P <;> by_cases b2 : p2.z < D <;>
    simp only [layeredEngineMesh.movePoint, a1, b1, a2, b2, if_true, if_false, e1] <;>
    first
    | linarith
    | (obtain ⟨hs, hd⟩ := key (by linarith)
       generalize deltaZ / (D - P) = s at hs hd ⊢
       nlinarith [mul_pos (sub_pos.2 hlt) (sub_pos.2 hs),
         mul_nonneg (sub_nonneg.2 (not_lt.1 a2)) (le_of_lt (sub_pos.2 hs)),
         mul_pos (sub_pos.2 b1) (sub_pos.2 hs)])

/-- C27: `layeredEngineMesh::move` does not invert the vertical ordering of
points.  Provided `deltaZ < deckHeight - (pistonPosition + pistonLayers)`, two
points of the mesh with heights `z1 < z2` before the move have heights
`z1' < z2'` after it.  The liner displacement `deltaZ*(D - z)/(D - P)` is
`deltaZ`, that of the piston bowl, at `z = P` when `P < D`, and 0, that of the
points left unchanged, at `z = D`. -/
theorem layeredEngineMesh_move_order_preserved {Φ : Type} (this : layeredEngineMesh Φ)
    (deltaZ : ℚ) (moving : Bool) (makeAbsolute makeRelative : Φ → Φ)
    (i j : Nat) (p1 p2 : point)
    (hdz : deltaZ < this.deckHeight_ - (this.pistonPosition_ + this.pistonLayers_))
    (hp1 : this.points[i]? = some p1) (hp2 : this.points[j]? = some p2)
    (hlt : p1.z < p2.z) :
    (∃ q1 q2, (this.move deltaZ moving makeAbsolute makeRelative).points[i]? = some q1
        ∧ (this.move deltaZ moving makeAbsolute makeRelative).points[j]? = some q2
        ∧ q1.z < q2.z)
      ∧ (this.pistonPosition_ + this.pistonLayers_ < this.deckHeight_ →
          deltaZ * (this.deckHeight_ - (this.pistonPosition_ + this.pistonLayers_))
            / (this.deckHeight_ - (this.pistonPosition_ + this.pistonLayers_)) = deltaZ)
      ∧ deltaZ * (this.deckHeight_ - this.deckHeight_)
          / (this.deckHeight_ - (this.pistonPosition_ + this.pistonLayers_)) = 0 := by
  refine ⟨⟨_, _,
    layeredEngineMesh.move_points_getElem? this deltaZ moving makeAbsolute makeRelative i p1 hp1,
    layeredEngineMesh.move_points_getElem? this deltaZ moving makeAbsolute makeRelative j p2 hp2,
    layeredEngineMesh.movePoint_z_lt deltaZ _ _ p1 p2 hdz hlt⟩, ?_, ?_⟩
  · intro h
    have hne : this.deckHeight_ - (this.pistonPosition_ + this.pistonLayers_) ≠ 0 := by
      intro h0
      linarith
    field_simp
  · simp

/-- The bowl point at height 1/2 and the liner point at height 3 of the
cylinder, moved with `deltaZ = 2 < 5 - (0 + 1)`: they go to heights 5/2 and 4
and keep their order. -/
theorem layeredEngineMesh_move_order_preserved_witness :
    ∃ q1 q2, (layeredEngineMesh.cylinder.move 2 false id id).points[0]? = some q1
      ∧ (layeredEngineMesh.cylinder.move 2 false id id).points[1]? = some q2
      ∧ q1.z < q2.z :=
  (layeredEngineMesh_move_order_preserved layeredEngineMesh.cylinder 2 false id id 0 1
    ⟨1, 2, 1 / 2⟩ ⟨3, 4, 3⟩ (by norm_num [layeredEngineMesh.cylinder]) rfl rfl
    (by norm_num)).1

/-- Counterexample to C28: with the piston at height 10 above the deck at
height 0 and `deltaZ = -20`, which is less than `deckHeight - (pistonPosition
+ pistonLayers) = -10`, the point at height 5 is at or above `deckHeight`
before the move; it is below `pistonPosition + pistonLayers`, so the first
branch moves it to height -15, below `deckHeight`. -/
theorem layeredEngineMesh_move_region_counterexample :
    (-20 : ℚ) < layeredEngineMesh.pistonAboveDeck.deckHeight_
        - (layeredEngineMesh.pistonAboveDeck.pistonPosition_
            + layeredEngineMesh.pistonAboveDeck.pistonLayers_)
      ∧ layeredEngineMesh.pistonAboveDeck.points = [⟨0, 0, 5⟩]
      ∧ layeredEngineMesh.pistonAboveDeck.deckHeight_ ≤ (⟨0, 0, 5⟩ : point).z
      ∧ (layeredEngineMesh.pistonAboveDeck.move (-20) false id id).points = [⟨0, 0, -15⟩]
      ∧ (layeredEngineMesh.pistonAboveDeck.move (-20) false id id).deckHeight_ = 0
      ∧ ¬ (layeredEngineMesh.pistonAboveDeck.move (-20) false id id).deckHeight_
            ≤ (⟨0, 0, -15⟩ : point).z := by
  refine ⟨?_, rfl, ?_, ?_, rfl, ?_⟩ <;>
    norm_num [layeredEngineMesh.pistonAboveDeck, layeredEngineMesh.move,
      layeredEngineMesh.movePoint, layeredEngineMesh.pistonPlusLayers]

/-- C28 as amended: provided `deltaZ < deckHeight - (pistonPosition +
pistonLayers)`, after the move, with `pistonPosition` increased by `deltaZ`,
every point that was in the piston bowl is below the new `pistonPosition +
pistonLayers`; every point that was in the liner region is at or above the
new `pistonPosition + pistonLayers` and strictly below `deckHeight`; every
point that was in neither is unchanged and at or above `deckHeight`.  A point
at or above `deckHeight` is in neither when it is also at or above
`pistonPosition + pistonLayers`, as are all such points when `pistonPosition
+ pistonLayers <= deckHeight`. -/
theorem layeredEngineMesh_move_region_preserved {Φ : Type} (this : layeredEngineMesh Φ)
    (deltaZ : ℚ) (moving : Bool) (makeAbsolute makeRelative : Φ → Φ) (pointi : Nat) (p : point)
    (hdz : deltaZ < this.deckHeight_ - (this.pistonPosition_ + this.pistonLayers_))
    (hp : this.points[pointi]? = some p) :
    ∃ q, (this.move deltaZ moving makeAbsolute makeRelative).points[pointi]? = some q
      ∧ (p.z < this.pistonPlusLayers →
          q.z < (this.move deltaZ moving makeAbsolute makeRelative).pistonPlusLayers)
      ∧ (¬ p.z < this.pistonPlusLayers → p.z < this.deckHeight_ →
          (this.move deltaZ moving makeAbsolute makeRelative).pistonPlusLayers ≤ q.z
            ∧ q.z < (this.move deltaZ moving makeAbsolute makeRelative).deckHeight_)
      ∧ (¬ p.z < this.pistonPlusLayers → ¬ p.z < this.deckHeight_ →
          q = p ∧ (this.move deltaZ moving makeAbsolute makeRelative).deckHeight_ ≤ q.z)
      ∧ (this.deckHeight_ ≤ p.z → this.pistonPlusLayers ≤ p.z →
          q = p ∧ (this.move deltaZ moving makeAbsolute makeRelative).deckHeight_ ≤ q.z)
      ∧ (this.pistonPlusLayers ≤ this.deckHeight_ → this.deckHeight_ ≤ p.z →
          q = p ∧ (this.move deltaZ moving makeAbsolute makeRelative).deckHeight_ ≤ q.z) := by
  have hP : (this.move deltaZ moving makeAbsolute makeRelative).pistonPlusLayers
      = this.pistonPlusLayers + deltaZ := by
    simp only [layeredEngineMesh.move, layeredEngineMesh.pistonPlusLayers]
    ring
  have hD : (this.move deltaZ moving makeAbsolute makeRelative).deckHeight_ = this.deckHeight_ :=
    rfl
  have hdz2 : deltaZ < this.deckHeight_ - this.pistonPlusLayers := hdz
  have hneither : ¬ p.z < this.pistonPlusLayers → ¬ p.z < this.deckHeight_ →
      layeredEngineMesh.movePoint deltaZ this.pistonPlusLayers this.deckHeight_ p = p
        ∧ this.deckHeight_
          ≤ (layeredEngineMesh.movePoint deltaZ this.pistonPlusLayers this.deckHeight_ p).z := by
    intro h1 h2
    have : layeredEngineMesh.movePoint deltaZ this.pistonPlusLayers this.deckHeight_ p = p := by
      simp [layeredEngineMesh.movePoint, h1, h2]
    rw [this]
    exact ⟨rfl, not_lt.1 h2⟩
  refine ⟨_,
    layeredEngineMesh.move_points_getElem? this deltaZ moving makeAbsolute makeRelative pointi p hp,
    ?_, ?_, ?_, ?_, ?_⟩
  · intro h
    rw [hP]
    simp only [layeredEngineMesh.movePoint, h, if_true]
    linarith
  · intro h1 h2
    rw [hP, hD]
    simp only [layeredEngineMesh.movePoint, h1, h2, if_true, if_false]
    have hpos : 0 < this.deckHeight_ - this.pistonPlusLayers := by
      have := not_lt.1 h1
      linarith
    have hne : this.deckHeight_ - this.pistonPlusLayers ≠ 0 := ne_of_gt hpos
    have hs : deltaZ / (this.deckHeight_ - this.pistonPlusLayers) < 1 := (div_lt_one hpos).2 hdz2
    have hd : deltaZ = deltaZ / (this.deckHeight_ - this.pistonPlusLayers)
        * (this.deckHeight_ - this.pistonPlusLayers) := by field_simp
    have e1 : deltaZ * (this.deckHeight_ - p.z) / (this.deckHeight_ - this.pistonPlusLayers)
        = deltaZ / (this.deckHeight_ - this.pistonPlusLayers) * (this.deckHeight_ - p.z) := by
      ring
    rw [e1]
    generalize deltaZ / (this.deckHeight_ - this.pistonPlusLayers) = s at hs hd ⊢
    constructor
    · nlinarith [mul_nonneg (sub_nonneg.2 (not_lt.1 h1)) (le_of_lt (sub_pos.2 hs))]
    · nlinarith [mul_pos (sub_pos.2 h2) (sub_pos.2 hs)]
  · intro h1 h2
    rw [hD]
    exact hneither h1 h2
  · intro h1 h2
    rw [hD]
    exact hneither (not_lt.2 h2) (not_lt.2 h1)
  · intro h1 h2
    rw [hD]
    exact hneither (not_lt.2 (le_trans h1 h2)) (not_lt.2 h2)

/-- The liner point at height 3 of the cylinder, moved with `deltaZ = 2 < 5 -
(0 + 1)`: the new `pistonPosition + pistonLayers` is 3, and the point, now at
height 4, is at or above it and below the deck at height 5. -/
theorem layeredEngineMesh_move_region_preserved_witness :
    (layeredEngineMesh.cylinder.move 2 false id id).pistonPlusLayers = 3
      ∧ ∃ q, (layeredEngineMesh.cylinder.move 2 false id id).points[1]? = some q
          ∧ (layeredEngineMesh.cylinder.move 2 false id id).pistonPlusLayers ≤ q.z
          ∧ q.z < (layeredEngineMesh.cylinder.move 2 false id id).deckHeight_ := by
  obtain ⟨q, hq, _, hliner, _⟩ :=
    layeredEngineMesh_move_region_preserved layeredEngineMesh.cylinder 2 false id id 1 ⟨3, 4, 3⟩
      (by norm_num [layeredEngineMesh.cylinder]) rfl
  refine ⟨by norm_num [layeredEngineMesh.move, layeredEngineMesh.cylinder,
    layeredEngineMesh.pistonPlusLayers], q, hq, ?_⟩
  exact hliner (by norm_num [layeredEngineMesh.cylinder, layeredEngineMesh.pistonPlusLayers])
    (by norm_num [layeredEngineMesh.cylinder])

/-! ## Stream input and output of a DSMC parcel -/

theorem DSMCParcel.exampleStream_roundTrips :
    IOstream.Primitives.RoundTrips DSMCParcel.exampleStream where
  parcel := by
    intro format newFormat b rest
    rfl
  vector := by
    intro v rest
    rfl
  scalar := by
    intro s rest
    rfl
  label := by
    intro l rest
    simp [DSMCParcel.exampleStream, DSMCParcel.exampleNumber]
  raw := by
    intro bytes rest
    simp [DSMCParcel.exampleStream]
  size := by
    intro U Ei typeId n
    simp only [DSMCParcel.exampleStream, List.length_take, List.length_append,
      List.length_replicate, List.length_cons, List.length_nil]
    omega
  members := by
    intro U Ei typeId
    simp [DSMCParcel.exampleStream]

/-- C30: the stream input and output of a `DSMCParcel` round-trip.  Given that
the base parcel type and the stream operations round-trip, for every parcel,
in ASCII format and in binary format with native label and scalar sizes,
constructing a `DSMCParcel` with `readFields = true` from what `operator<<`
wrote for that parcel, whatever was written before is read and whatever
follows, yields the same base parcel, velocity `U`, internal energy `Ei` and
`typeId` and leaves what follows unread.  Constructing with `readFields =
false` yields `U = 0`, `Ei = 0` and `typeId = -1` with the base parcel that the
base constructor gives, and fails only where the base constructor fails. -/
theorem DSMCParcel_stream_roundtrip {C B : Type} (ops : IOstream.Primitives C B)
    (hops : ops.RoundTrips) (os : IOstream C) (p : DSMCParcel B) (newFormat : Bool)
    (rest : List C)
    (hnative : os.format = IOstreamOption.streamFormat.BINARY →
      os.checkLabelSize = true ∧ os.checkScalarSize = true) :
    DSMCParcel.construct ops
        { os with content := ((DSMCParcel.write ops os p).content.drop os.content.length)
            ++ rest }
        true newFormat
      = some (p, { os with content := rest })
      ∧ (DSMCParcel.write ops os p).content.take os.content.length = os.content
      ∧ (DSMCParcel.write ops os p).format = os.format
      ∧ ∀ (is : IOstream C),
          DSMCParcel.construct ops is false newFormat
            = (ops.readParcel is.format false newFormat is.content).map
                (fun r => ({ base := r.1, U_ := ⟨0, 0, 0⟩, Ei_ := 0, typeId_ := -1 },
                  { is with content := r.2 })) := by
  refine ⟨?_, ?_, ?_, ?_⟩
  · cases hf : os.format
    · simp [DSMCParcel.construct, DSMCParcel.write, hf, hops.parcel, hops.vector, hops.scalar,
        hops.label]
    · obtain ⟨hl, hs⟩ := hnative hf
      have hraw := hops.raw (ops.objectBytes p.U_ p.Ei_ p.typeId_ ops.sizeofFields) rest
      rw [hops.size] at hraw
      simp [DSMCParcel.construct, DSMCParcel.write, hf, hops.parcel, hl, hs, hraw, hops.members]
  · unfold DSMCParcel.write
    split_ifs <;> simp
  · unfold DSMCParcel.write
    split_ifs <;> rfl
  · intro is
    unfold DSMCParcel.construct
    cases ops.readParcel is.format false newFormat is.content with
    | none => rfl
    | some r => rfl

/-- The example parcel written in binary format to a stream that holds one
character, then read back with one more character following: the parcel is
the one written and the character that follows is left. -/
theorem DSMCParcel_stream_roundtrip_witness :
    DSMCParcel.construct DSMCParcel.exampleStream
        { format := IOstreamOption.streamFormat.BINARY, checkLabelSize := true,
          checkScalarSize := true,
          content := ((DSMCParcel.write DSMCParcel.exampleStream
              { format := IOstreamOption.streamFormat.BINARY, checkLabelSize := true,
                checkScalarSize := true, content := [DSMCParcel.exampleChar.number 9] }
              DSMCParcel.exampleParcel).content.drop 1)
            ++ [DSMCParcel.exampleChar.number 8] }
        true false
      = some (DSMCParcel.exampleParcel,
          { format := IOstreamOption.streamFormat.BINARY, checkLabelSize := true,
            checkScalarSize := true, content := [DSMCParcel.exampleChar.number 8] }) :=
  (DSMCParcel_stream_roundtrip DSMCParcel.exampleStream DSMCParcel.exampleStream_roundTrips
    { format := IOstreamOption.streamFormat.BINARY, checkLabelSize := true,
      checkScalarSize := true, content := [DSMCParcel.exampleChar.number 9] }
    DSMCParcel.exampleParcel false [DSMCParcel.exampleChar.number 8]
    (fun _ => ⟨rfl, rfl⟩)).1

/-- The example parcel in ASCII format: what `operator<<` writes, and that the
constructor reads it back. -/
theorem DSMCParcel.exampleParcel_ascii :
    (DSMCParcel.write DSMCParcel.exampleStream
        { format := IOstreamOption.streamFormat.ASCII, checkLabelSize := true,
          checkScalarSize := true, content := [] } DSMCParcel.exampleParcel).content
      = [DSMCParcel.exampleChar.number 7, DSMCParcel.exampleChar.SPACE,
          DSMCParcel.exampleChar.number 1, DSMCParcel.exampleChar.number 2,
          DSMCParcel.exampleChar.number 3, DSMCParcel.exampleChar.SPACE,
          DSMCParcel.exampleChar.number (1 / 2), DSMCParcel.exampleChar.SPACE,
          DSMCParcel.exampleChar.number 4]
      ∧ DSMCParcel.construct DSMCParcel.exampleStream
          { format := IOstreamOption.streamFormat.ASCII, checkLabelSize := true,
            checkScalarSize := true,
            content := [DSMCParcel.exampleChar.number 7, DSMCParcel.exampleChar.SPACE,
              DSMCParcel.exampleChar.number 1, DSMCParcel.exampleChar.number 2,
              DSMCParcel.exampleChar.number 3, DSMCParcel.exampleChar.SPACE,
              DSMCParcel.exampleChar.number (1 / 2), DSMCParcel.exampleChar.SPACE,
              DSMCParcel.exampleChar.number 4] }
          true false
        = some (DSMCParcel.exampleParcel,
            { format := IOstreamOption.streamFormat.ASCII, checkLabelSize := true,
              checkScalarSize := true, content := [] }) := by
  constructor
  · simp [DSMCParcel.write, DSMCParcel.exampleStream, DSMCParcel.exampleParcel]
  · simp [DSMCParcel.construct, DSMCParcel.exampleStream, DSMCParcel.exampleNumber,
      DSMCParcel.exampleParcel]
